import Mathlib

/-!
# CedarLogic gate library (`src/gui/parse/GateLibrary.cpp`)

A shallow embedding of `GateLibrary::parseFile`, `GateLibrary::parseShapeObject`,
the lookup functions and `GateLibrary::defineBlackBox`, followed by theorems about them.

Conventions of the embedding

* `float` and `double` values are IEEE-754 binary32 / binary64 data (`Fp`); every arithmetic
  operation computes the exact rational result and rounds it to nearest, ties to even.
* `std::istringstream` extraction (`iss >> x`) is the state-passing family `IStream.get…`.
* The tag reader (`XMLParser`) is a cursor over a list of tokens.
* Loops that the source does not bound take a fuel argument and return `none` when it runs out.
-/

namespace CedarLogic

/-! ## IEEE-754 data -/

/-- Floating-point datum (`float`, `double`): a finite value, an infinity (`neg` is its sign) or
NaN.  The two zeros are not distinguished. -/
inductive Fp where
  | fin (q : ℚ)
  | inf (neg : Bool)
  | nan
  deriving DecidableEq

/-- Binary interchange format: precision in bits, least and greatest exponent of a normal
number. -/
structure Fmt where
  prec : Nat
  emin : Int
  emax : Int

/-- The format of `float`. -/
def binary32 : Fmt := ⟨24, -126, 127⟩

/-- The format of `double`. -/
def binary64 : Fmt := ⟨53, -1022, 1023⟩

/-- Number of halvings that bring `n` below 2, at most `fuel` of them. -/
def log2Fuel : Nat → Nat → Nat
  | 0, _ => 0
  | fuel + 1, n => if n < 2 then 0 else log2Fuel fuel (n / 2) + 1

/-- Floor of the binary logarithm of a positive natural number. -/
def natLog2 (n : Nat) : Nat := log2Fuel n n

/-- Floor of the binary logarithm of the positive rational `n / d`. -/
def floorLog2 (n d : Nat) : Int :=
  let e0 : Int := (natLog2 n : Int) - (natLog2 d : Int)
  if 0 ≤ e0 then
    if d * 2 ^ e0.toNat ≤ n then e0 else e0 - 1
  else
    if d ≤ n * 2 ^ (-e0).toNat then e0 else e0 - 1

/-- The integer nearest to `n / d`, the even one of the two when `n / d` lies half way. -/
def roundHalfEven (n d : Nat) : Nat :=
  let q := n / d
  let r := n % d
  if 2 * r < d then q
  else if d < 2 * r then q + 1
  else if q % 2 = 0 then q else q + 1

/-- Greatest finite magnitude of the format (`FLT_MAX` for `binary32`). -/
def Fmt.maxFinite (f : Fmt) : ℚ :=
  (((2 ^ f.prec - 1) * 2 ^ (f.emax + 1 - (f.prec : Int)).toNat : Nat) : ℚ)

/-- Magnitude of `n / d` (both positive) rounded to the format, as a rational; overflow is not
yet taken into account. -/
def Fmt.roundMag (f : Fmt) (n d : Nat) : ℚ :=
  let e : Int := max (floorLog2 n d) f.emin
  let sh : Int := e - ((f.prec : Int) - 1)
  if 0 ≤ sh then
    ((roundHalfEven n (d * 2 ^ sh.toNat) * 2 ^ sh.toNat : Nat) : ℚ)
  else
    mkRat (roundHalfEven (n * 2 ^ (-sh).toNat) d) (2 ^ (-sh).toNat)

/-- Rounding of an exact result to the format: to nearest, ties to even, with gradual underflow
and overflow to infinity. -/
def Fmt.round (f : Fmt) (q : ℚ) : Fp :=
  if q = 0 then .fin 0
  else
    let v := f.roundMag q.num.natAbs q.den
    if f.maxFinite < v then .inf (decide (q < 0))
    else .fin (if q < 0 then -v else v)

/-- Conversion of a datum to the format (`(float)d`, or the implicit narrowing of an
assignment). -/
def Fmt.cast (f : Fmt) : Fp → Fp
  | .fin q => f.round q
  | x => x

/-- Negation. -/
def Fp.neg : Fp → Fp
  | .fin q => .fin (-q)
  | .inf s => .inf (!s)
  | .nan => .nan

/-- Addition in format `f`. -/
def Fp.add (f : Fmt) : Fp → Fp → Fp
  | .fin a, .fin b => f.round (a + b)
  | .nan, _ => .nan
  | _, .nan => .nan
  | .inf s, .inf t => if s = t then .inf s else .nan
  | .inf s, .fin _ => .inf s
  | .fin _, .inf t => .inf t

/-- Multiplication in format `f`. -/
def Fp.mul (f : Fmt) : Fp → Fp → Fp
  | .fin a, .fin b => f.round (a * b)
  | .nan, _ => .nan
  | _, .nan => .nan
  | .inf s, .inf t => .inf (xor s t)
  | .inf s, .fin b => if b = 0 then .nan else .inf (xor s (decide (b < 0)))
  | .fin a, .inf t => if a = 0 then .nan else .inf (xor (decide (a < 0)) t)

/-- Division in format `f`. -/
def Fp.div (f : Fmt) : Fp → Fp → Fp
  | .fin a, .fin b =>
      if b = 0 then (if a = 0 then .nan else .inf (decide (a < 0)))
      else f.round (a / b)
  | .nan, _ => .nan
  | _, .nan => .nan
  | .inf _, .inf _ => .nan
  | .inf s, .fin b => .inf (xor s (decide (b < 0)))
  | .fin _, .inf _ => .fin 0

/-- The comparison `a <= b`. -/
def Fp.le : Fp → Fp → Bool
  | .fin a, .fin b => decide (a ≤ b)
  | .nan, _ => false
  | _, .nan => false
  | .inf s, .inf t => s || !t
  | .inf s, .fin _ => s
  | .fin _, .inf t => !t

/-- The `float` nearest to an exact value (a literal such as `3.1416f`, or `(float)n`). -/
def toFloat (q : ℚ) : Fp := binary32.round q

/-- The `double` nearest to an exact value. -/
def toDouble (q : ℚ) : Fp := binary64.round q

/-! ## Formatted extraction from `std::istringstream` -/

/-- Input string stream: the characters not yet read and the fail bit. -/
structure IStream where
  buf : List Char
  fail : Bool
  deriving DecidableEq

/-- The stream `istringstream iss(s)`. -/
def IStream.ofString (s : String) : IStream := ⟨s.data, false⟩

/-- The characters `isspace` accepts in the C locale. -/
def isSpace (c : Char) : Bool :=
  c = ' ' || c = '\t' || c = '\n' || c = '\x0b' || c = '\x0c' || c = '\r'

/-- Leading white space removed. -/
def skipWs (cs : List Char) : List Char := cs.dropWhile isSpace

/-- Value of a decimal digit character. -/
def digitVal (c : Char) : Nat := c.toNat - 48

/-- Value of a string of decimal digits. -/
def digitsVal (ds : List Char) : Nat := ds.foldl (fun n c => 10 * n + digitVal c) 0

/-- The longest prefix of decimal digits, and the rest. -/
def spanDigits (cs : List Char) : List Char × List Char := cs.span Char.isDigit

/-- An optional sign: whether it is a minus, and the rest. -/
def scanSign : List Char → Bool × List Char
  | '-' :: cs => (true, cs)
  | '+' :: cs => (false, cs)
  | cs => (false, cs)

/-- A decimal integer at the head of the input: optional sign and at least one digit. -/
def scanInteger (cs : List Char) : Option (Int × List Char) :=
  let (neg, cs1) := scanSign cs
  let (ds, cs2) := spanDigits cs1
  if ds = [] then none
  else some (if neg then -(digitsVal ds : Int) else (digitsVal ds : Int), cs2)

/-- The mantissa of a decimal floating-point numeral at the head of the input: optional sign,
digits with an optional point, at least one digit. -/
def scanMantissa (cs : List Char) : Option (ℚ × List Char) :=
  let (neg, cs1) := scanSign cs
  let (ip, cs2) := spanDigits cs1
  let (fp, cs3) :=
    match cs2 with
    | '.' :: t => spanDigits t
    | _ => ([], cs2)
  if ip = [] ∧ fp = [] then none
  else
    let mant : ℚ := mkRat (digitsVal (ip ++ fp)) (10 ^ fp.length)
    some (if neg then -mant else mant, cs3)

/-- The exponent part of a numeral, after its `e` or `E`: optional sign and at least one digit;
the result is the power of ten and the rest. -/
def scanExponent (cs : List Char) : Option (ℚ × List Char) :=
  let (eneg, t1) := scanSign cs
  let (ed, t2) := spanDigits t1
  if ed = [] then none
  else if eneg then some (mkRat 1 (10 ^ digitsVal ed), t2)
  else some (((10 ^ digitsVal ed : Nat) : ℚ), t2)

/-- A decimal floating-point numeral at the head of the input, as formatted extraction reads it:
a mantissa and an optional exponent; an `e` or `E` without an exponent after it spoils the
numeral.  Hexadecimal numerals and the words `inf` and `nan` are not read. -/
def scanDecimal (cs : List Char) : Option (ℚ × List Char) :=
  match scanMantissa cs with
  | none => none
  | some (mant, 'e' :: t) => (scanExponent t).map (fun r => (mant * r.1, r.2))
  | some (mant, 'E' :: t) => (scanExponent t).map (fun r => (mant * r.1, r.2))
  | some (mant, rest) => some (mant, rest)

/-- A decimal floating-point numeral at the head of the input, as `strtod` reads it: the longest
prefix that is a numeral, so that an `e` or `E` without an exponent after it is left unread. -/
def scanStrtod (cs : List Char) : Option (ℚ × List Char) :=
  match scanMantissa cs with
  | none => none
  | some (mant, 'e' :: t) =>
      some (((scanExponent t).map (fun r => (mant * r.1, r.2))).getD (mant, 'e' :: t))
  | some (mant, 'E' :: t) =>
      some (((scanExponent t).map (fun r => (mant * r.1, r.2))).getD (mant, 'E' :: t))
  | some (mant, rest) => some (mant, rest)

/-- The extraction `iss >> x` for a `float` or `double` variable `x` holding `old`.  A stream
that has failed, or holds nothing but white space, leaves `x` alone; a stream whose next field
is no numeral stores zero and fails; a numeral beyond the range of the format stores the
greatest finite value of its sign and fails. -/
def IStream.getFloat (f : Fmt) (old : Fp) (s : IStream) : Fp × IStream :=
  if s.fail then (old, s)
  else
    match skipWs s.buf with
    | [] => (old, ⟨[], true⟩)
    | c :: cs =>
        match scanDecimal (c :: cs) with
        | none => (.fin 0, ⟨c :: cs, true⟩)
        | some (q, rest) =>
            match f.round q with
            | .fin v => (.fin v, ⟨rest, false⟩)
            | .inf neg => (.fin (if neg then -f.maxFinite else f.maxFinite), ⟨rest, true⟩)
            | .nan => (.nan, ⟨rest, true⟩)

/-- The nearest value of the type `long` (64 bits). -/
def clampLong (n : Int) : Int := max (-9223372036854775808) (min n 9223372036854775807)

/-- The extraction `iss >> n` for a `long` variable holding `old`: a stream whose next field is
no integer stores zero and fails; an integer beyond the range of `long` stores the nearest
`long` and fails. -/
def IStream.getLong (old : Int) (s : IStream) : Int × IStream :=
  if s.fail then (old, s)
  else
    match skipWs s.buf with
    | [] => (old, ⟨[], true⟩)
    | c :: cs =>
        match scanInteger (c :: cs) with
        | none => (0, ⟨c :: cs, true⟩)
        | some (n, rest) => (clampLong n, ⟨rest, decide (clampLong n ≠ n)⟩)

/-- The extraction `iss >> dump` of one non-blank character, which the source discards. -/
def IStream.getChar (s : IStream) : IStream :=
  if s.fail then s
  else
    match skipWs s.buf with
    | [] => ⟨[], true⟩
    | _ :: cs => ⟨cs, false⟩

/-- The extraction `iss >> w` for a `std::string` variable holding `old`: the next
white-space-delimited word. -/
def IStream.getWord (old : String) (s : IStream) : String × IStream :=
  if s.fail then (old, s)
  else
    match skipWs s.buf with
    | [] => (old, ⟨[], true⟩)
    | c :: cs =>
        (String.mk ((c :: cs).takeWhile (fun x => !isSpace x)),
          ⟨(c :: cs).dropWhile (fun x => !isSpace x), false⟩)

/-- The conversion of an integer to `int`: the low 32 bits, read in two's complement. -/
def toInt32 (n : Int) : Int := (n + 2147483648) % 4294967296 - 2147483648

/-- The C function `atoi`, the `int` of `strtol(s, 0, 10)`: white space, optional sign, digits;
`0` when there is no digit.  For a numeral beyond the range of `long`, `strtol` gives the
nearest `long`, and the conversion to `int` keeps the low 32 bits. -/
def atoi (s : String) : Int :=
  match scanInteger (skipWs s.data) with
  | some (n, _) => toInt32 (clampLong n)
  | none => 0

/-- Whether the character is a hexadecimal digit. -/
def isHexDigit (c : Char) : Bool :=
  c.isDigit || (97 ≤ c.toNat && c.toNat ≤ 102) || (65 ≤ c.toNat && c.toNat ≤ 70)

/-- Value of a hexadecimal digit character. -/
def hexDigitVal (c : Char) : Nat :=
  if c.isDigit then c.toNat - 48 else if 97 ≤ c.toNat then c.toNat - 87 else c.toNat - 55

/-- Value of a string of hexadecimal digits. -/
def hexDigitsVal (ds : List Char) : Nat := ds.foldl (fun n c => 16 * n + hexDigitVal c) 0

/-- The binary exponent of a hexadecimal numeral, after its `p` or `P`: optional sign and at
least one decimal digit; the result is the power of two and the rest. -/
def scanBinExponent (cs : List Char) : Option (ℚ × List Char) :=
  let (eneg, t1) := scanSign cs
  let (ed, t2) := spanDigits t1
  if ed = [] then none
  else if eneg then some (mkRat 1 (2 ^ digitsVal ed), t2)
  else some (((2 ^ digitsVal ed : Nat) : ℚ), t2)

/-- The part of a hexadecimal floating-point numeral after its `0x`, as `strtod` reads it:
hexadecimal digits with an optional point, at least one digit, and an optional binary
exponent; a `p` or `P` without an exponent after it is left unread. -/
def scanHexBody (cs : List Char) : Option (ℚ × List Char) :=
  let (ip, cs2) := cs.span isHexDigit
  let (fp, cs3) :=
    match cs2 with
    | '.' :: t => t.span isHexDigit
    | _ => ([], cs2)
  if ip = [] ∧ fp = [] then none
  else
    let mant : ℚ := mkRat (hexDigitsVal (ip ++ fp)) (16 ^ fp.length)
    match cs3 with
    | 'p' :: t => some (((scanBinExponent t).map (fun r => (mant * r.1, r.2))).getD (mant, cs3))
    | 'P' :: t => some (((scanBinExponent t).map (fun r => (mant * r.1, r.2))).getD (mant, cs3))
    | _ => some (mant, cs3)

/-- Whether the input begins with the lower-case word `w`, letter case disregarded. -/
def startsWithNoCase (w cs : List Char) : Bool :=
  decide ((cs.take w.length).map Char.toLower = w)

/-- The C function `atof`, which is `strtod(s, 0)`: after white space and an optional sign, the
word `inf` (or `infinity`) gives an infinity and the word `nan` a NaN, in any letter case; a
hexadecimal numeral after `0x` or a decimal numeral gives the `double` nearest to it; anything
else gives `0`. -/
def atof (s : String) : Fp :=
  let cs := skipWs s.data
  let (neg, body) := scanSign cs
  if startsWithNoCase ['i', 'n', 'f'] body then .inf neg
  else if startsWithNoCase ['n', 'a', 'n'] body then .nan
  else
    match (if startsWithNoCase ['0', 'x'] body then scanHexBody (body.drop 2) else none) with
    | some (q, _) => binary64.round (if neg then -q else q)
    | none =>
        match scanStrtod cs with
        | some (q, _) => binary64.round q
        | none => .fin 0

/-! ## Data model (`GateLibrary.h`) -/

/-- A `std::map<std::string, T>`: the entries as a list with one entry per key.  The order of
iteration is not modelled; the source never iterates over the maps it builds. -/
abbrev StrMap (α : Type) := List (String × α)

/-- The member function `find`: the value stored under the key, if any. -/
def StrMap.find {α : Type} : StrMap α → String → Option α
  | [], _ => none
  | (k, v) :: m, key => if k = key then some v else StrMap.find m key

/-- The assignment `m[key] = v`: overwrites the entry of `key`, or adds one. -/
def StrMap.set {α : Type} : StrMap α → String → α → StrMap α
  | [], key, v => [(key, v)]
  | (k, w) :: m, key, v => if k = key then (k, v) :: m else (k, w) :: StrMap.set m key v

/-- The struct `LibraryGateLine`: a segment from `(x1, y1)` to `(x2, y2)`, in `float`s. -/
structure LibraryGateLine where
  x1 : Fp
  y1 : Fp
  x2 : Fp
  y2 : Fp
  deriving DecidableEq

/-- The struct `LibraryGateHotspot`. -/
structure LibraryGateHotspot where
  name : String
  isInput : Bool
  x : Fp
  y : Fp
  isInverted : Bool
  logicEInput : String
  busLines : Int
  deriving DecidableEq

/-- The struct `LibraryGateDialogParamter`. -/
structure LibraryGateDialogParamter where
  textLabel : String
  name : String
  type : String
  isGui : Bool
  Rmin : Fp
  Rmax : Fp
  deriving DecidableEq

/-- The fields of a `gl_text` label that `defineBlackBox` sets. -/
structure gl_text where
  text : String
  rotation : Fp
  color : Fp × Fp × Fp × Fp
  size : Fp
  position : Fp × Fp
  deriving DecidableEq

/-- The struct `LibraryGate`. -/
structure LibraryGate where
  gateName : String
  caption : String
  guiType : String
  logicType : String
  guiParams : StrMap String
  logicParams : StrMap String
  hotspots : List LibraryGateHotspot
  shape : List LibraryGateLine
  dlgParams : List LibraryGateDialogParamter
  labels : List gl_text
  deriving DecidableEq

/-- A default-constructed `LibraryGate`. -/
def LibraryGate.empty : LibraryGate :=
  { gateName := "", caption := "", guiType := "", logicType := "", guiParams := [],
    logicParams := [], hotspots := [], shape := [], dlgParams := [], labels := [] }

/-! ## Tag reader (`XMLParser`) -/

/-- Modelled from the spec: the input of the tag reader `XMLParser`, whose source is missing, as
the sequence of its opening tags, closing tags and text values. -/
inductive Tok where
  | openTag (name : String)
  | closeTag (name : String)
  | text (value : String)
  deriving DecidableEq

/-- Modelled from the spec: the cursor of the tag reader `XMLParser` (its source is missing), as
the tokens not yet read. -/
abbrev XMLParser := List Tok

/-- Modelled from the spec: `XMLParser::readTag` (missing), "read next opening tag name", giving
"tag name or empty (end marker)": an opening tag under the cursor is consumed and its name
returned; anything else leaves the cursor in place and gives the empty string. -/
def XMLParser.readTag : XMLParser → String × XMLParser
  | .openTag n :: p => (n, p)
  | p => ("", p)

/-- Modelled from the spec: `XMLParser::readTagValue` (missing), "read the text value inside the
current tag": a text under the cursor is consumed and returned; with no text the value is
empty. -/
def XMLParser.readTagValue (_tagName : String) : XMLParser → String × XMLParser
  | .text v :: p => (v, p)
  | p => ("", p)

/-- Modelled from the spec: `XMLParser::readCloseTag` (missing), "read the matching closing
tag": the closing tag under the cursor is consumed, together with a text value before it that
was left unread (the source reaches line 109 without reading the value). -/
def XMLParser.readCloseTag : XMLParser → XMLParser
  | .text _ :: p => XMLParser.readCloseTag p
  | .closeTag _ :: p => p
  | p => p

/-- Modelled from the spec: `XMLParser::isCloseTag(getCurrentIndex())` (missing), "is the cursor
currently at a closing tag". -/
def XMLParser.isCloseTag : XMLParser → Bool
  | .closeTag _ :: _ => true
  | _ => false

/-! ## `GateLibrary::parseShapeObject` -/

/-- The functions `sin` and `cos` of `<cmath>`, which the embedding does not interpret. -/
structure Libm where
  sin : Fp → Fp
  cos : Fp → Fp

/-- The statement `x1 += offX` for a `float` `x1` and a `double` `offX`: the sum is formed in
`double` and narrowed to `float`. -/
def addOffset (x off : Fp) : Fp := binary32.cast (Fp.add binary64 x off)

/-- The chord loop of the `circle` branch (lines 289-297): `i` is the loop variable, `last` the
end point of the previous chord, `shape` the segments of the gate so far. -/
def circleLoop (m : Libm) (x1 y1 radius degStep : Fp) :
    Nat → Fp → Fp × Fp → List LibraryGateLine → Option (List LibraryGateLine)
  | 0, _, _, _ => none
  | fuel + 1, i, last, shape =>
      if Fp.le i (toFloat 360) then
        let degInRad := Fp.div binary32 (Fp.mul binary32 i (toFloat (31416 / 10000))) (toFloat 180)
        let theX := binary32.cast (Fp.add binary64 (Fp.mul binary64 (m.sin degInRad) radius) x1)
        let theY := binary32.cast (Fp.add binary64 (Fp.mul binary64 (m.cos degInRad) radius) y1)
        circleLoop m x1 y1 radius degStep fuel (Fp.add binary32 i degStep) (theX, theY)
          (shape ++ [⟨last.1, last.2, theX, theY⟩])
      else some shape

/-- The extractions `iss >> x1 >> dump >> y1 >> dump >> x2 >> dump >> y2` of the `line` branch.
The four locals are uninitialised in the source; they start at zero here. -/
def readLine (value : String) : Fp × Fp × Fp × Fp :=
  let iss := IStream.ofString value
  let (x1, iss) := iss.getFloat binary32 (.fin 0)
  let iss := iss.getChar
  let (y1, iss) := iss.getFloat binary32 (.fin 0)
  let iss := iss.getChar
  let (x2, iss) := iss.getFloat binary32 (.fin 0)
  let iss := iss.getChar
  let (y2, _) := iss.getFloat binary32 (.fin 0)
  (x1, y1, x2, y2)

/-- The extractions `iss >> x1 >> dump >> y1 >> dump >> radius >> dump >> numSegs` of the
`circle` branch, with `radius = 1.0` and `numSegs = 12` beforehand. -/
def readCircle (value : String) : Fp × Fp × Fp × Int :=
  let iss := IStream.ofString value
  let (x1, iss) := iss.getFloat binary32 (.fin 0)
  let iss := iss.getChar
  let (y1, iss) := iss.getFloat binary32 (.fin 0)
  let iss := iss.getChar
  let (radius, iss) := iss.getFloat binary64 (.fin 1)
  let iss := iss.getChar
  let (numSegs, _) := iss.getLong 12
  (x1, y1, radius, numSegs)

/-- The function `GateLibrary::parseShapeObject(type, newGate, offX, offY)`: the returned flag,
the reader and the gate afterwards; `none` when the chord loop does not end within `fuel`
iterations. -/
def parseShapeObject (m : Libm) (fuel : Nat) (type : String) (mParse : XMLParser)
    (newGate : LibraryGate) (offX offY : Fp) : Option (Bool × XMLParser × LibraryGate) :=
  if type = "line" then
    let (temp, mParse) := mParse.readTagValue "line"
    let mParse := mParse.readCloseTag
    let (x1, y1, x2, y2) := readLine temp
    let x1 := addOffset x1 offX
    let x2 := addOffset x2 offX
    let y1 := addOffset y1 offY
    let y2 := addOffset y2 offY
    some (true, mParse, { newGate with shape := newGate.shape ++ [⟨x1, y1, x2, y2⟩] })
  else if type = "circle" then
    let (temp, mParse) := mParse.readTagValue "circle"
    let mParse := mParse.readCloseTag
    let (x1, y1, radius, numSegs) := readCircle temp
    let x1 := addOffset x1 offX
    let y1 := addOffset y1 offY
    let lastX := x1
    let lastY := binary32.cast (Fp.add binary64 radius y1)
    let degStep := binary32.cast (Fp.div binary64 (toDouble 360) (toFloat numSegs))
    match circleLoop m x1 y1 radius degStep fuel degStep (lastX, lastY) newGate.shape with
    | none => none
    | some shape => some (true, mParse, { newGate with shape := shape })
  else some (false, mParse, newGate)

/-! ## `GateLibrary::parseFile` -/

/-- The locals of the `input` / `output` branch (lines 80-86). -/
structure HotspotVars where
  hsName : String
  x1 : Fp
  y1 : Fp
  isInverted : String
  logicEInput : String
  busLines : Int
  deriving DecidableEq

/-- The defaults assigned on entry to a hotspot block (lines 82-86). -/
def HotspotVars.init : HotspotVars :=
  { hsName := "", x1 := .fin 0, y1 := .fin 0, isInverted := "false", logicEInput := "",
    busLines := 1 }

/-- The extractions `iss >> a >> dump >> b` on a text value, used for `point` and `range`. -/
def readPair (value : String) (a b : Fp) : Fp × Fp :=
  let iss := IStream.ofString value
  let (a, iss) := iss.getFloat binary32 a
  let iss := iss.getChar
  let (b, _) := iss.getFloat binary32 b
  (a, b)

/-- One child tag `temp` of a hotspot block (lines 91-114). -/
def hotspotChild (hsType temp : String) (v : HotspotVars) (mParse : XMLParser) :
    HotspotVars × XMLParser :=
  if temp = "name" then
    let (s, mParse) := mParse.readTagValue "name"
    ({ v with hsName := s }, mParse.readCloseTag)
  else if temp = "point" then
    let (s, mParse) := mParse.readTagValue "point"
    let (x1, y1) := readPair s v.x1 v.y1
    ({ v with x1 := x1, y1 := y1 }, mParse.readCloseTag)
  else if temp = "inverted" then
    let (s, mParse) := mParse.readTagValue "inverted"
    ({ v with isInverted := s }, mParse.readCloseTag)
  else if temp = "enable_input" then
    if hsType = "output" then
      let (s, mParse) := mParse.readTagValue "enable_input"
      ({ v with logicEInput := s }, mParse.readCloseTag)
    else (v, mParse.readCloseTag)
  else if temp = "bus" then
    let (s, mParse) := mParse.readTagValue "bus"
    ({ v with busLines := atoi s }, mParse.readCloseTag)
  else (v, mParse)

/-- The loop over the children of a hotspot block (lines 88-116). -/
def hotspotLoop (hsType : String) : Nat → HotspotVars → XMLParser → Option (HotspotVars × XMLParser)
  | 0, _, _ => none
  | fuel + 1, v, mParse =>
      let (temp, mParse) := mParse.readTag
      if temp = "" then some (v, mParse)
      else
        let (v, mParse) := hotspotChild hsType temp v mParse
        if mParse.isCloseTag then some (v, mParse) else hotspotLoop hsType fuel v mParse

/-- The hotspot built from the locals (lines 118-125). -/
def mkHotspot (hsType : String) (v : HotspotVars) : LibraryGateHotspot :=
  { name := v.hsName, isInput := decide (hsType = "input"), x := v.x1, y := v.y1,
    isInverted := decide (v.isInverted = "true"), logicEInput := v.logicEInput,
    busLines := v.busLines }

/-- The `input` / `output` branch of the gate body (lines 78-131); `temp` is the tag read. -/
def parseHotspot (fuel : Nat) (temp : String) (newGate : LibraryGate) (mParse : XMLParser) :
    Option (LibraryGate × XMLParser) :=
  match hotspotLoop temp fuel HotspotVars.init mParse with
  | none => none
  | some (v, mParse) =>
      some ({ newGate with hotspots := newGate.hotspots ++ [mkHotspot temp v] },
        mParse.readCloseTag)

/-- The loop over the shape objects of an `offset` scope (lines 151-155). -/
def offsetLoop (m : Libm) (offX offY : Fp) :
    Nat → LibraryGate → XMLParser → Option (LibraryGate × XMLParser)
  | 0, _, _ => none
  | fuel + 1, newGate, mParse =>
      let (temp, mParse) := mParse.readTag
      if temp = "" then some (newGate, mParse)
      else
        match parseShapeObject m fuel temp mParse newGate offX offY with
        | none => none
        | some (_, mParse, newGate) =>
            if mParse.isCloseTag then some (newGate, mParse)
            else offsetLoop m offX offY fuel newGate mParse

/-- The loop over the children of a `shape` block (lines 134-161). -/
def shapeLoop (m : Libm) : Nat → LibraryGate → XMLParser → Option (LibraryGate × XMLParser)
  | 0, _, _ => none
  | fuel + 1, newGate, mParse =>
      let (temp, mParse) := mParse.readTag
      if temp = "" then some (newGate, mParse)
      else if temp = "offset" then
        let (temp, mParse) := mParse.readTag
        if temp = "point" then
          let (s, mParse) := mParse.readTagValue "point"
          let mParse := mParse.readCloseTag
          let (offX, offY) := readPair s (.fin 0) (.fin 0)
          match offsetLoop m offX offY fuel newGate mParse with
          | none => none
          | some (newGate, mParse) =>
              let mParse := mParse.readCloseTag
              if mParse.isCloseTag then some (newGate, mParse)
              else shapeLoop m fuel newGate mParse
        else some (newGate, mParse)
      else
        match parseShapeObject m fuel temp mParse newGate (.fin 0) (.fin 0) with
        | none => none
        | some (_, mParse, newGate) =>
            if mParse.isCloseTag then some (newGate, mParse)
            else shapeLoop m fuel newGate mParse

/-- The `shape` branch of the gate body (lines 132-164). -/
def parseShape (m : Libm) (fuel : Nat) (newGate : LibraryGate) (mParse : XMLParser) :
    Option (LibraryGate × XMLParser) :=
  match shapeLoop m fuel newGate mParse with
  | none => none
  | some (newGate, mParse) => some (newGate, mParse.readCloseTag)

/-- The locals of a `param` block (lines 172-176). -/
structure ParamVars where
  type : String
  textLabel : String
  name : String
  logicOrGui : String
  Rmin : Fp
  Rmax : Fp
  deriving DecidableEq

/-- The defaults assigned on entry to a `param` block; `FLT_MAX` is the greatest finite
`float`. -/
def ParamVars.init : ParamVars :=
  { type := "STRING", textLabel := "", name := "", logicOrGui := "GUI",
    Rmin := .fin (-binary32.maxFinite), Rmax := .fin binary32.maxFinite }

/-- The extractions `iss >> a >> b` of two words from a text value. -/
def readWords (value : String) (a b : String) : String × String :=
  let iss := IStream.ofString value
  let (a, iss) := iss.getWord a
  let (b, _) := iss.getWord b
  (a, b)

/-- One child tag `temp` of a `param` block (lines 181-200). -/
def paramChild (temp : String) (v : ParamVars) (mParse : XMLParser) : ParamVars × XMLParser :=
  if temp = "type" then
    let (s, mParse) := mParse.readTagValue "type"
    ({ v with type := s }, mParse.readCloseTag)
  else if temp = "label" then
    let (s, mParse) := mParse.readTagValue "label"
    ({ v with textLabel := s }, mParse.readCloseTag)
  else if temp = "varname" then
    let (s, mParse) := mParse.readTagValue "varname"
    let (logicOrGui, name) := readWords s v.logicOrGui v.name
    ({ v with logicOrGui := logicOrGui, name := name }, mParse.readCloseTag)
  else if temp = "range" then
    let (s, mParse) := mParse.readTagValue "range"
    let (Rmin, Rmax) := readPair s v.Rmin v.Rmax
    ({ v with Rmin := Rmin, Rmax := Rmax }, mParse.readCloseTag)
  else (v, mParse)

/-- The loop over the children of a `param` block (lines 178-201). -/
def paramLoop : Nat → ParamVars → XMLParser → Option (ParamVars × XMLParser)
  | 0, _, _ => none
  | fuel + 1, v, mParse =>
      let (temp, mParse) := mParse.readTag
      if temp = "" then some (v, mParse)
      else
        let (v, mParse) := paramChild temp v mParse
        if mParse.isCloseTag then some (v, mParse) else paramLoop fuel v mParse

/-- The dialog parameter built from the locals (lines 203-209). -/
def mkDialogParam (v : ParamVars) : LibraryGateDialogParamter :=
  { textLabel := v.textLabel, name := v.name, type := v.type,
    isGui := decide (v.logicOrGui = "GUI"), Rmin := v.Rmin, Rmax := v.Rmax }

/-- The loop over the children of a `param_dlg_data` block (lines 168-214). -/
def paramDlgLoop : Nat → LibraryGate → XMLParser → Option (LibraryGate × XMLParser)
  | 0, _, _ => none
  | fuel + 1, newGate, mParse =>
      let (temp, mParse) := mParse.readTag
      if temp = "" then some (newGate, mParse)
      else if temp = "param" then
        match paramLoop fuel ParamVars.init mParse with
        | none => none
        | some (v, mParse) =>
            let newGate := { newGate with dlgParams := newGate.dlgParams ++ [mkDialogParam v] }
            let mParse := mParse.readCloseTag
            if mParse.isCloseTag then some (newGate, mParse)
            else paramDlgLoop fuel newGate mParse
      else
        if mParse.isCloseTag then some (newGate, mParse)
        else paramDlgLoop fuel newGate mParse

/-- The `param_dlg_data` branch of the gate body (lines 165-217). -/
def parseParamDlg (fuel : Nat) (newGate : LibraryGate) (mParse : XMLParser) :
    Option (LibraryGate × XMLParser) :=
  match paramDlgLoop fuel newGate mParse with
  | none => none
  | some (newGate, mParse) => some (newGate, mParse.readCloseTag)

/-- One child tag `temp` of a gate block (lines 78-243). -/
def gateChild (m : Libm) (fuel : Nat) (temp : String) (newGate : LibraryGate)
    (mParse : XMLParser) : Option (LibraryGate × XMLParser) :=
  if temp = "input" ∨ temp = "output" then parseHotspot fuel temp newGate mParse
  else if temp = "shape" then parseShape m fuel newGate mParse
  else if temp = "param_dlg_data" then parseParamDlg fuel newGate mParse
  else if temp = "gui_type" then
    let (s, mParse) := mParse.readTagValue "gui_type"
    some ({ newGate with guiType := s }, mParse.readCloseTag)
  else if temp = "logic_type" then
    let (s, mParse) := mParse.readTagValue "logic_type"
    some ({ newGate with logicType := s }, mParse.readCloseTag)
  else if temp = "gui_param" then
    let (s, mParse) := mParse.readTagValue "gui_param"
    let (paramName, paramVal) := readWords s "" ""
    some ({ newGate with guiParams := newGate.guiParams.set paramName paramVal },
      mParse.readCloseTag)
  else if temp = "logic_param" then
    let (s, mParse) := mParse.readTagValue "logic_param"
    let (paramName, paramVal) := readWords s "" ""
    some ({ newGate with logicParams := newGate.logicParams.set paramName paramVal },
      mParse.readCloseTag)
  else if temp = "caption" then
    let (s, mParse) := mParse.readTagValue "caption"
    some ({ newGate with caption := s }, mParse.readCloseTag)
  else some (newGate, mParse)

/-- The loop over the children of a gate block (lines 75-244). -/
def gateBodyLoop (m : Libm) : Nat → LibraryGate → XMLParser → Option (LibraryGate × XMLParser)
  | 0, _, _ => none
  | fuel + 1, newGate, mParse =>
      let (temp, mParse) := mParse.readTag
      match gateChild m fuel temp newGate mParse with
      | none => none
      | some (newGate, mParse) =>
          if mParse.isCloseTag then some (newGate, mParse)
          else gateBodyLoop m fuel newGate mParse

/-- The application object `wxGetApp()`, as far as the library writes it: the index from gate
name to library name and the catalog of all libraries. -/
structure MainApp where
  gateNameToLibrary : StrMap String
  libraries : StrMap (StrMap LibraryGate)
  deriving DecidableEq

/-- The application state before any library is loaded. -/
def MainApp.empty : MainApp := { gateNameToLibrary := [], libraries := [] }

/-- The members of a `GateLibrary` object. -/
structure GateLibrary where
  mParse : XMLParser
  libName : String
  gates : StrMap (StrMap LibraryGate)
  numDefinedBlackBoxes : Int
  deriving DecidableEq

/-- The assignment `cat[libName][gateName] = gate` on a map of maps; `cat[libName]` creates an
empty library when there is none. -/
def setGate (cat : StrMap (StrMap LibraryGate)) (libName gateName : String) (gate : LibraryGate) :
    StrMap (StrMap LibraryGate) :=
  cat.set libName (((cat.find libName).getD []).set gateName gate)

/-- The three assignments that store a finished gate (lines 245-247, and 471-475 in
`defineBlackBox`). -/
def insertGate (libName : String) (gate : LibraryGate) (st : GateLibrary × MainApp) :
    GateLibrary × MainApp :=
  ({ st.1 with gates := setGate st.1.gates libName gate.gateName gate },
   { gateNameToLibrary := st.2.gateNameToLibrary.set gate.gateName libName,
     libraries := setGate st.2.libraries libName gate.gateName gate })

/-- The loop over the gate blocks of a library (lines 69-249); the reader is passed beside the
object. -/
def gatesLoop (m : Libm) (libName : String) :
    Nat → GateLibrary × MainApp → XMLParser → Option ((GateLibrary × MainApp) × XMLParser)
  | 0, _, _ => none
  | fuel + 1, st, mParse =>
      let (_, mParse) := mParse.readTag
      let (temp, mParse) := mParse.readTag
      let (s, mParse) := mParse.readTagValue temp
      let mParse := mParse.readCloseTag
      match gateBodyLoop m fuel { LibraryGate.empty with gateName := s } mParse with
      | none => none
      | some (newGate, mParse) =>
          let st := insertGate libName newGate st
          let mParse := mParse.readCloseTag
          if mParse.isCloseTag then some (st, mParse)
          else gatesLoop m libName fuel st mParse

/-- The loop over the libraries of a file (lines 58-251). -/
def libraryLoop (m : Libm) :
    Nat → GateLibrary × MainApp → XMLParser → Option (GateLibrary × MainApp)
  | 0, _, _ => none
  | fuel + 1, st, mParse =>
      let (temp, mParse) := mParse.readTag
      if temp ≠ "library" then some ({ st.1 with mParse := mParse }, st.2)
      else
        let (_, mParse) := mParse.readTag
        let (libName, mParse) := mParse.readTagValue "name"
        let mParse := mParse.readCloseTag
        match gatesLoop m libName fuel ({ st.1 with libName := libName }, st.2) mParse with
        | none => none
        | some (st, mParse) => libraryLoop m fuel st mParse.readCloseTag

/-- The function `GateLibrary::parseFile`: the object and the application afterwards, `none`
when it has not returned within `fuel` iterations of any one loop. -/
def parseFile (m : Libm) (fuel : Nat) (st : GateLibrary × MainApp) :
    Option (GateLibrary × MainApp) :=
  libraryLoop m fuel st st.1.mParse

/-- The constructor `GateLibrary::GateLibrary(fileName)` (lines 30-47) on a fresh object
`self`: `file` is the content of the file, `none` when it cannot be opened; then nothing is
parsed and no member is assigned.  The error dialog is not modelled. -/
def GateLibrary.construct (m : Libm) (fuel : Nat) (file : Option XMLParser)
    (self : GateLibrary) (app : MainApp) : Option (GateLibrary × MainApp) :=
  match file with
  | none => some (self, app)
  | some tokens =>
      match parseFile m fuel ({ self with mParse := tokens }, app) with
      | none => none
      | some (self, app) => some ({ self with numDefinedBlackBoxes := 0 }, app)

/-! ## `GateLibrary::defineBlackBox` -/

/-- The type `Point` (its declaration is missing): a pair of coordinates. -/
abbrev Point := Fp × Fp

/-- Modelled from the spec: a command of the replay facility (`cmdPasteBlock::getCommands`,
missing), "create element" with a position and element-type, or "set parameters" with a
GUI-parameter mapping and a logic-parameter mapping; `other` is a command with any other
name. -/
inductive Command where
  | createGate (position : Point) (gateType : String)
  | setParams (guiParameterMap logicParameterMap : List (String × String))
  | other (name : String)
  deriving DecidableEq

/-- The local struct `JunctionData` (lines 344-348). -/
structure JunctionData where
  rotation : Fp
  name : String
  position : Point
  deriving DecidableEq

/-- The conversion `(int)d` of a `double`: truncation toward zero.  It is undefined in C++
outside the range of `int` and for a non-finite `d`; there this gives the least `int`, the
result of the conversion instruction of x86-64. -/
def truncToInt : Fp → Int
  | .fin q =>
      let t : Int := if 0 ≤ q then (q.num / (q.den : Int)) else -((-q.num) / (q.den : Int))
      if -2147483648 ≤ t ∧ t ≤ 2147483647 then t else -2147483648
  | _ => -2147483648

/-- The value of `rotation` after the loop over the GUI parameters (lines 371-376). -/
def readAngle (guiParameterMap : List (String × String)) : Fp :=
  guiParameterMap.foldl (fun rotation p => if p.1 = "angle" then atof p.2 else rotation) (.fin 0)

/-- The pin descriptors a `Set Parameter` command adds (lines 377-382); the sum is an `int`,
and where it overflows, which is undefined in C++, it keeps the low 32 bits. -/
def junctionsOf (rotation : Fp) (junctionType : String) (coord : Point)
    (logicParameterMap : List (String × String)) : List JunctionData :=
  (logicParameterMap.filter (fun p => p.1 = "JUNCTION_ID")).map (fun p =>
    { rotation :=
        toDouble (Int.tmod
          (toInt32 (truncToInt rotation + (if junctionType = "DE_TO" then 180 else 0))) 360 : Int),
      name := p.2, position := coord })

/-- The loop over the commands (lines 358-384): `coord` and `junctionType` are the position and
type of the last `Create Gate` command. -/
def scanCommands : List Command → Point → String → List JunctionData → List JunctionData
  | [], _, _, junctionDatas => junctionDatas
  | .createGate position gateType :: cs, _, _, junctionDatas =>
      scanCommands cs position gateType junctionDatas
  | .setParams gui logic :: cs, coord, junctionType, junctionDatas =>
      scanCommands cs coord junctionType
        (junctionDatas ++ junctionsOf (readAngle gui) junctionType coord logic)
  | .other _ :: cs, coord, junctionType, junctionDatas =>
      scanCommands cs coord junctionType junctionDatas

/-- Modelled from the spec: the struct `InputData` of `BlackBoxSymbol.h` (missing), one pin of a
side group with its label rotation and the points the layout assigns. -/
structure InputData where
  name : String
  rotation : Fp
  originalPosition : Point
  hotspot : Point
  hotspotTail : Point
  textPosition : Point
  deriving DecidableEq

/-- A value-initialised `InputData` (`push_back({})`). -/
def InputData.init : InputData :=
  { name := "", rotation := .fin 0, originalPosition := (.fin 0, .fin 0),
    hotspot := (.fin 0, .fin 0), hotspotTail := (.fin 0, .fin 0),
    textPosition := (.fin 0, .fin 0) }

/-- The four side groups `left`, `top`, `bottom`, `right`. -/
structure Sides where
  left : List InputData
  top : List InputData
  bottom : List InputData
  right : List InputData
  deriving DecidableEq

/-- The loop that breaks the pins into side groups (lines 387-411). -/
def classify : List JunctionData → Sides → Sides
  | [], s => s
  | p :: ps, s =>
      if p.rotation = toDouble 0 then
        classify ps { s with left := s.left ++
          [{ InputData.init with name := p.name, originalPosition := p.position }] }
      else if p.rotation = toDouble 90 then
        classify ps { s with top := s.top ++
          [{ InputData.init with
              rotation := toFloat 90, name := p.name, originalPosition := p.position }] }
      else if p.rotation = toDouble 180 then
        classify ps { s with right := s.right ++
          [{ InputData.init with name := p.name, originalPosition := p.position }] }
      else
        classify ps { s with bottom := s.bottom ++
          [{ InputData.init with
              rotation := toFloat 90, name := p.name, originalPosition := p.position }] }

/-- Byte-wise lexicographic "less than" on character lists, the order of `std::string`. -/
def lexLt : List Char → List Char → Bool
  | _, [] => false
  | [], _ :: _ => true
  | a :: as, b :: bs => decide (a.toNat < b.toNat) || (decide (a.toNat = b.toNat) && lexLt as bs)

/-- Modelled from the spec: `operator<` of `InputData` (`BlackBoxSymbol.h`, missing), "alphabetically
by name ... as produced by default string comparison"; this is its negation with the arguments
swapped, `a` does not come after `b`. -/
def InputData.le (a b : InputData) : Prop := lexLt b.name.data a.name.data = false

instance : DecidableRel InputData.le := fun a b =>
  inferInstanceAs (Decidable (lexLt b.name.data a.name.data = false))

/-- The call `std::sort(v.begin(), v.end())` on a side group.  `std::sort` leaves the relative
order of pins with equal names open; the model keeps it. -/
def sortPins (v : List InputData) : List InputData := v.insertionSort InputData.le

/-- Modelled from the spec: the layout routines of `BlackBoxSymbol.h` (missing).
`generateShapeRectangle` gives the size of the rectangle from the four sorted groups;
`pinPoints` is what `generateShapePins` assigns to the `i`-th pin of a group (0 left, 1 top,
2 bottom, 3 right) of `n` pins, its hotspot and its tail; `textPoint` is what
`generateShapeTextPosition` assigns to a pin as its label position. -/
structure Layout where
  generateShapeRectangle : List InputData → List InputData → List InputData → List InputData → Point
  pinPoints : Nat → Point → Nat → Nat → Point × Point
  textPoint : Nat → Nat → Nat → InputData → Point

/-- Modelled from the spec: `generateShapePins` on one side group, "place each side's pins ...
in sorted order, each with an associated tail point". -/
def Layout.generateShapePins (l : Layout) (side : Nat) (size : Point) (v : List InputData) :
    List InputData :=
  (List.range v.length).zipWith
    (fun i d => { d with hotspot := (l.pinPoints side size v.length i).1,
                         hotspotTail := (l.pinPoints side size v.length i).2 }) v

/-- Modelled from the spec: `generateShapeTextPosition` on one side group, the label "position
computed adjacent to the pin's hotspot". -/
def Layout.generateShapeTextPosition (l : Layout) (side : Nat) (v : List InputData) :
    List InputData :=
  (List.range v.length).zipWith
    (fun i d => { d with textPosition := l.textPoint side v.length i d }) v

/-- The expression `c / 2` on a coordinate of `size`, narrowed to the `float` argument of
`LibraryGateLine`. -/
def half (c : Fp) : Fp := binary32.cast (Fp.div binary64 c (.fin 2))

/-- Decimal digits of `n`, most significant first, at most `fuel` of them. -/
def natDigits : Nat → Nat → List Char
  | 0, _ => []
  | fuel + 1, n =>
      if n < 10 then [Char.ofNat (48 + n)]
      else natDigits fuel (n / 10) ++ [Char.ofNat (48 + n % 10)]

/-- The function `std::to_string` on an integer. -/
def to_string (i : Int) : String :=
  if i < 0 then String.mk ('-' :: natDigits (i.natAbs + 1) i.natAbs)
  else String.mk (natDigits (i.natAbs + 1) i.natAbs)

/-- The collaborators of `defineBlackBox` whose source is missing: `parse::quoted`, the
commands `cmdPasteBlock` replays from the copied text, and the layout routines. -/
structure BlackBoxEnv where
  quoted : String → String
  getCommands : String → List Command
  layout : Layout

/-- The record `blackBox` that `defineBlackBox` builds (lines 333-468) when the counter holds
`numDefinedBlackBoxes`. -/
def buildBlackBox (env : BlackBoxEnv) (numDefinedBlackBoxes : Int) (copyText : String) :
    LibraryGate :=
  let gateName := "BlackBox#" ++ to_string numDefinedBlackBoxes
  let junctionDatas := scanCommands (env.getCommands copyText) (.fin 0, .fin 0) "" []
  let s := classify junctionDatas ⟨[], [], [], []⟩
  let left := sortPins s.left
  let top := sortPins s.top
  let bottom := sortPins s.bottom
  let right := sortPins s.right
  let size := env.layout.generateShapeRectangle left top bottom right
  let left := env.layout.generateShapeTextPosition 0 (env.layout.generateShapePins 0 size left)
  let top := env.layout.generateShapeTextPosition 1 (env.layout.generateShapePins 1 size top)
  let bottom :=
    env.layout.generateShapeTextPosition 2 (env.layout.generateShapePins 2 size bottom)
  let right := env.layout.generateShapeTextPosition 3 (env.layout.generateShapePins 3 size right)
  let rect : List LibraryGateLine :=
    [⟨half (Fp.neg size.1), half (Fp.neg size.2), half size.1, half (Fp.neg size.2)⟩,
     ⟨half (Fp.neg size.1), half (Fp.neg size.2), half (Fp.neg size.1), half size.2⟩,
     ⟨half size.1, half size.2, half size.1, half (Fp.neg size.2)⟩,
     ⟨half size.1, half size.2, half (Fp.neg size.1), half size.2⟩]
  let all := right ++ (bottom ++ (top ++ left))
  { gateName := gateName
    caption := gateName
    guiType := "BlackBox"
    logicType := "BLACK_BOX"
    guiParams := [("internals", env.quoted copyText)]
    logicParams := []
    hotspots := all.map (fun d =>
      { name := d.name, isInput := true, x := binary32.cast d.hotspot.1,
        y := binary32.cast d.hotspot.2, isInverted := false, logicEInput := "", busLines := 1 })
    shape := rect ++ all.map (fun d =>
      ⟨binary32.cast d.hotspot.1, binary32.cast d.hotspot.2,
       binary32.cast d.hotspotTail.1, binary32.cast d.hotspotTail.2⟩)
    dlgParams := []
    labels := all.map (fun d =>
      { text := d.name, rotation := d.rotation,
        color := (toFloat 0, toFloat 0, toFloat 0, toFloat 1), size := toFloat (85 / 100),
        position := (binary32.cast d.textPosition.1, binary32.cast d.textPosition.2) }) }

/-- The function `GateLibrary::defineBlackBox(copyText)`. -/
def defineBlackBox (env : BlackBoxEnv) (copyText : String) (st : GateLibrary × MainApp) :
    GateLibrary × MainApp :=
  let blackBox := buildBlackBox env st.1.numDefinedBlackBoxes copyText
  insertGate "11 - Black Boxes" blackBox
    ({ st.1 with numDefinedBlackBoxes := st.1.numDefinedBlackBoxes + 1 }, st.2)

/-! ## Definitions used by the statements -/

/-- Whether the datum is finite. -/
def Fp.isFin : Fp → Bool
  | .fin _ => true
  | _ => false

/-- Number of iterations of the chord loop of `parseShapeObject` that starts at `i` and steps
by `degStep`; `none` when it has not ended within `fuel` iterations. -/
def circleCount (degStep : Fp) : Nat → Fp → Option Nat
  | 0, _ => none
  | fuel + 1, i =>
      if Fp.le i (toFloat 360) then (circleCount degStep fuel (Fp.add binary32 i degStep)).map (· + 1)
      else some 0

/-- The tokens of the child elements `<tag>value</tag>` of a block, in stream order. -/
def renderChildren : List (String × String) → List Tok
  | [] => []
  | c :: cs => .openTag c.1 :: .text c.2 :: .closeTag c.1 :: renderChildren cs

/-- The value of the last child with the given tag, if there is one. -/
def lastValue (tag : String) (cs : List (String × String)) : Option String :=
  ((cs.filter (fun c => c.1 = tag)).getLast?).map (fun c => c.2)

/-- A text of the form `x,y`: a numeral, a comma, a numeral, both in the range of `float`. -/
def isPointValue (v : String) : Prop :=
  ∃ (qx qy : ℚ) (r r2 : List Char), scanDecimal v.data = some (qx, ',' :: r) ∧
    scanDecimal r = some (qy, r2) ∧ (toFloat qx).isFin = true ∧ (toFloat qy).isFin = true

/-- The child tags a hotspot block recognises. -/
def hotspotTags : List String := ["name", "point", "inverted", "enable_input", "bus"]

/-- The locals of a hotspot block after the child `<c.1>c.2</c.1>`. -/
def stepVars (hsType : String) (v : HotspotVars) (c : String × String) : HotspotVars :=
  (hotspotChild hsType c.1 v [.text c.2, .closeTag c.1]).1

/-- The `gui_param` and `logic_param` children that the loop over a gate body processes, as
pairs of tag and text value, in stream order. -/
def paramTrace (m : Libm) : Nat → LibraryGate → XMLParser → List (String × String)
  | 0, _, _ => []
  | fuel + 1, newGate, mParse =>
      match gateChild m fuel mParse.readTag.1 newGate mParse.readTag.2 with
      | none => []
      | some (newGate2, mParse2) =>
          (if mParse.readTag.1 = "gui_param" ∨ mParse.readTag.1 = "logic_param" then
            [(mParse.readTag.1, (mParse.readTag.2.readTagValue mParse.readTag.1).1)]
           else []) ++
          (if mParse2.isCloseTag then [] else paramTrace m fuel newGate2 mParse2)

/-- The key and value pairs of the children with the given tag: each text value split by the
two extractions `iss >> paramName >> paramVal`. -/
def paramPairs (tag : String) (trace : List (String × String)) : List (String × String) :=
  (trace.filter (fun c => c.1 = tag)).map (fun c => readWords c.2 "" "")

/-- The record stored under `gateName` in the library `libName` of a catalog, if any. -/
def lookup (cat : StrMap (StrMap LibraryGate)) (libName gateName : String) : Option LibraryGate :=
  (cat.find libName).bind (fun l => l.find gateName)

/-- Whether `gateName` is a key of the library `libName` of a catalog. -/
def hasGate (cat : StrMap (StrMap LibraryGate)) (libName gateName : String) : Bool :=
  (lookup cat libName gateName).isSome

/-- The insertions that the loop over the gate blocks performs, as pairs of gate name and
library name, in the order in which they are made. -/
def gatesLog (m : Libm) (libName : String) : Nat → XMLParser → List (String × String)
  | 0, _ => []
  | fuel + 1, mParse =>
      let mParse := mParse.readTag.2
      let temp := mParse.readTag.1
      let mParse := mParse.readTag.2
      let s := (mParse.readTagValue temp).1
      let mParse := (mParse.readTagValue temp).2.readCloseTag
      match gateBodyLoop m fuel { LibraryGate.empty with gateName := s } mParse with
      | none => []
      | some (newGate, mParse) =>
          (newGate.gateName, libName) ::
            (if mParse.readCloseTag.isCloseTag then []
             else gatesLog m libName fuel mParse.readCloseTag)

/-- The insertions that `parseFile` performs on a reader, in order. -/
def libraryLog (m : Libm) : Nat → GateLibrary × MainApp → XMLParser → List (String × String)
  | 0, _, _ => []
  | fuel + 1, st, mParse =>
      if mParse.readTag.1 ≠ "library" then []
      else
        let mParse := mParse.readTag.2.readTag.2
        let libName := (mParse.readTagValue "name").1
        let mParse := (mParse.readTagValue "name").2.readCloseTag
        match gatesLoop m libName fuel ({ st.1 with libName := libName }, st.2) mParse with
        | none => []
        | some (st2, mParse2) =>
            gatesLog m libName fuel mParse ++ libraryLog m fuel st2 mParse2.readCloseTag

/-- A call that inserts gates: `parseFile` on a library object, or `defineBlackBox` on one. -/
inductive Op where
  | parse (m : Libm) (fuel : Nat) (self : GateLibrary)
  | blackBox (env : BlackBoxEnv) (copyText : String) (self : GateLibrary)

/-- The application state after a call, `none` when `parseFile` does not return. -/
def runOp : Op → MainApp → Option MainApp
  | .parse m fuel self, app => (parseFile m fuel (self, app)).map (fun st => st.2)
  | .blackBox env copyText self, app => some (defineBlackBox env copyText (self, app)).2

/-- The application state after a sequence of calls. -/
def runOps : List Op → MainApp → Option MainApp
  | [], app => some app
  | op :: ops, app => (runOp op app).bind (runOps ops)

/-- The insertions a call performs, in order. -/
def opLog : Op → MainApp → List (String × String)
  | .parse m fuel self, app => libraryLog m fuel (self, app) self.mParse
  | .blackBox env copyText self, _ =>
      [((buildBlackBox env self.numDefinedBlackBoxes copyText).gateName, "11 - Black Boxes")]

/-- The insertions a sequence of calls performs, in order. -/
def opsLog : List Op → MainApp → List (String × String)
  | [], _ => []
  | op :: ops, app =>
      match runOp op app with
      | none => opLog op app
      | some app2 => opLog op app ++ opsLog ops app2

/-- The invariant that ties an application state to the insertions made so far. -/
def Tied (app : MainApp) (log : List (String × String)) : Prop :=
  (∀ name, app.gateNameToLibrary.find name = lastValue name log) ∧
  (∀ lib name, hasGate app.libraries lib name = true ↔ (name, lib) ∈ log)

/-- The pin of a side group made from a pin descriptor, with the label rotation of the group. -/
def pinOf (labelRotation : Fp) (p : JunctionData) : InputData :=
  { InputData.init with rotation := labelRotation, name := p.name, originalPosition := p.position }

/-- Number of pin descriptors the commands yield: one for each `JUNCTION_ID` entry of the logic
parameters of a `Set Parameter` command. -/
def pinCount : List Command → Nat
  | [] => 0
  | .setParams _ logic :: cs => (logic.filter (fun p => p.1 = "JUNCTION_ID")).length + pinCount cs
  | _ :: cs => pinCount cs

/-- Successive calls of `defineBlackBox`, one for each copied text. -/
def defineAll (env : BlackBoxEnv) : List String → GateLibrary × MainApp → GateLibrary × MainApp
  | [], st => st
  | t :: ts, st => defineAll env ts (defineBlackBox env t st)

/-- A library file with one library `libName` that holds one gate `gateName` with an empty
body. -/
def sampleFile (libName gateName : String) : XMLParser :=
  [.openTag "library", .openTag "name", .text libName, .closeTag "name",
   .openTag "gate", .openTag "name", .text gateName, .closeTag "name", .closeTag "gate",
   .closeTag "library"]

/-- Two loads that insert the same gate name under two libraries. -/
def sampleOps : List Op :=
  [.parse ⟨fun _ => .fin 0, fun _ => .fin 0⟩ 3 ⟨sampleFile "L1" "AND", "", [], 0⟩,
   .parse ⟨fun _ => .fin 0, fun _ => .fin 0⟩ 3 ⟨sampleFile "L2" "AND", "", [], 0⟩]

/-- A gate body that sets the GUI parameter `angle` twice and the logic parameter `DELAY`
once. -/
def sampleBody : XMLParser :=
  [.openTag "gui_param", .text "angle 90", .closeTag "gui_param",
   .openTag "logic_param", .text "DELAY 1", .closeTag "logic_param",
   .openTag "gui_param", .text "angle 180", .closeTag "gui_param", .closeTag "gate"]

/-- An environment for examples: the copied text replays to the given commands, the rectangle
is 4 by 4 and every point the layout assigns is the origin. -/
def sampleEnv (cmds : List Command) : BlackBoxEnv :=
  { quoted := fun s => s
    getCommands := fun _ => cmds
    layout :=
      { generateShapeRectangle := fun _ _ _ _ => (.fin 4, .fin 4)
        pinPoints := fun _ _ _ _ => ((.fin 0, .fin 0), (.fin 0, .fin 0))
        textPoint := fun _ _ _ _ => (.fin 0, .fin 0) } }

/-- Two junction pins at rotation 0, named `B` and then `A`. -/
def sampleTwoPins : List Command :=
  [.createGate (.fin 1, .fin 1) "FROM", .setParams [("angle", "0")] [("JUNCTION_ID", "B")],
   .createGate (.fin 1, .fin 2) "FROM", .setParams [] [("JUNCTION_ID", "A")]]

/-! ## Lookup functions (`getGate`, `getGateLogicType`, `getGateGUIType`) -/

/-- The map `gates` after the expression `gates[libName]` was evaluated: `operator[]` adds an
empty library when there is none. -/
def touchLibrary (gates : StrMap (StrMap LibraryGate)) (libName : String) :
    StrMap (StrMap LibraryGate) :=
  match gates.find libName with
  | some _ => gates
  | none => gates.set libName []

/-- The function `GateLibrary::getGate(gateName, lgGate)`: the returned flag, the output
argument `lgGate` afterwards, and the object afterwards. -/
def getGate (gateName : String) (lgGate : LibraryGate) (st : GateLibrary × MainApp) :
    Bool × LibraryGate × GateLibrary :=
  match st.2.gateNameToLibrary.find gateName with
  | none => (false, lgGate, st.1)
  | some libName =>
      let gates := touchLibrary st.1.gates libName
      match ((gates.find libName).getD []).find gateName with
      | some g => (true, g, { st.1 with gates := gates })
      | none => (false, lgGate, { st.1 with gates := gates })

/-- The function `GateLibrary::getGateLogicType(gateName)`: the returned string and the object
afterwards. -/
def getGateLogicType (gateName : String) (st : GateLibrary × MainApp) : String × GateLibrary :=
  match st.2.gateNameToLibrary.find gateName with
  | none => ("", st.1)
  | some libName =>
      let gates := touchLibrary st.1.gates libName
      match ((gates.find libName).getD []).find gateName with
      | none => ("", { st.1 with gates := gates })
      | some g => (g.logicType, { st.1 with gates := gates })

/-- The function `GateLibrary::getGateGUIType(gateName)`: the returned string and the object
afterwards. -/
def getGateGUIType (gateName : String) (st : GateLibrary × MainApp) : String × GateLibrary :=
  match st.2.gateNameToLibrary.find gateName with
  | none => ("", st.1)
  | some libName =>
      let gates := touchLibrary st.1.gates libName
      match ((gates.find libName).getD []).find gateName with
      | none => ("", { st.1 with gates := gates })
      | some g => (g.guiType, { st.1 with gates := gates })

/-- The record that the lookup functions find for `gateName`: the one stored under that name in
the library of this object that the index names, if both exist. -/
def indexed (st : GateLibrary × MainApp) (gateName : String) : Option LibraryGate :=
  (st.2.gateNameToLibrary.find gateName).bind (fun libName => lookup st.1.gates libName gateName)

/-- The vector `all` of `defineBlackBox` (lines 431-435): the pins of the right, bottom, top and
left groups, each group sorted and laid out. -/
def blackBoxPins (env : BlackBoxEnv) (copyText : String) : List InputData :=
  let junctionDatas := scanCommands (env.getCommands copyText) (.fin 0, .fin 0) "" []
  let s := classify junctionDatas ⟨[], [], [], []⟩
  let left := sortPins s.left
  let top := sortPins s.top
  let bottom := sortPins s.bottom
  let right := sortPins s.right
  let size := env.layout.generateShapeRectangle left top bottom right
  let left := env.layout.generateShapeTextPosition 0 (env.layout.generateShapePins 0 size left)
  let top := env.layout.generateShapeTextPosition 1 (env.layout.generateShapePins 1 size top)
  let bottom :=
    env.layout.generateShapeTextPosition 2 (env.layout.generateShapePins 2 size bottom)
  let right := env.layout.generateShapeTextPosition 3 (env.layout.generateShapePins 3 size right)
  right ++ (bottom ++ (top ++ left))

/-- The size of the rectangle that `defineBlackBox` asks of `generateShapeRectangle`
(line 420). -/
def blackBoxSize (env : BlackBoxEnv) (copyText : String) : Point :=
  let junctionDatas := scanCommands (env.getCommands copyText) (.fin 0, .fin 0) "" []
  let s := classify junctionDatas ⟨[], [], [], []⟩
  env.layout.generateShapeRectangle (sortPins s.left) (sortPins s.top) (sortPins s.bottom)
    (sortPins s.right)

/-- The hotspot that `defineBlackBox` makes of a pin (lines 458-465). -/
def pinHotspot (d : InputData) : LibraryGateHotspot :=
  { name := d.name, isInput := true, x := binary32.cast d.hotspot.1,
    y := binary32.cast d.hotspot.2, isInverted := false, logicEInput := "", busLines := 1 }

/-- The stub segment that `defineBlackBox` makes of a pin (lines 439-440). -/
def pinStub (d : InputData) : LibraryGateLine :=
  ⟨binary32.cast d.hotspot.1, binary32.cast d.hotspot.2,
   binary32.cast d.hotspotTail.1, binary32.cast d.hotspotTail.2⟩

/-- The label that `defineBlackBox` makes of a pin (lines 446-451). -/
def pinLabel (d : InputData) : gl_text :=
  { text := d.name, rotation := d.rotation,
    color := (toFloat 0, toFloat 0, toFloat 0, toFloat 1), size := toFloat (85 / 100),
    position := (binary32.cast d.textPosition.1, binary32.cast d.textPosition.2) }

/-- A chain of segments from a point: the first segment starts at the point, and every later
segment starts where the one before it ends. -/
def connected : Fp × Fp → List LibraryGateLine → Prop
  | _, [] => True
  | start, s :: rest => (s.x1, s.y1) = start ∧ connected (s.x2, s.y2) rest

/-- The datum is a finite number that is not positive, or minus infinity. -/
def Fp.nonPos : Fp → Prop
  | .fin q => q ≤ 0
  | .inf neg => neg = true
  | .nan => False

/-- The commands of one junction pin named `P` whose gate has the given `angle`. -/
def samplePin (angle : String) : List Command :=
  [.createGate (.fin 0, .fin 0) "FROM", .setParams [("angle", angle)] [("JUNCTION_ID", "P")]]

/-- The child tags a `param` block recognises. -/
def paramTags : List String := ["type", "label", "varname", "range"]

/-- A text of two words: there is a word, and another word after it. -/
def isVarnameValue (v : String) : Prop :=
  skipWs v.data ≠ [] ∧ skipWs ((skipWs v.data).dropWhile (fun c => !isSpace c)) ≠ []

/-- The tokens of a sequence of `param` blocks, each given by its children. -/
def renderParams : List (List (String × String)) → List Tok
  | [] => []
  | cs :: bs => .openTag "param" :: (renderChildren cs ++ .closeTag "param" :: renderParams bs)

/-- The dialog parameter the specification assigns to a `param` block with children `cs`: every
field is taken from the last child that sets it, or is the default. -/
def expectedParam (cs : List (String × String)) : LibraryGateDialogParamter :=
  { textLabel := (lastValue "label" cs).getD ""
    name := ((lastValue "varname" cs).map (fun v => (readWords v "" "").2)).getD ""
    type := (lastValue "type" cs).getD "STRING"
    isGui := ((lastValue "varname" cs).map (fun v => decide ((readWords v "" "").1 = "GUI"))).getD
      true
    Rmin := ((lastValue "range" cs).map (fun v => (readPair v (.fin 0) (.fin 0)).1)).getD
      (.fin (-binary32.maxFinite))
    Rmax := ((lastValue "range" cs).map (fun v => (readPair v (.fin 0) (.fin 0)).2)).getD
      (.fin binary32.maxFinite) }

/-- The locals of a `param` block after the child `<c.1>c.2</c.1>`. -/
def stepParam (v : ParamVars) (c : String × String) : ParamVars :=
  (paramChild c.1 v [.text c.2, .closeTag c.1]).1

/-- Two `param` blocks: one with all four children, given out of order, and an empty one. -/
def sampleParams : List (List (String × String)) :=
  [[("range", "0,10"), ("varname", "LOGIC DELAY"), ("label", "Delay"), ("type", "FLOAT")], []]

/-- The shape objects `parseShapeObject` decodes. -/
def shapeKinds : List String := ["line", "circle"]

/-- A child of a `shape` block: a shape object `<kind>value</kind>` directly under `shape`, or
an `offset` scope with its `point` text and the shape objects inside it. -/
inductive ShapeItem where
  | object (kind value : String)
  | scope (point : String) (objects : List (String × String))

/-- The tokens of the children of a `shape` block. -/
def renderShape : List ShapeItem → List Tok
  | [] => []
  | .object kind value :: items =>
      .openTag kind :: .text value :: .closeTag kind :: renderShape items
  | .scope point objects :: items =>
      .openTag "offset" :: .openTag "point" :: .text point :: .closeTag "point" ::
        (renderChildren objects ++ .closeTag "offset" :: renderShape items)

/-- The shape objects of a `shape` block in stream order, each with the offset the
specification gives it: the point of the scope it lies in, or `(0,0)` directly under `shape`. -/
def offsetsOf : List ShapeItem → List ((Fp × Fp) × (String × String))
  | [] => []
  | .object kind value :: items => ((.fin 0, .fin 0), (kind, value)) :: offsetsOf items
  | .scope point objects :: items =>
      objects.map (fun o => (readPair point (.fin 0) (.fin 0), o)) ++ offsetsOf items

/-- The gate after one shape object is decoded on its own with the given offset. -/
def decodeObject (m : Libm) (fuel : Nat) (newGate : LibraryGate)
    (o : (Fp × Fp) × (String × String)) : Option LibraryGate :=
  (parseShapeObject m fuel o.2.1 [.text o.2.2, .closeTag o.2.1] newGate o.1.1 o.1.2).map
    (fun r => r.2.2)

/-- The gate after the shape objects are decoded one after the other. -/
def decodeAll (m : Libm) (fuel : Nat) :
    List ((Fp × Fp) × (String × String)) → LibraryGate → Option LibraryGate
  | [], newGate => some newGate
  | o :: os, newGate => (decodeObject m fuel newGate o).bind (decodeAll m fuel os)

/-- Number of objects and scopes of a `shape` block. -/
def shapeSize : List ShapeItem → Nat
  | [] => 0
  | .object _ _ :: items => 1 + shapeSize items
  | .scope _ objects :: items => 2 + objects.length + shapeSize items

/-- A `shape` block with a line, an `offset` scope at `(10,20)` holding the same line, and the
same line once more after the scope. -/
def sampleShape : List ShapeItem :=
  [.object "line" "0,0,1,1", .scope "10,20" [("line", "0,0,1,1")], .object "line" "0,0,1,1"]

/-- A child element of a hotspot block together with what its text says: the two numbers of a
`point`, the integer of a `bus`. -/
inductive HotspotChild where
  | name (value : String)
  | point (text : String) (x y : ℚ)
  | inverted (value : String)
  | enableInput (value : String)
  | bus (text : String) (width : Int)

/-- The tag and the text of the child element. -/
def HotspotChild.render : HotspotChild → String × String
  | .name value => ("name", value)
  | .point text _ _ => ("point", text)
  | .inverted value => ("inverted", value)
  | .enableInput value => ("enable_input", value)
  | .bus text _ => ("bus", text)

/-- The text of the child says what the child records: a `point` text is `x,y`, two numerals in
the range of `float`; a `bus` text starts with the decimal integer `width`, which is in the range
of `int`. -/
def HotspotChild.wellFormed : HotspotChild → Prop
  | .point text x y =>
      ∃ r r2 : List Char, scanDecimal text.data = some (x, ',' :: r) ∧
        scanDecimal r = some (y, r2) ∧ (toFloat x).isFin = true ∧ (toFloat y).isFin = true
  | .bus text width =>
      ∃ r : List Char, scanInteger (skipWs text.data) = some (width, r) ∧
        -2147483648 ≤ width ∧ width ≤ 2147483647
  | _ => True

/-- The value of the last `name` child, if there is one. -/
def lastName (cs : List HotspotChild) : Option String :=
  cs.foldl (fun acc c => match c with | .name value => some value | _ => acc) none

/-- The numbers of the last `point` child, if there is one. -/
def lastPoint (cs : List HotspotChild) : Option (ℚ × ℚ) :=
  cs.foldl (fun acc c => match c with | .point _ x y => some (x, y) | _ => acc) none

/-- The value of the last `inverted` child, if there is one. -/
def lastInverted (cs : List HotspotChild) : Option String :=
  cs.foldl (fun acc c => match c with | .inverted value => some value | _ => acc) none

/-- The value of the last `enable_input` child, if there is one. -/
def lastEnableInput (cs : List HotspotChild) : Option String :=
  cs.foldl (fun acc c => match c with | .enableInput value => some value | _ => acc) none

/-- The integer of the last `bus` child, if there is one. -/
def lastBus (cs : List HotspotChild) : Option Int :=
  cs.foldl (fun acc c => match c with | .bus _ width => some width | _ => acc) none

/-- The hotspot the specification assigns to a block with tag `hsType` and children `cs`:
every field is taken from the last child that sets it, or is the default; the position is the
pair of `float` values nearest to the numbers of the point. -/
def expectedHotspot (hsType : String) (cs : List HotspotChild) : LibraryGateHotspot :=
  { name := (lastName cs).getD ""
    isInput := decide (hsType = "input")
    x := ((lastPoint cs).map (fun p => toFloat p.1)).getD (.fin 0)
    y := ((lastPoint cs).map (fun p => toFloat p.2)).getD (.fin 0)
    isInverted := decide (lastInverted cs = some "true")
    logicEInput := if hsType = "output" then (lastEnableInput cs).getD "" else ""
    busLines := (lastBus cs).getD 1 }

/-- The point `(x + offX, y + offY + radius)` in the arithmetic of the source: each sum with an
offset is formed in `double` and stored in a `float`, and so is the sum with the radius. -/
def circleStart (x y radius offX offY : Fp) : Fp × Fp :=
  (binary32.cast (Fp.add binary64 x offX),
   binary32.cast (Fp.add binary64 radius (binary32.cast (Fp.add binary64 y offY))))

/-- The step `360.0 / (float)numSegs` of the chord loop (line 287). -/
def circleStep (numSegs : Int) : Fp :=
  binary32.cast (Fp.div binary64 (toDouble 360) (toFloat numSegs))

/-- The chords that the loop of lines 288-297 pushes in its first `k` iterations, from the
counter `i` and the end point `last` of the chord before. -/
def circleChords (m : Libm) (x1 y1 radius degStep : Fp) :
    Nat → Fp → Fp × Fp → List LibraryGateLine
  | 0, _, _ => []
  | k + 1, i, last =>
      if Fp.le i (toFloat 360) then
        let degInRad := Fp.div binary32 (Fp.mul binary32 i (toFloat (31416 / 10000))) (toFloat 180)
        let theX := binary32.cast (Fp.add binary64 (Fp.mul binary64 (m.sin degInRad) radius) x1)
        let theY := binary32.cast (Fp.add binary64 (Fp.mul binary64 (m.cos degInRad) radius) y1)
        ⟨last.1, last.2, theX, theY⟩ ::
          circleChords m x1 y1 radius degStep k (Fp.add binary32 i degStep) (theX, theY)
      else []

/-! ## Theorems -/

theorem scanDecimal_space (c : Char) (t : List Char) (h : isSpace c = true) :
    scanDecimal (c :: t) = none := by
  have hc : c = ' ' ∨ c = '\t' ∨ c = '\n' ∨ c = '\x0b' ∨ c = '\x0c' ∨ c = '\r' := by
    simpa [isSpace, or_assoc] using h
  rcases hc with h | h | h | h | h | h <;> subst h <;>
    simp [scanDecimal, scanMantissa, scanSign, spanDigits, List.span_eq_take_drop,
      List.takeWhile, List.dropWhile]

theorem scanDecimal_nil : scanDecimal [] = none := by
  simp [scanDecimal, scanMantissa, scanSign, spanDigits, List.span_eq_take_drop]

/-- A numeral that `scanDecimal` accepts and that lies in the range of the format is what
`iss >> x` stores, and the stream stays good. -/
theorem getFloat_of_scan (f : Fmt) (old : Fp) (cs rest : List Char) (q : ℚ)
    (h : scanDecimal cs = some (q, rest)) (hfin : (f.round q).isFin = true) :
    IStream.getFloat f old ⟨cs, false⟩ = (f.round q, ⟨rest, false⟩) := by
  cases cs with
  | nil => simp [scanDecimal_nil] at h
  | cons c t =>
    have hc : isSpace c = false := by
      cases hs : isSpace c with
      | false => rfl
      | true => rw [scanDecimal_space c t hs] at h; cases h
    have hskip : skipWs (c :: t) = c :: t := by simp [skipWs, List.dropWhile, hc]
    cases hr : f.round q with
    | fin v => simp [IStream.getFloat, hskip, h, hr]
    | inf s => rw [hr] at hfin; cases hfin
    | nan => rw [hr] at hfin; cases hfin

theorem getChar_comma (r : List Char) : IStream.getChar ⟨',' :: r, false⟩ = ⟨r, false⟩ := by
  simp [IStream.getChar, skipWs, List.dropWhile, isSpace]

/-- The four numbers of a `line` value of the form `x1,y1,x2,y2`. -/
theorem readLine_of_scan (value : String) (q1 q2 q3 q4 : ℚ) (r1 r2 r3 r4 : List Char)
    (h1 : scanDecimal value.data = some (q1, ',' :: r1))
    (h2 : scanDecimal r1 = some (q2, ',' :: r2))
    (h3 : scanDecimal r2 = some (q3, ',' :: r3))
    (h4 : scanDecimal r3 = some (q4, r4))
    (f1 : (toFloat q1).isFin = true) (f2 : (toFloat q2).isFin = true)
    (f3 : (toFloat q3).isFin = true) (f4 : (toFloat q4).isFin = true) :
    readLine value = (toFloat q1, toFloat q2, toFloat q3, toFloat q4) := by
  simp only [readLine, IStream.ofString, toFloat] at *
  rw [getFloat_of_scan _ _ _ _ _ h1 f1]
  simp only [getChar_comma]
  rw [getFloat_of_scan _ _ _ _ _ h2 f2]
  simp only [getChar_comma]
  rw [getFloat_of_scan _ _ _ _ _ h3 f3]
  simp only [getChar_comma]
  rw [getFloat_of_scan _ _ _ _ _ h4 f4]

/-- Claim C2. For a `line` value of the form `x1,y1,x2,y2` (four numerals in the range of
`float`, separated by commas) and any offset, `parseShapeObject("line", ...)` returns true,
consumes the value and its closing tag, and appends exactly one segment to the shape of the
gate, `(x1 + offX, y1 + offY) - (x2 + offX, y2 + offY)`, after the segments already there.  The
sums are those of the source: formed in `double` and stored in a `float` (`addOffset`). -/
theorem parseShapeObject_line (m : Libm) (fuel : Nat) (newGate : LibraryGate) (offX offY : Fp)
    (rest : XMLParser) (value : String) (q1 q2 q3 q4 : ℚ) (r1 r2 r3 r4 : List Char)
    (h1 : scanDecimal value.data = some (q1, ',' :: r1))
    (h2 : scanDecimal r1 = some (q2, ',' :: r2))
    (h3 : scanDecimal r2 = some (q3, ',' :: r3))
    (h4 : scanDecimal r3 = some (q4, r4))
    (f1 : (toFloat q1).isFin = true) (f2 : (toFloat q2).isFin = true)
    (f3 : (toFloat q3).isFin = true) (f4 : (toFloat q4).isFin = true) :
    parseShapeObject m fuel "line" (.text value :: .closeTag "line" :: rest) newGate offX offY
      = some (true, rest,
          { newGate with shape := newGate.shape ++
              [⟨addOffset (toFloat q1) offX, addOffset (toFloat q2) offY,
                addOffset (toFloat q3) offX, addOffset (toFloat q4) offY⟩] }) := by
  simp [parseShapeObject, XMLParser.readTagValue, XMLParser.readCloseTag,
    readLine_of_scan value q1 q2 q3 q4 r1 r2 r3 r4 h1 h2 h3 h4 f1 f2 f3 f4]

theorem parseShapeObject_line_witness :
    parseShapeObject ⟨fun _ => .fin 0, fun _ => .fin 0⟩ 0 "line"
        [.text "1,2,3,4", .closeTag "line"] LibraryGate.empty (.fin 10) (.fin 0)
      = some (true, [], { LibraryGate.empty with shape := [⟨.fin 11, .fin 2, .fin 13, .fin 4⟩] }) :=
  (parseShapeObject_line ⟨fun _ => .fin 0, fun _ => .fin 0⟩ 0 LibraryGate.empty (.fin 10) (.fin 0)
    [] "1,2,3,4" 1 2 3 4 "2,3,4".data "3,4".data "4".data []
    (by decide!) (by decide!) (by decide!) (by decide!)
    (by decide!) (by decide!) (by decide!) (by decide!)).trans (by decide!)

theorem circleLoop_count (m : Libm) (x1 y1 radius degStep : Fp) :
    ∀ (fuel : Nat) (i : Fp) (last : Fp × Fp) (shape : List LibraryGateLine),
      (circleLoop m x1 y1 radius degStep fuel i last shape = none ∧
        circleCount degStep fuel i = none) ∨
      ∃ segs, circleLoop m x1 y1 radius degStep fuel i last shape = some (shape ++ segs) ∧
        circleCount degStep fuel i = some segs.length := by
  intro fuel
  induction fuel with
  | zero => intro i last shape; left; simp [circleLoop, circleCount]
  | succ n ih =>
    intro i last shape
    by_cases hle : Fp.le i (toFloat 360) = true
    · simp only [circleLoop, circleCount, hle, if_true]
      rcases ih (Fp.add binary32 i degStep) _ (shape ++ [_]) with ⟨h1, h2⟩ | ⟨segs, h1, h2⟩
      · left; exact ⟨h1, by simp [h2]⟩
      · right
        rw [List.append_assoc] at h1
        exact ⟨_, h1, by simp [h2]⟩
    · right
      refine ⟨[], ?_, ?_⟩ <;> simp [circleLoop, circleCount, hle]

/-- The `circle` branch of `parseShapeObject` on a reader that stands before the text value. -/
theorem parseShapeObject_circle_eq (m : Libm) (fuel : Nat) (value : String) (rest : XMLParser)
    (newGate : LibraryGate) (offX offY : Fp) :
    parseShapeObject m fuel "circle" (.text value :: .closeTag "circle" :: rest) newGate offX offY
      = (circleLoop m (addOffset (readCircle value).1 offX) (addOffset (readCircle value).2.1 offY)
          (readCircle value).2.2.1
          (binary32.cast (Fp.div binary64 (toDouble 360) (toFloat (readCircle value).2.2.2)))
          fuel
          (binary32.cast (Fp.div binary64 (toDouble 360) (toFloat (readCircle value).2.2.2)))
          (addOffset (readCircle value).1 offX,
            binary32.cast (Fp.add binary64 (readCircle value).2.2.1
              (addOffset (readCircle value).2.1 offY)))
          newGate.shape).map (fun shape => (true, rest, { newGate with shape := shape })) := by
  have h : ("circle" = "line") = False := by decide
  simp only [parseShapeObject, h, if_false, if_true, XMLParser.readTagValue,
    XMLParser.readCloseTag]
  cases circleLoop m (addOffset (readCircle value).1 offX) (addOffset (readCircle value).2.1 offY)
          (readCircle value).2.2.1
          (binary32.cast (Fp.div binary64 (toDouble 360) (toFloat (readCircle value).2.2.2)))
          fuel
          (binary32.cast (Fp.div binary64 (toDouble 360) (toFloat (readCircle value).2.2.2)))
          (addOffset (readCircle value).1 offX,
            binary32.cast (Fp.add binary64 (readCircle value).2.2.1
              (addOffset (readCircle value).2.1 offY)))
          newGate.shape <;> rfl

/-- Claim C3, evaluated at a failing input. For the `circle` value `0,0,1,13` (13 segments) and
any offset, `parseShapeObject("circle", ...)` appends 12 segments, not 13: the step
`360.0 / 13` is rounded to `float`, and the thirteenth partial sum of the loop variable lies
above 360. -/
theorem parseShapeObject_circle_13 (m : Libm) (newGate : LibraryGate) (offX offY : Fp)
    (rest : XMLParser) :
    ∃ segs, parseShapeObject m 13 "circle" (.text "0,0,1,13" :: .closeTag "circle" :: rest)
        newGate offX offY = some (true, rest, { newGate with shape := newGate.shape ++ segs }) ∧
      segs.length = 12 := by
  have hr : readCircle "0,0,1,13" = (.fin 0, .fin 0, .fin 1, 13) := by decide!
  have hd : binary32.cast (Fp.div binary64 (toDouble 360) (toFloat ((13 : Int) : ℚ)))
      = .fin (14518745 / 524288) := by decide!
  have hc : circleCount (.fin (14518745 / 524288)) 13 (.fin (14518745 / 524288)) = some 12 := by
    decide!
  rw [parseShapeObject_circle_eq, hr]
  dsimp only
  rw [hd]
  rcases circleLoop_count m (addOffset (.fin 0) offX) (addOffset (.fin 0) offY) (.fin 1)
      (.fin (14518745 / 524288)) 13 (.fin (14518745 / 524288))
      (addOffset (.fin 0) offX, binary32.cast (Fp.add binary64 (.fin 1) (addOffset (.fin 0) offY)))
      newGate.shape with ⟨_, h2⟩ | ⟨segs, h1, h2⟩
  · rw [hc] at h2; cases h2
  · rw [hc] at h2
    refine ⟨segs, ?_, (Option.some.inj h2).symm⟩
    rw [h1]; rfl

theorem lastValue_snoc (tag : String) (cs : List (String × String)) (c : String × String) :
    lastValue tag (cs ++ [c]) = if c.1 = tag then some c.2 else lastValue tag cs := by
  unfold lastValue
  by_cases h : c.1 = tag
  · simp [List.filter_append, List.filter_cons, h]
  · simp [List.filter_append, List.filter_cons, h]

theorem lastValue_nil (tag : String) : lastValue tag [] = none := rfl

theorem hotspotChild_render (hsType : String) (c : String × String) (v : HotspotVars)
    (rest : XMLParser) (hc : c.1 ∈ hotspotTags) :
    hotspotChild hsType c.1 v (.text c.2 :: .closeTag c.1 :: rest) = (stepVars hsType v c, rest) := by
  obtain ⟨t, s⟩ := c
  simp only [hotspotTags, List.mem_cons, List.mem_singleton, List.not_mem_nil, or_false] at hc
  rcases hc with h | h | h | h | h <;> subst h <;>
    simp [hotspotChild, stepVars, XMLParser.readTagValue, XMLParser.readCloseTag] <;>
    split <;> rfl

theorem hotspotLoop_render (hsType n : String) (rest : XMLParser) :
    ∀ (cs : List (String × String)) (v : HotspotVars) (fuel : Nat),
      (∀ c ∈ cs, c.1 ∈ hotspotTags) → cs.length < fuel →
      hotspotLoop hsType fuel v (renderChildren cs ++ .closeTag n :: rest)
        = some (cs.foldl (stepVars hsType) v, .closeTag n :: rest) := by
  intro cs
  induction cs with
  | nil =>
    intro v fuel _ hf
    obtain ⟨k, rfl⟩ : ∃ k, fuel = k + 1 := ⟨fuel - 1, by simp at hf; omega⟩
    simp [hotspotLoop, renderChildren, XMLParser.readTag]
  | cons c cs ih =>
    intro v fuel hc hf
    obtain ⟨k, rfl⟩ : ∃ k, fuel = k + 1 := ⟨fuel - 1, by simp at hf; omega⟩
    have hc1 : c.1 ∈ hotspotTags := hc c (List.mem_cons_self _ _)
    have hne : c.1 ≠ "" := by
      intro h; rw [h] at hc1; revert hc1; decide
    have hk : cs.length < k := by simp at hf; omega
    have ih' := ih (stepVars hsType v c) k (fun x hx => hc x (List.mem_cons_of_mem _ hx)) hk
    simp only [hotspotLoop, renderChildren, List.cons_append, XMLParser.readTag, hne, if_false,
      hotspotChild_render hsType c v _ hc1, List.foldl_cons]
    cases cs with
    | nil => simp [renderChildren, XMLParser.isCloseTag]
    | cons d ds =>
      simp only [renderChildren, List.cons_append, XMLParser.isCloseTag] at ih' ⊢
      simpa using ih'

/-- On a text of the form `x,y` the two extractions overwrite both variables. -/
theorem readPair_of_isPointValue (v : String) (h : isPointValue v) (a b : Fp) :
    readPair v a b = readPair v (.fin 0) (.fin 0) := by
  obtain ⟨qx, qy, r, r2, h1, h2, f1, f2⟩ := h
  simp only [readPair, IStream.ofString, toFloat] at *
  rw [getFloat_of_scan _ _ _ _ _ h1 f1, getFloat_of_scan _ _ _ _ _ h1 f1]
  simp only [getChar_comma]
  rw [getFloat_of_scan _ _ _ _ _ h2 f2, getFloat_of_scan _ _ _ _ _ h2 f2]

/-- On a text of the form `x,y` the two extractions store the `float` values nearest to the two
numerals. -/
theorem readPair_of_scan (v : String) (qx qy : ℚ) (r r2 : List Char)
    (h1 : scanDecimal v.data = some (qx, ',' :: r)) (h2 : scanDecimal r = some (qy, r2))
    (f1 : (toFloat qx).isFin = true) (f2 : (toFloat qy).isFin = true) (a b : Fp) :
    readPair v a b = (toFloat qx, toFloat qy) := by
  simp only [readPair, IStream.ofString, toFloat] at *
  rw [getFloat_of_scan _ _ _ _ _ h1 f1]
  simp only [getChar_comma]
  rw [getFloat_of_scan _ _ _ _ _ h2 f2]

/-- An integer in the range of `int` is stored unchanged. -/
theorem toInt32_clampLong (n : Int) (h1 : -2147483648 ≤ n) (h2 : n ≤ 2147483647) :
    toInt32 (clampLong n) = n := by
  have hc : clampLong n = n := by
    unfold clampLong
    rw [min_eq_left (by omega), max_eq_right (by omega)]
  rw [hc]
  unfold toInt32
  omega

/-- The value `atoi` gives is in the range of `int`. -/
theorem toInt32_range (n : Int) : -2147483648 ≤ toInt32 n ∧ toInt32 n ≤ 2147483647 := by
  unfold toInt32
  omega

/-- The function `atoi` on a text that starts with an integer in the range of `int`. -/
theorem atoi_of_scan (s : String) (n : Int) (r : List Char)
    (h : scanInteger (skipWs s.data) = some (n, r))
    (h1 : -2147483648 ≤ n) (h2 : n ≤ 2147483647) : atoi s = n := by
  simp only [atoi, h]
  exact toInt32_clampLong n h1 h2

theorem render_mem_hotspotTags (c : HotspotChild) : c.render.1 ∈ hotspotTags := by
  cases c <;> simp [HotspotChild.render, hotspotTags]

/-- The locals of a hotspot block after well-formed children. -/
theorem stepVars_fold_children (hsType : String) (cs : List HotspotChild)
    (hw : ∀ c ∈ cs, c.wellFormed) :
    (cs.map HotspotChild.render).foldl (stepVars hsType) HotspotVars.init =
      { hsName := (lastName cs).getD ""
        x1 := ((lastPoint cs).map (fun p => toFloat p.1)).getD (.fin 0)
        y1 := ((lastPoint cs).map (fun p => toFloat p.2)).getD (.fin 0)
        isInverted := (lastInverted cs).getD "false"
        logicEInput := if hsType = "output" then (lastEnableInput cs).getD "" else ""
        busLines := (lastBus cs).getD 1 } := by
  induction cs using List.reverseRecOn with
  | nil => simp [lastName, lastPoint, lastInverted, lastEnableInput, lastBus, HotspotVars.init]
  | append_singleton cs c ih =>
    have ih' := ih (fun x hx => hw x (List.mem_append_left _ hx))
    have hw1 : c.wellFormed := hw c (by simp)
    rw [List.map_append, List.foldl_append, ih']
    simp only [lastName, lastPoint, lastInverted, lastEnableInput, lastBus, List.foldl_append,
      List.map_cons, List.map_nil, List.foldl_cons, List.foldl_nil]
    cases c with
    | name value => simp [stepVars, hotspotChild, XMLParser.readTagValue, HotspotChild.render]
    | point text x y =>
      obtain ⟨r, r2, h1, h2, f1, f2⟩ := hw1
      simp [stepVars, hotspotChild, XMLParser.readTagValue, HotspotChild.render,
        readPair_of_scan text x y r r2 h1 h2 f1 f2]
    | inverted value => simp [stepVars, hotspotChild, XMLParser.readTagValue, HotspotChild.render]
    | enableInput value =>
      by_cases ho : hsType = "output" <;>
        simp [stepVars, hotspotChild, XMLParser.readTagValue, HotspotChild.render, ho]
    | bus text width =>
      obtain ⟨r, h1, h2, h3⟩ := hw1
      simp [stepVars, hotspotChild, XMLParser.readTagValue, HotspotChild.render,
        atoi_of_scan text width r h1 h2 h3]

/-- Claim C4. For an `input` or `output` block whose children are recognised tags (`name`,
`point`, `inverted`, `enable_input`, `bus`) in any order and number, every `point` text being
two numerals `x,y` and every `bus` text an integer in the range of `int`, `parseFile` appends
exactly one hotspot: `isInput` tells whether the block tag is `input`, the name is the last
`name` value or empty, the position the numbers of the last `point` (as `float`) or `(0,0)`,
`isInverted` holds exactly when the last `inverted` value is the text `true`, the bus width is
the integer of the last `bus` or 1, and `logicEInput` is the last `enable_input` value in an
`output` block and empty in an `input` block or when the field is absent. -/
theorem parseFile_hotspot_block (m : Libm) (fuel : Nat) (hsType closing : String)
    (newGate : LibraryGate) (rest : XMLParser) (cs : List HotspotChild)
    (hType : hsType = "input" ∨ hsType = "output")
    (hWf : ∀ c ∈ cs, c.wellFormed)
    (hFuel : cs.length < fuel) :
    gateChild m fuel hsType newGate
        (renderChildren (cs.map HotspotChild.render) ++ .closeTag closing :: rest)
      = some ({ newGate with hotspots := newGate.hotspots ++ [expectedHotspot hsType cs] },
          rest) := by
  have h1 := hotspotLoop_render hsType closing rest (cs.map HotspotChild.render)
    HotspotVars.init fuel
    (by
      intro c hc
      obtain ⟨d, _, rfl⟩ := List.mem_map.1 hc
      exact render_mem_hotspotTags d)
    (by simpa using hFuel)
  have h2 := stepVars_fold_children hsType cs hWf
  simp only [gateChild, hType, if_true, parseHotspot, h1, XMLParser.readCloseTag, h2]
  congr 3
  simp only [mkHotspot, expectedHotspot]
  congr 1
  cases lastInverted cs <;> simp

theorem parseFile_hotspot_block_witness :
    gateChild ⟨fun _ => .fin 0, fun _ => .fin 0⟩ 6 "output" LibraryGate.empty
        [.openTag "bus", .text "8", .closeTag "bus",
         .openTag "point", .text "9,9", .closeTag "point",
         .openTag "name", .text "A", .closeTag "name",
         .openTag "enable_input", .text "EN", .closeTag "enable_input",
         .openTag "point", .text "3,-4.5", .closeTag "point", .closeTag "output"]
      = some ({ LibraryGate.empty with
                  hotspots := [{ name := "A", isInput := false, x := .fin 3, y := .fin (-9 / 2),
                                 isInverted := false, logicEInput := "EN", busLines := 8 }] },
              []) ∧
    expectedHotspot "output"
        [.bus "8" 8, .point "9,9" 9 9, .name "A", .enableInput "EN", .point "3,-4.5" 3 (-9 / 2)]
      = { name := "A", isInput := false, x := .fin 3, y := .fin (-9 / 2),
          isInverted := false, logicEInput := "EN", busLines := 8 } := by
  have hthm := parseFile_hotspot_block ⟨fun _ => .fin 0, fun _ => .fin 0⟩ 6 "output" "output"
    LibraryGate.empty []
    [.bus "8" 8, .point "9,9" 9 9, .name "A", .enableInput "EN", .point "3,-4.5" 3 (-9 / 2)]
    (Or.inr rfl)
    (by
      intro c hc
      simp only [List.mem_cons, List.mem_singleton, List.not_mem_nil, or_false] at hc
      rcases hc with rfl | rfl | rfl | rfl | rfl
      · exact ⟨[], by decide, by decide, by decide⟩
      · exact ⟨"9".data, [], by decide!, by decide!, by decide!, by decide!⟩
      · trivial
      · trivial
      · exact ⟨"-4.5".data, [], by decide!, by decide!, by decide!, by decide!⟩)
    (by decide)
  have hcode : gateChild ⟨fun _ => .fin 0, fun _ => .fin 0⟩ 6 "output" LibraryGate.empty
        [.openTag "bus", .text "8", .closeTag "bus",
         .openTag "point", .text "9,9", .closeTag "point",
         .openTag "name", .text "A", .closeTag "name",
         .openTag "enable_input", .text "EN", .closeTag "enable_input",
         .openTag "point", .text "3,-4.5", .closeTag "point", .closeTag "output"]
      = some ({ LibraryGate.empty with
                  hotspots := [{ name := "A", isInput := false, x := .fin 3, y := .fin (-9 / 2),
                                 isInverted := false, logicEInput := "EN", busLines := 8 }] },
              []) := by decide!
  refine ⟨hcode, ?_⟩
  have h := hthm.symm.trans hcode
  have h2 := congrArg (fun r => (r.map (fun p : LibraryGate × XMLParser => p.1.hotspots))) h
  simpa [LibraryGate.empty] using h2

theorem stepVars_fold_busLines (hsType : String) (cs : List (String × String))
    (hc : ∀ c ∈ cs, c.1 ∈ hotspotTags) :
    (cs.foldl (stepVars hsType) HotspotVars.init).busLines
      = ((lastValue "bus" cs).map atoi).getD 1 := by
  induction cs using List.reverseRecOn with
  | nil => simp [lastValue_nil, HotspotVars.init]
  | append_singleton cs c ih =>
    have ih' := ih (fun x hx => hc x (List.mem_append_left _ hx))
    have hc1 : c.1 ∈ hotspotTags := hc c (by simp)
    rw [List.foldl_append]
    obtain ⟨t, s⟩ := c
    simp only [hotspotTags, List.mem_cons, List.mem_singleton, List.not_mem_nil, or_false] at hc1
    simp only [lastValue_snoc, List.foldl_cons, List.foldl_nil]
    rcases hc1 with h | h | h | h | h <;> subst h
    · simpa [stepVars, hotspotChild, XMLParser.readTagValue] using ih'
    · simpa [stepVars, hotspotChild, XMLParser.readTagValue] using ih'
    · simpa [stepVars, hotspotChild, XMLParser.readTagValue] using ih'
    · by_cases ho : hsType = "output" <;>
        simpa [stepVars, hotspotChild, XMLParser.readTagValue, ho] using ih'
    · simp [stepVars, hotspotChild, XMLParser.readTagValue]

/-- Claim C9, as amended. For every hotspot block of recognised children the stored bus width is
an `int`, namely `atoi` of the text of the last `bus` child: it is 1 when there is no `bus`
child; when that text starts with a decimal integer in the range of `int`, it is that integer,
hence at least 1 exactly when the integer is; and it is 0 when that text starts with no
integer. -/
theorem parseFile_busLines (m : Libm) (fuel : Nat) (hsType closing : String)
    (newGate : LibraryGate) (rest : XMLParser) (cs : List (String × String))
    (hType : hsType = "input" ∨ hsType = "output")
    (hTags : ∀ c ∈ cs, c.1 ∈ hotspotTags)
    (hFuel : cs.length < fuel) :
    ∃ h : LibraryGateHotspot,
      gateChild m fuel hsType newGate (renderChildren cs ++ .closeTag closing :: rest)
        = some ({ newGate with hotspots := newGate.hotspots ++ [h] }, rest) ∧
      h.busLines = ((lastValue "bus" cs).map atoi).getD 1 ∧
      (-2147483648 ≤ h.busLines ∧ h.busLines ≤ 2147483647) ∧
      (lastValue "bus" cs = none → h.busLines = 1) ∧
      (∀ (v : String) (n : Int) (r : List Char), lastValue "bus" cs = some v →
        scanInteger (skipWs v.data) = some (n, r) → -2147483648 ≤ n → n ≤ 2147483647 →
        h.busLines = n ∧ (1 ≤ h.busLines ↔ 1 ≤ n)) ∧
      (∀ v : String, lastValue "bus" cs = some v → scanInteger (skipWs v.data) = none →
        h.busLines = 0) := by
  have h1 := hotspotLoop_render hsType closing rest cs HotspotVars.init fuel hTags hFuel
  have h2 := stepVars_fold_busLines hsType cs hTags
  have h3 : (mkHotspot hsType (cs.foldl (stepVars hsType) HotspotVars.init)).busLines
      = ((lastValue "bus" cs).map atoi).getD 1 := by simpa [mkHotspot] using h2
  refine ⟨mkHotspot hsType (cs.foldl (stepVars hsType) HotspotVars.init), ?_, h3, ?_, ?_, ?_, ?_⟩
  · simp only [gateChild, hType, if_true, parseHotspot, h1, XMLParser.readCloseTag]
  · rw [h3]
    cases hb : lastValue "bus" cs with
    | none => simp
    | some v =>
      simp only [Option.map_some', Option.getD_some, atoi]
      cases scanInteger (skipWs v.data) with
      | none => simp
      | some p => exact toInt32_range _
  · intro hn; rw [h3, hn]; rfl
  · intro v n r hv hs hlo hhi
    have h4 : (mkHotspot hsType (cs.foldl (stepVars hsType) HotspotVars.init)).busLines = n := by
      rw [h3, hv]
      simp only [Option.map_some', Option.getD_some, atoi_of_scan v n r hs hlo hhi]
    exact ⟨h4, by rw [h4]⟩
  · intro v hv hs
    rw [h3, hv]
    simp [atoi, hs]

theorem parseFile_busLines_witness :
    ∃ h : LibraryGateHotspot,
      gateChild ⟨fun _ => .fin 0, fun _ => .fin 0⟩ 3 "input" LibraryGate.empty
          [.openTag "bus", .text "2", .closeTag "bus",
           .openTag "bus", .text "8", .closeTag "bus", .closeTag "input"]
        = some ({ LibraryGate.empty with hotspots := [h] }, []) ∧
      h.busLines = 8 ∧ 1 ≤ h.busLines := by
  obtain ⟨h, h1, _, _, _, h4, _⟩ := parseFile_busLines ⟨fun _ => .fin 0, fun _ => .fin 0⟩ 3
    "input" "input" LibraryGate.empty [] [("bus", "2"), ("bus", "8")] (Or.inl rfl) (by decide)
    (by decide)
  have h5 := h4 "8" 8 [] (by decide) (by decide) (by decide) (by decide)
  exact ⟨h, h1, h5.1, h5.2.2 (by decide)⟩

/-- Claim C9 fails as stated: the block `<input><bus>0</bus></input>` gives a hotspot whose bus
width is 0. -/
theorem parseFile_busLines_zero :
    ∃ h : LibraryGateHotspot,
      gateChild ⟨fun _ => .fin 0, fun _ => .fin 0⟩ 2 "input" LibraryGate.empty
          [.openTag "bus", .text "0", .closeTag "bus", .closeTag "input"]
        = some ({ LibraryGate.empty with hotspots := [h] }, []) ∧
      ¬ (1 ≤ h.busLines) :=
  ⟨{ name := "", isInput := true, x := .fin 0, y := .fin 0, isInverted := false,
     logicEInput := "", busLines := 0 }, by decide, by decide⟩

theorem StrMap.find_set {α : Type} (mp : StrMap α) (k k2 : String) (v : α) :
    (mp.set k v).find k2 = if k = k2 then some v else mp.find k2 := by
  induction mp with
  | nil => simp [StrMap.set, StrMap.find]
  | cons e mp ih =>
    obtain ⟨a, w⟩ := e
    by_cases h : a = k
    · subst h
      by_cases h2 : a = k2 <;> simp [StrMap.set, StrMap.find, h2]
    · by_cases h2 : a = k2
      · subst h2
        simp [StrMap.set, StrMap.find, h, Ne.symm h]
      · simp [StrMap.set, StrMap.find, h, h2, ih]

theorem StrMap.find_set_self {α : Type} (mp : StrMap α) (k : String) (v : α) :
    (mp.set k v).find k = some v := by
  induction mp with
  | nil => simp [StrMap.set, StrMap.find]
  | cons e mp ih =>
    obtain ⟨a, w⟩ := e
    by_cases h : a = k <;> simp [StrMap.set, StrMap.find, h, ih]

theorem StrMap.find_foldl_set (kvs : List (String × String)) (mp : StrMap String) (k : String) :
    (kvs.foldl (fun acc c => acc.set c.1 c.2) mp).find k
      = ((lastValue k kvs).map some).getD (mp.find k) := by
  induction kvs generalizing mp with
  | nil => simp [lastValue]
  | cons c kvs ih =>
    rw [List.foldl_cons, ih, StrMap.find_set]
    by_cases h : c.1 = k
    · simp only [lastValue, h, List.filter_cons, decide_True, if_true]
      cases hl : (kvs.filter (fun c => decide (c.1 = k))) with
      | nil => simp
      | cons d ds =>
        obtain ⟨x, hx⟩ : ∃ x, (d :: ds).getLast? = some x :=
          ⟨_, List.getLast?_eq_getLast _ (by simp)⟩
        simp [hx]
    · simp [lastValue, List.filter_cons, h]

/-- `parseShapeObject` changes nothing but the shape of the gate. -/
theorem parseShapeObject_frame (m : Libm) (fuel : Nat) (type : String) (p p2 : XMLParser)
    (g g2 : LibraryGate) (offX offY : Fp) (b : Bool)
    (h : parseShapeObject m fuel type p g offX offY = some (b, p2, g2)) :
    g2.guiParams = g.guiParams ∧ g2.logicParams = g.logicParams := by
  unfold parseShapeObject at h
  split at h
  · simp only [Option.some.injEq, Prod.mk.injEq] at h
    obtain ⟨_, _, rfl⟩ := h
    exact ⟨rfl, rfl⟩
  · split at h
    · dsimp only at h
      split at h
      · cases h
      · simp only [Option.some.injEq, Prod.mk.injEq] at h
        obtain ⟨_, _, rfl⟩ := h
        exact ⟨rfl, rfl⟩
    · simp only [Option.some.injEq, Prod.mk.injEq] at h
      obtain ⟨_, _, rfl⟩ := h
      exact ⟨rfl, rfl⟩

theorem offsetLoop_frame (m : Libm) (offX offY : Fp) :
    ∀ (fuel : Nat) (g g2 : LibraryGate) (p p2 : XMLParser),
      offsetLoop m offX offY fuel g p = some (g2, p2) →
      g2.guiParams = g.guiParams ∧ g2.logicParams = g.logicParams := by
  intro fuel
  induction fuel with
  | zero => intro g g2 p p2 h; simp [offsetLoop] at h
  | succ n ih =>
    intro g g2 p p2 h
    simp only [offsetLoop] at h
    split at h
    · simp only [Option.some.injEq, Prod.mk.injEq] at h
      obtain ⟨rfl, _⟩ := h
      exact ⟨rfl, rfl⟩
    · split at h
      · cases h
      · rename_i b p3 g3 hs
        have hf := parseShapeObject_frame m n _ _ _ _ _ _ _ _ hs
        split at h
        · simp only [Option.some.injEq, Prod.mk.injEq] at h
          obtain ⟨rfl, _⟩ := h
          exact hf
        · have := ih _ _ _ _ h
          exact ⟨this.1.trans hf.1, this.2.trans hf.2⟩

theorem shapeLoop_frame (m : Libm) :
    ∀ (fuel : Nat) (g g2 : LibraryGate) (p p2 : XMLParser),
      shapeLoop m fuel g p = some (g2, p2) →
      g2.guiParams = g.guiParams ∧ g2.logicParams = g.logicParams := by
  intro fuel
  induction fuel with
  | zero => intro g g2 p p2 h; simp [shapeLoop] at h
  | succ n ih =>
    intro g g2 p p2 h
    simp only [shapeLoop] at h
    split at h
    · simp only [Option.some.injEq, Prod.mk.injEq] at h
      obtain ⟨rfl, _⟩ := h
      exact ⟨rfl, rfl⟩
    · split at h
      · split at h
        · split at h
          · cases h
          · rename_i g3 p3 ho
            have hf := offsetLoop_frame m _ _ n _ _ _ _ ho
            split at h
            · simp only [Option.some.injEq, Prod.mk.injEq] at h
              obtain ⟨rfl, _⟩ := h
              exact hf
            · have := ih _ _ _ _ h
              exact ⟨this.1.trans hf.1, this.2.trans hf.2⟩
        · simp only [Option.some.injEq, Prod.mk.injEq] at h
          obtain ⟨rfl, _⟩ := h
          exact ⟨rfl, rfl⟩
      · split at h
        · cases h
        · rename_i b p3 g3 hs
          have hf := parseShapeObject_frame m n _ _ _ _ _ _ _ _ hs
          split at h
          · simp only [Option.some.injEq, Prod.mk.injEq] at h
            obtain ⟨rfl, _⟩ := h
            exact hf
          · have := ih _ _ _ _ h
            exact ⟨this.1.trans hf.1, this.2.trans hf.2⟩

theorem paramDlgLoop_frame :
    ∀ (fuel : Nat) (g g2 : LibraryGate) (p p2 : XMLParser),
      paramDlgLoop fuel g p = some (g2, p2) →
      g2.guiParams = g.guiParams ∧ g2.logicParams = g.logicParams := by
  intro fuel
  induction fuel with
  | zero => intro g g2 p p2 h; simp [paramDlgLoop] at h
  | succ n ih =>
    intro g g2 p p2 h
    simp only [paramDlgLoop] at h
    split at h
    · simp only [Option.some.injEq, Prod.mk.injEq] at h
      obtain ⟨rfl, _⟩ := h
      exact ⟨rfl, rfl⟩
    · split at h
      · split at h
        · cases h
        · split at h
          · simp only [Option.some.injEq, Prod.mk.injEq] at h
            obtain ⟨rfl, _⟩ := h
            exact ⟨rfl, rfl⟩
          · have := ih _ _ _ _ h
            exact this
      · split at h
        · simp only [Option.some.injEq, Prod.mk.injEq] at h
          obtain ⟨rfl, _⟩ := h
          exact ⟨rfl, rfl⟩
        · exact ih _ _ _ _ h

/-- Every child of a gate body other than `gui_param` leaves `guiParams` alone, and every child
other than `logic_param` leaves `logicParams` alone. -/
theorem gateChild_frame (m : Libm) (fuel : Nat) (temp : String) (g g2 : LibraryGate)
    (p p2 : XMLParser) (h : gateChild m fuel temp g p = some (g2, p2)) :
    (temp ≠ "gui_param" → g2.guiParams = g.guiParams) ∧
    (temp ≠ "logic_param" → g2.logicParams = g.logicParams) := by
  unfold gateChild at h
  split at h
  · simp only [parseHotspot] at h
    split at h
    · cases h
    · simp only [Option.some.injEq, Prod.mk.injEq] at h
      obtain ⟨rfl, _⟩ := h
      exact ⟨fun _ => rfl, fun _ => rfl⟩
  · split at h
    · simp only [parseShape] at h
      split at h
      · cases h
      · rename_i g3 p3 hs
        simp only [Option.some.injEq, Prod.mk.injEq] at h
        obtain ⟨rfl, _⟩ := h
        have := shapeLoop_frame m fuel _ _ _ _ hs
        exact ⟨fun _ => this.1, fun _ => this.2⟩
    · split at h
      · simp only [parseParamDlg] at h
        split at h
        · cases h
        · rename_i g3 p3 hs
          simp only [Option.some.injEq, Prod.mk.injEq] at h
          obtain ⟨rfl, _⟩ := h
          have := paramDlgLoop_frame fuel _ _ _ _ hs
          exact ⟨fun _ => this.1, fun _ => this.2⟩
      · split at h
        · simp only [Option.some.injEq, Prod.mk.injEq] at h
          obtain ⟨rfl, _⟩ := h
          exact ⟨fun _ => rfl, fun _ => rfl⟩
        · split at h
          · simp only [Option.some.injEq, Prod.mk.injEq] at h
            obtain ⟨rfl, _⟩ := h
            exact ⟨fun _ => rfl, fun _ => rfl⟩
          · split at h
            · rename_i hg
              simp only [Option.some.injEq, Prod.mk.injEq] at h
              obtain ⟨rfl, _⟩ := h
              exact ⟨fun hn => absurd hg hn, fun _ => rfl⟩
            · split at h
              · rename_i hg
                simp only [Option.some.injEq, Prod.mk.injEq] at h
                obtain ⟨rfl, _⟩ := h
                exact ⟨fun _ => rfl, fun hn => absurd hg hn⟩
              · split at h
                · simp only [Option.some.injEq, Prod.mk.injEq] at h
                  obtain ⟨rfl, _⟩ := h
                  exact ⟨fun _ => rfl, fun _ => rfl⟩
                · simp only [Option.some.injEq, Prod.mk.injEq] at h
                  obtain ⟨rfl, _⟩ := h
                  exact ⟨fun _ => rfl, fun _ => rfl⟩

theorem gateChild_gui_param (m : Libm) (fuel : Nat) (g : LibraryGate) (p : XMLParser) :
    gateChild m fuel "gui_param" g p
      = some ({ g with
                guiParams := g.guiParams.set (readWords (p.readTagValue "gui_param").1 "" "").1
                  (readWords (p.readTagValue "gui_param").1 "" "").2 },
              (p.readTagValue "gui_param").2.readCloseTag) := by
  simp [gateChild]

theorem gateChild_logic_param (m : Libm) (fuel : Nat) (g : LibraryGate) (p : XMLParser) :
    gateChild m fuel "logic_param" g p
      = some ({ g with
                logicParams := g.logicParams.set
                  (readWords (p.readTagValue "logic_param").1 "" "").1
                  (readWords (p.readTagValue "logic_param").1 "" "").2 },
              (p.readTagValue "logic_param").2.readCloseTag) := by
  simp [gateChild]

/-- The two maps after the loop over a gate body: those before, with the pairs of the trace set
in order. -/
theorem gateBodyLoop_params (m : Libm) :
    ∀ (fuel : Nat) (g g2 : LibraryGate) (p p2 : XMLParser),
      gateBodyLoop m fuel g p = some (g2, p2) →
      g2.guiParams = (paramPairs "gui_param" (paramTrace m fuel g p)).foldl
          (fun acc c => acc.set c.1 c.2) g.guiParams ∧
      g2.logicParams = (paramPairs "logic_param" (paramTrace m fuel g p)).foldl
          (fun acc c => acc.set c.1 c.2) g.logicParams := by
  intro fuel
  induction fuel with
  | zero => intro g g2 p p2 h; simp [gateBodyLoop] at h
  | succ n ih =>
    intro g g2 p p2 h
    simp only [gateBodyLoop] at h
    simp only [paramTrace]
    cases hc : gateChild m n p.readTag.1 g p.readTag.2 with
    | none => rw [hc] at h; cases h
    | some r =>
      obtain ⟨g3, p3⟩ := r
      rw [hc] at h
      dsimp only at h ⊢
      have hframe := gateChild_frame m n _ _ _ _ _ hc
      -- the maps after this child
      have hstep : g3.guiParams = (paramPairs "gui_param"
            (if p.readTag.1 = "gui_param" ∨ p.readTag.1 = "logic_param" then
              [(p.readTag.1, (p.readTag.2.readTagValue p.readTag.1).1)] else [])).foldl
              (fun acc c => acc.set c.1 c.2) g.guiParams ∧
          g3.logicParams = (paramPairs "logic_param"
            (if p.readTag.1 = "gui_param" ∨ p.readTag.1 = "logic_param" then
              [(p.readTag.1, (p.readTag.2.readTagValue p.readTag.1).1)] else [])).foldl
              (fun acc c => acc.set c.1 c.2) g.logicParams := by
        by_cases hg : p.readTag.1 = "gui_param"
        · rw [hg] at hc ⊢
          rw [gateChild_gui_param] at hc
          simp only [Option.some.injEq, Prod.mk.injEq] at hc
          obtain ⟨rfl, _⟩ := hc
          simp [paramPairs]
        · by_cases hl : p.readTag.1 = "logic_param"
          · rw [hl] at hc ⊢
            rw [gateChild_logic_param] at hc
            simp only [Option.some.injEq, Prod.mk.injEq] at hc
            obtain ⟨rfl, _⟩ := hc
            simp [paramPairs]
          · simp [hg, hl, paramPairs, hframe.1 hg, hframe.2 hl]
      by_cases hclose : p3.isCloseTag = true
      · simp only [hclose, if_true, Option.some.injEq, Prod.mk.injEq] at h
        obtain ⟨rfl, _⟩ := h
        simp only [hclose, if_true, List.append_nil]
        exact hstep
      · simp only [hclose, if_false] at h ⊢
        have := ih _ _ _ _ h
        simp only [paramPairs, List.filter_append, List.map_append, List.foldl_append] at this hstep ⊢
        rw [this.1, this.2, hstep.1, hstep.2]
        exact ⟨rfl, rfl⟩

/-- Claim C10. After the body of a gate is parsed, `guiParams` maps a key to the value of the
last `gui_param` child that names it, the text of each child being split into its first two
words `key value`, and holds no other key; `logicParams` is the same for the `logic_param`
children.  Hence no `gui_param` child changes `logicParams` and no `logic_param` child changes
`guiParams`. -/
theorem parseFile_params (m : Libm) (fuel : Nat) (gateName : String) (mParse : XMLParser)
    (newGate : LibraryGate) (mParse2 : XMLParser)
    (h : gateBodyLoop m fuel { LibraryGate.empty with gateName := gateName } mParse
      = some (newGate, mParse2)) (key : String) :
    newGate.guiParams.find key = lastValue key (paramPairs "gui_param"
        (paramTrace m fuel { LibraryGate.empty with gateName := gateName } mParse)) ∧
    newGate.logicParams.find key = lastValue key (paramPairs "logic_param"
        (paramTrace m fuel { LibraryGate.empty with gateName := gateName } mParse)) := by
  have := gateBodyLoop_params m fuel _ _ _ _ h
  rw [this.1, this.2, StrMap.find_foldl_set, StrMap.find_foldl_set]
  simp only [LibraryGate.empty, StrMap.find]
  constructor
  · cases lastValue key _ <;> rfl
  · cases lastValue key _ <;> rfl

theorem parseFile_params_witness :
    ∃ g p, gateBodyLoop ⟨fun _ => .fin 0, fun _ => .fin 0⟩ 4
        { LibraryGate.empty with gateName := "G" } sampleBody = some (g, p) ∧
      g.guiParams.find "angle" = some "180" ∧ g.logicParams.find "angle" = none ∧
      g.logicParams.find "DELAY" = some "1" := by
  have hs : (gateBodyLoop ⟨fun _ => .fin 0, fun _ => .fin 0⟩ 4
      { LibraryGate.empty with gateName := "G" } sampleBody).isSome = true := by decide
  obtain ⟨⟨g, p⟩, h⟩ := Option.isSome_iff_exists.mp hs
  have h1 := parseFile_params ⟨fun _ => .fin 0, fun _ => .fin 0⟩ 4 "G" sampleBody g p h "angle"
  have h2 := parseFile_params ⟨fun _ => .fin 0, fun _ => .fin 0⟩ 4 "G" sampleBody g p h "DELAY"
  exact ⟨g, p, h, h1.1.trans (by decide), h1.2.trans (by decide), h2.2.trans (by decide)⟩

theorem lookup_setGate (cat : StrMap (StrMap LibraryGate)) (lib name lib2 name2 : String)
    (g : LibraryGate) :
    lookup (setGate cat lib name g) lib2 name2
      = if lib = lib2 ∧ name = name2 then some g else lookup cat lib2 name2 := by
  unfold lookup setGate
  rw [StrMap.find_set]
  by_cases hl : lib = lib2
  · subst hl
    simp only [if_true, Option.bind_some, true_and]
    by_cases hn : name = name2
    · simp [hn, StrMap.find_set]
    · cases hf : cat.find lib <;> simp [hn, StrMap.find, StrMap.find_set]
  · simp [hl]

theorem hasGate_setGate (cat : StrMap (StrMap LibraryGate)) (lib name lib2 name2 : String)
    (g : LibraryGate) :
    hasGate (setGate cat lib name g) lib2 name2
      = ((decide (lib = lib2) && decide (name = name2)) || hasGate cat lib2 name2) := by
  unfold hasGate lookup setGate
  rw [StrMap.find_set]
  by_cases hl : lib = lib2
  · subst hl
    simp only [if_true, Option.bind_some, decide_True, Bool.true_and]
    by_cases hn : name = name2
    · simp [hn, StrMap.find_set]
    · cases hf : cat.find lib <;> simp [hn, StrMap.find, StrMap.find_set]
  · simp [hl]

theorem Tied.empty : Tied MainApp.empty [] := by
  constructor
  · intro name; rfl
  · intro lib name; simp [hasGate, lookup, MainApp.empty, StrMap.find]

theorem Tied.insert {app : MainApp} {log : List (String × String)} (h : Tied app log)
    (self : GateLibrary) (lib : String) (g : LibraryGate) :
    Tied (insertGate lib g (self, app)).2 (log ++ [(g.gateName, lib)]) := by
  constructor
  · intro name
    simp only [insertGate, StrMap.find_set, lastValue_snoc, h.1 name]
  · intro lib2 name2
    simp only [insertGate, hasGate_setGate, Bool.or_eq_true, Bool.and_eq_true, decide_eq_true_eq,
      h.2 lib2 name2, List.mem_append, List.mem_singleton, Prod.mk.injEq]
    constructor
    · rintro (⟨h1, h2⟩ | h3)
      · exact Or.inr ⟨h2.symm, h1.symm⟩
      · exact Or.inl h3
    · rintro (h3 | ⟨h1, h2⟩)
      · exact Or.inr h3
      · exact Or.inl ⟨h2.symm, h1.symm⟩

theorem gatesLoop_tied (m : Libm) (libName : String) :
    ∀ (fuel : Nat) (st st2 : GateLibrary × MainApp) (p p2 : XMLParser)
      (log : List (String × String)),
      gatesLoop m libName fuel st p = some (st2, p2) → Tied st.2 log →
      Tied st2.2 (log ++ gatesLog m libName fuel p) := by
  intro fuel
  induction fuel with
  | zero => intro st st2 p p2 log h _; simp [gatesLoop] at h
  | succ n ih =>
    intro st st2 p p2 log h ht
    simp only [gatesLoop] at h
    simp only [gatesLog]
    split at h
    · cases h
    · rename_i g p3 hb
      try rw [hb]
      try dsimp only
      have ht2 := Tied.insert ht st.1 libName g
      split at h
      · rename_i hc
        simp only [Option.some.injEq, Prod.mk.injEq] at h
        obtain ⟨rfl, _⟩ := h
        simpa [hc] using ht2
      · rename_i hc
        have := ih _ _ _ _ _ h ht2
        simpa [hc, List.append_assoc] using this

theorem libraryLoop_tied (m : Libm) :
    ∀ (fuel : Nat) (st st2 : GateLibrary × MainApp) (p : XMLParser)
      (log : List (String × String)),
      Tied st.2 log → libraryLoop m fuel st p = some st2 →
      Tied st2.2 (log ++ libraryLog m fuel st p) := by
  intro fuel
  induction fuel with
  | zero => intro st st2 p log _ h; simp [libraryLoop] at h
  | succ n ih =>
    intro st st2 p log ht h
    simp only [libraryLoop] at h
    simp only [libraryLog]
    split at h
    · rename_i hne
      simp only [Option.some.injEq] at h
      subst h
      simpa [hne] using ht
    · rename_i hne
      rw [if_neg hne]
      split at h
      · cases h
      · rename_i st3 p3 hg
        try rw [hg]
        try dsimp only
        have ht3 := gatesLoop_tied m _ n _ _ _ _ log hg ht
        have := ih _ _ _ _ ht3 h
        simpa [List.append_assoc] using this

theorem runOp_tied (op : Op) (app app2 : MainApp) (log : List (String × String))
    (ht : Tied app log) (h : runOp op app = some app2) : Tied app2 (log ++ opLog op app) := by
  cases op with
  | parse m fuel self =>
    simp only [runOp, parseFile, Option.map_eq_some'] at h
    obtain ⟨st2, h1, rfl⟩ := h
    exact libraryLoop_tied m fuel (self, app) st2 self.mParse log ht h1
  | blackBox env copyText self =>
    simp only [runOp, Option.some.injEq] at h
    subst h
    exact Tied.insert ht _ _ _

theorem runOps_tied :
    ∀ (ops : List Op) (app app2 : MainApp) (log : List (String × String)),
      Tied app log → runOps ops app = some app2 → Tied app2 (log ++ opsLog ops app) := by
  intro ops
  induction ops with
  | nil =>
    intro app app2 log ht h
    simp only [runOps, Option.some.injEq] at h
    subst h
    simpa [opsLog] using ht
  | cons op ops ih =>
    intro app app2 log ht h
    simp only [runOps] at h
    cases h1 : runOp op app with
    | none => rw [h1] at h; cases h
    | some app3 =>
      rw [h1] at h
      have ht3 := runOp_tied op app app3 log ht h1
      have := ih app3 app2 _ ht3 h
      simp only [opsLog, h1]
      simpa [List.append_assoc] using this

/-- Claim C1. Starting from an empty catalog and an empty index, after any sequence of calls of
`parseFile` and `defineBlackBox` that return, every gate name that is a key of some library of
the catalog was inserted in that library, is a key of the index, and the index maps it to the
library name of the most recent insertion of that name. -/
theorem catalog_index_invariant (ops : List Op) (app : MainApp)
    (h : runOps ops MainApp.empty = some app) (libName gateName : String)
    (hkey : hasGate app.libraries libName gateName = true) :
    (gateName, libName) ∈ opsLog ops MainApp.empty ∧
    ∃ lib, app.gateNameToLibrary.find gateName = some lib ∧
      lastValue gateName (opsLog ops MainApp.empty) = some lib := by
  have ht := runOps_tied ops MainApp.empty app [] Tied.empty h
  simp only [List.nil_append] at ht
  have hmem := (ht.2 libName gateName).1 hkey
  have hidx := ht.1 gateName
  refine ⟨hmem, ?_⟩
  cases hl : lastValue gateName (opsLog ops MainApp.empty) with
  | some lib => exact ⟨lib, by rw [hidx, hl], rfl⟩
  | none =>
    exfalso
    unfold lastValue at hl
    simp only [Option.map_eq_none', List.getLast?_eq_none_iff, List.filter_eq_nil_iff,
      decide_eq_true_eq] at hl
    exact hl _ hmem rfl

theorem catalog_index_invariant_witness :
    ∃ app, runOps sampleOps MainApp.empty = some app ∧
      hasGate app.libraries "L1" "AND" = true ∧
      app.gateNameToLibrary.find "AND" = some "L2" ∧
      lastValue "AND" (opsLog sampleOps MainApp.empty) = some "L2" := by
  have hs : (runOps sampleOps MainApp.empty).isSome = true := by decide
  obtain ⟨app, h⟩ := Option.isSome_iff_exists.mp hs
  have hk : (runOps sampleOps MainApp.empty).map (fun a => hasGate a.libraries "L1" "AND")
      = some true := by decide
  have hkey : hasGate app.libraries "L1" "AND" = true := by
    rw [h] at hk; simpa using hk
  obtain ⟨_, lib, h1, h2⟩ := catalog_index_invariant sampleOps app h "L1" "AND" hkey
  have h3 : lastValue "AND" (opsLog sampleOps MainApp.empty) = some "L2" := by decide
  have : lib = "L2" := by rw [h3] at h2; exact (Option.some.inj h2).symm
  subst this
  exact ⟨app, h, hkey, h1, h3⟩

theorem lexLt_asymm : ∀ (a b : List Char), lexLt a b = true → lexLt b a = false := by
  intro a
  induction a with
  | nil => intro b h; cases b <;> simp [lexLt] at h ⊢
  | cons x xs ih =>
    intro b h
    cases b with
    | nil => simp [lexLt] at h
    | cons y ys =>
      simp only [lexLt, Bool.or_eq_true, Bool.and_eq_true, decide_eq_true_eq, Bool.or_eq_false_iff,
        Bool.and_eq_false_iff, decide_eq_false_iff_not] at h ⊢
      rcases h with h | ⟨h1, h2⟩
      · exact ⟨by omega, Or.inl (by omega)⟩
      · exact ⟨by omega, Or.inr (ih ys h2)⟩

theorem lexLt_negtrans : ∀ (c a b : List Char), lexLt c a = true →
    lexLt c b = true ∨ lexLt b a = true := by
  intro c
  induction c with
  | nil =>
    intro a b h
    cases a with
    | nil => simp [lexLt] at h
    | cons y ys => cases b <;> simp [lexLt]
  | cons x xs ih =>
    intro a b h
    cases a with
    | nil => simp [lexLt] at h
    | cons y ys =>
      cases b with
      | nil => simp [lexLt]
      | cons z zs =>
        simp only [lexLt, Bool.or_eq_true, Bool.and_eq_true, decide_eq_true_eq] at h ⊢
        rcases h with h | ⟨h1, h2⟩
        · by_cases hxz : x.toNat < z.toNat
          · exact Or.inl (Or.inl hxz)
          · by_cases hzy : z.toNat < y.toNat
            · exact Or.inr (Or.inl hzy)
            · omega
        · by_cases hxz : x.toNat < z.toNat
          · exact Or.inl (Or.inl hxz)
          · by_cases hzx : z.toNat < x.toNat
            · exact Or.inr (Or.inl (by omega))
            · have hxz2 : x.toNat = z.toNat := by omega
              rcases ih ys zs h2 with h3 | h3
              · exact Or.inl (Or.inr ⟨hxz2, h3⟩)
              · exact Or.inr (Or.inr ⟨by omega, h3⟩)

theorem inputData_le_total : IsTotal InputData InputData.le where
  total a b := by
    unfold InputData.le
    cases h : lexLt b.name.data a.name.data with
    | false => exact Or.inl rfl
    | true => exact Or.inr (lexLt_asymm _ _ h)

theorem inputData_le_trans : IsTrans InputData InputData.le where
  trans a b c hab hbc := by
    unfold InputData.le at *
    cases h : lexLt c.name.data a.name.data with
    | false => rfl
    | true =>
      rcases lexLt_negtrans _ _ b.name.data h with h1 | h1
      · rw [h1] at hbc; cases hbc
      · rw [h1] at hab; cases hab

theorem sortPins_sorted (v : List InputData) : (sortPins v).Sorted InputData.le :=
  @List.sorted_insertionSort InputData InputData.le _ inputData_le_total inputData_le_trans v

theorem sortPins_perm (v : List InputData) : (sortPins v).Perm v :=
  List.perm_insertionSort _ _

theorem generateShapePins_length (l : Layout) (side : Nat) (size : Point) (v : List InputData) :
    (l.generateShapePins side size v).length = v.length := by
  simp [Layout.generateShapePins]

theorem generateShapeTextPosition_length (l : Layout) (side : Nat) (v : List InputData) :
    (l.generateShapeTextPosition side v).length = v.length := by
  simp [Layout.generateShapeTextPosition]

theorem zipWith_range_map {α β γ : Type} (f : Nat → α → β) (g : β → γ) (h : α → γ)
    (hfg : ∀ i a, g (f i a) = h a) :
    ∀ (v : List α) (k : Nat), ((List.range' k v.length).zipWith f v).map g = v.map h := by
  intro v
  induction v with
  | nil => intro k; simp
  | cons a v ih =>
    intro k
    simp only [List.length_cons, List.range'_succ, List.zipWith_cons_cons, List.map_cons, hfg]
    rw [ih]

theorem generateShapePins_name (l : Layout) (side : Nat) (size : Point) (v : List InputData) :
    (l.generateShapePins side size v).map (fun d => d.name) = v.map (fun d => d.name) := by
  unfold Layout.generateShapePins
  rw [List.range_eq_range']
  refine zipWith_range_map _ (fun d : InputData => d.name) (fun d : InputData => d.name) ?_ v 0
  intro i a; rfl

theorem generateShapeTextPosition_name (l : Layout) (side : Nat) (v : List InputData) :
    (l.generateShapeTextPosition side v).map (fun d => d.name) = v.map (fun d => d.name) := by
  unfold Layout.generateShapeTextPosition
  rw [List.range_eq_range']
  refine zipWith_range_map _ (fun d : InputData => d.name) (fun d : InputData => d.name) ?_ v 0
  intro i a; rfl

theorem toDouble_zero : toDouble 0 = .fin 0 := by decide!
theorem toDouble_90 : toDouble 90 = .fin 90 := by decide!
theorem toDouble_180 : toDouble 180 = .fin 180 := by decide!
theorem toFloat_90 : toFloat 90 = .fin 90 := by decide!

theorem classify_eq : ∀ (jd : List JunctionData) (s : Sides),
    classify jd s =
      { left := s.left ++ (jd.filter (fun p => p.rotation = .fin 0)).map (pinOf (.fin 0))
        top := s.top ++ (jd.filter (fun p => p.rotation = .fin 90)).map (pinOf (.fin 90))
        bottom := s.bottom ++ (jd.filter (fun p => p.rotation ≠ .fin 0 ∧ p.rotation ≠ .fin 90 ∧
            p.rotation ≠ .fin 180)).map (pinOf (.fin 90))
        right := s.right ++ (jd.filter (fun p => p.rotation = .fin 180)).map (pinOf (.fin 0)) } := by
  intro jd
  induction jd with
  | nil => intro s; simp [classify]
  | cons p ps ih =>
    intro s
    simp only [classify, toDouble_zero, toDouble_90, toDouble_180, toFloat_90]
    by_cases h0 : p.rotation = .fin 0
    · simp [h0, ih, pinOf, InputData.init, List.filter_cons]
    · by_cases h90 : p.rotation = .fin 90
      · simp [h90, ih, pinOf, InputData.init, List.filter_cons]
      · by_cases h180 : p.rotation = .fin 180
        · simp [h180, ih, pinOf, InputData.init, List.filter_cons]
        · simp [h0, h90, h180, ih, pinOf, InputData.init, List.filter_cons]

theorem scanCommands_length : ∀ (cs : List Command) (coord : Point) (t : String)
    (acc : List JunctionData),
    (scanCommands cs coord t acc).length = acc.length + pinCount cs := by
  intro cs
  induction cs with
  | nil => intro coord t acc; simp [scanCommands, pinCount]
  | cons c cs ih =>
    intro coord t acc
    cases c with
    | createGate pos ty => simp [scanCommands, pinCount, ih]
    | setParams gui logic =>
      simp [scanCommands, pinCount, ih, junctionsOf]
      omega
    | other n => simp [scanCommands, pinCount, ih]

theorem classify_length_aux : ∀ (jd : List JunctionData) (s : Sides),
    (classify jd s).right.length + ((classify jd s).bottom.length +
      ((classify jd s).top.length + (classify jd s).left.length))
      = s.right.length + (s.bottom.length + (s.top.length + s.left.length)) + jd.length := by
  intro jd
  induction jd with
  | nil => intro s; simp [classify]
  | cons p ps ih =>
    intro s
    simp only [classify]
    split
    · rw [ih]; simp only [List.length_append, List.length_cons, List.length_nil]; omega
    · split
      · rw [ih]; simp only [List.length_append, List.length_cons, List.length_nil]; omega
      · split
        · rw [ih]; simp only [List.length_append, List.length_cons, List.length_nil]; omega
        · rw [ih]; simp only [List.length_append, List.length_cons, List.length_nil]; omega

theorem classify_length (jd : List JunctionData) :
    (classify jd ⟨[], [], [], []⟩).right.length + ((classify jd ⟨[], [], [], []⟩).bottom.length +
      ((classify jd ⟨[], [], [], []⟩).top.length + (classify jd ⟨[], [], [], []⟩).left.length))
      = jd.length := by
  rw [classify_length_aux]; simp

theorem layout_length (l : Layout) (side : Nat) (size : Point) (v : List InputData) :
    (l.generateShapeTextPosition side (l.generateShapePins side size (sortPins v))).length
      = v.length := by
  rw [generateShapeTextPosition_length, generateShapePins_length, (sortPins_perm v).length_eq]

theorem setGate_find (cat : StrMap (StrMap LibraryGate)) (lib name : String) (g : LibraryGate) :
    ((setGate cat lib name g).find lib).bind (fun l => l.find name) = some g := by
  simp [setGate, StrMap.find_set_self]

/-- Claim C5. The record that `defineBlackBox` builds and stores has `4 + n` shape segments, `n`
hotspots and `n` labels, where `n` is the number of pin descriptors, one for each `JUNCTION_ID`
logic parameter of a `Set Parameter` command; with no command at all it has 4 segments, no
hotspot, no label and a name that is not empty.  `defineBlackBox` is total: nothing fails. -/
theorem defineBlackBox_counts (env : BlackBoxEnv) (copyText : String)
    (st : GateLibrary × MainApp) :
    ((defineBlackBox env copyText st).1.gates.find "11 - Black Boxes").bind
        (fun l => l.find (buildBlackBox env st.1.numDefinedBlackBoxes copyText).gateName)
      = some (buildBlackBox env st.1.numDefinedBlackBoxes copyText) ∧
    (scanCommands (env.getCommands copyText) (.fin 0, .fin 0) "" []).length
      = pinCount (env.getCommands copyText) ∧
    (buildBlackBox env st.1.numDefinedBlackBoxes copyText).shape.length
      = 4 + pinCount (env.getCommands copyText) ∧
    (buildBlackBox env st.1.numDefinedBlackBoxes copyText).hotspots.length
      = pinCount (env.getCommands copyText) ∧
    (buildBlackBox env st.1.numDefinedBlackBoxes copyText).labels.length
      = pinCount (env.getCommands copyText) ∧
    (env.getCommands copyText = [] →
      (buildBlackBox env st.1.numDefinedBlackBoxes copyText).shape.length = 4 ∧
      (buildBlackBox env st.1.numDefinedBlackBoxes copyText).hotspots = [] ∧
      (buildBlackBox env st.1.numDefinedBlackBoxes copyText).labels = [] ∧
      (buildBlackBox env st.1.numDefinedBlackBoxes copyText).gateName ≠ "") := by
  have hn := scanCommands_length (env.getCommands copyText) (.fin 0, .fin 0) "" []
  simp only [List.length_nil, Nat.zero_add] at hn
  have hc := classify_length (scanCommands (env.getCommands copyText) (.fin 0, .fin 0) "" [])
  rw [hn] at hc
  refine ⟨?_, hn, ?_, ?_, ?_, ?_⟩
  · simp only [defineBlackBox, insertGate]
    exact setGate_find _ _ _ _
  · simp only [buildBlackBox, List.length_append, List.length_map, layout_length, List.length_cons,
      List.length_nil]
    omega
  · simp only [buildBlackBox, List.length_append, List.length_map, layout_length]
    omega
  · simp only [buildBlackBox, List.length_append, List.length_map, layout_length]
    omega
  · intro he
    refine ⟨?_, ?_, ?_, ?_⟩
    · simp [buildBlackBox, he, scanCommands, classify, sortPins, Layout.generateShapePins,
        Layout.generateShapeTextPosition]
    · simp [buildBlackBox, he, scanCommands, classify, sortPins, Layout.generateShapePins,
        Layout.generateShapeTextPosition]
    · simp [buildBlackBox, he, scanCommands, classify, sortPins, Layout.generateShapePins,
        Layout.generateShapeTextPosition]
    · simp only [buildBlackBox]
      intro h
      have := congrArg String.length h
      simp only [String.length_append] at this
      have h9 : "BlackBox#".length = 9 := by decide
      have h0 : "".length = 0 := by decide
      omega

theorem defineBlackBox_counts_witness :
    (buildBlackBox (sampleEnv []) 0 "").shape.length = 4 ∧
    (buildBlackBox (sampleEnv []) 0 "").hotspots = [] ∧
    (buildBlackBox (sampleEnv []) 0 "").labels = [] ∧
    (buildBlackBox (sampleEnv []) 0 "").gateName ≠ "" :=
  (defineBlackBox_counts (sampleEnv []) "" (⟨[], "", [], 0⟩, MainApp.empty)).2.2.2.2.2 rfl

/-- The names of a side group after sorting, pin placement and label placement. -/
theorem layout_names (l : Layout) (side : Nat) (size : Point) (v : List InputData) :
    (l.generateShapeTextPosition side (l.generateShapePins side size (sortPins v))).map
        (fun d => d.name) = (sortPins v).map (fun d => d.name) := by
  rw [generateShapeTextPosition_name, generateShapePins_name]

theorem sortPins_names_sorted (v : List InputData) :
    ((sortPins v).map (fun d => d.name)).Sorted (fun a b => lexLt b.data a.data = false) := by
  have h := sortPins_sorted v
  unfold List.Sorted at h ⊢
  rw [List.pairwise_map]
  exact h

/-- Claim C6. The names of the hotspots of the record are the names of the sorted right group,
then of the sorted bottom group, the sorted top group and the sorted left group; every sorted
group is in ascending byte-wise order of name and is a permutation of the group as classified. -/
theorem defineBlackBox_sorted (env : BlackBoxEnv) (num : Int) (copyText : String) :
    (buildBlackBox env num copyText).hotspots.map (fun h => h.name)
      = (sortPins (classify (scanCommands (env.getCommands copyText) (.fin 0, .fin 0) "" [])
            ⟨[], [], [], []⟩).right).map (fun d => d.name) ++
        ((sortPins (classify (scanCommands (env.getCommands copyText) (.fin 0, .fin 0) "" [])
            ⟨[], [], [], []⟩).bottom).map (fun d => d.name) ++
        ((sortPins (classify (scanCommands (env.getCommands copyText) (.fin 0, .fin 0) "" [])
            ⟨[], [], [], []⟩).top).map (fun d => d.name) ++
         (sortPins (classify (scanCommands (env.getCommands copyText) (.fin 0, .fin 0) "" [])
            ⟨[], [], [], []⟩).left).map (fun d => d.name))) ∧
    ∀ v : List InputData,
      ((sortPins v).map (fun d => d.name)).Sorted (fun a b => lexLt b.data a.data = false) ∧
      (sortPins v).Perm v := by
  refine ⟨?_, fun v => ⟨sortPins_names_sorted v, sortPins_perm v⟩⟩
  simp only [buildBlackBox, List.map_map, List.map_append]
  have hcomp : ((fun h : LibraryGateHotspot => h.name) ∘ fun d : InputData =>
      ({ name := d.name, isInput := true, x := binary32.cast d.hotspot.1,
         y := binary32.cast d.hotspot.2, isInverted := false, logicEInput := "",
         busLines := 1 } : LibraryGateHotspot)) = fun d : InputData => d.name := rfl
  rw [hcomp, layout_names, layout_names, layout_names, layout_names]

theorem defineBlackBox_sorted_witness :
    (classify (scanCommands sampleTwoPins (.fin 0, .fin 0) "" []) ⟨[], [], [], []⟩).left.map
        (fun d => d.name) = ["B", "A"] ∧
    (buildBlackBox (sampleEnv sampleTwoPins) 0 "").hotspots.map (fun h => h.name) = ["A", "B"] ∧
    (buildBlackBox (sampleEnv sampleTwoPins) 0 "").hotspots.length = 2 ∧
    (buildBlackBox (sampleEnv sampleTwoPins) 0 "").shape.length = 4 + 2 ∧
    (buildBlackBox (sampleEnv sampleTwoPins) 0 "").labels.map (fun t => t.text) = ["A", "B"] :=
  ⟨by decide!, ((defineBlackBox_sorted (sampleEnv sampleTwoPins) 0 "").1).trans (by decide!),
    by decide!, by decide!, by decide!⟩

theorem generateShapePins_rotation (l : Layout) (side : Nat) (size : Point)
    (v : List InputData) :
    (l.generateShapePins side size v).map (fun d => d.rotation) = v.map (fun d => d.rotation) := by
  unfold Layout.generateShapePins
  rw [List.range_eq_range']
  refine zipWith_range_map _ (fun d : InputData => d.rotation) (fun d : InputData => d.rotation)
    ?_ v 0
  intro i a; rfl

theorem generateShapeTextPosition_rotation (l : Layout) (side : Nat) (v : List InputData) :
    (l.generateShapeTextPosition side v).map (fun d => d.rotation)
      = v.map (fun d => d.rotation) := by
  unfold Layout.generateShapeTextPosition
  rw [List.range_eq_range']
  refine zipWith_range_map _ (fun d : InputData => d.rotation) (fun d : InputData => d.rotation)
    ?_ v 0
  intro i a; rfl

theorem layout_rotations (l : Layout) (side : Nat) (size : Point) (v : List InputData) (c : Fp)
    (hv : ∀ d ∈ v, d.rotation = c) :
    (l.generateShapeTextPosition side (l.generateShapePins side size (sortPins v))).map
        (fun d => d.rotation) = List.replicate v.length c := by
  have h1 : (l.generateShapeTextPosition side (l.generateShapePins side size (sortPins v))).map
      (fun d => d.rotation) = (sortPins v).map (fun d => d.rotation) := by
    rw [generateShapeTextPosition_rotation, generateShapePins_rotation]
  rw [h1, List.eq_replicate_iff]
  refine ⟨by rw [List.length_map, (sortPins_perm v).length_eq], ?_⟩
  intro b hb
  obtain ⟨d, hd, rfl⟩ := List.mem_map.mp hb
  exact hv d ((sortPins_perm v).mem_iff.mp hd)

/-- Claim C8. Every pin descriptor goes to exactly one side group, by its rotation alone: left
for rotation 0, top for 90, right for 180 and bottom for every other rotation; the labels of the
bottom and top pins have rotation 90 (those of the right and left pins the rotation 0 of a fresh
`InputData`). -/
theorem defineBlackBox_sides (env : BlackBoxEnv) (num : Int) (copyText : String)
    (jd : List JunctionData) :
    classify jd ⟨[], [], [], []⟩ =
      { left := (jd.filter (fun p => p.rotation = .fin 0)).map (pinOf (.fin 0))
        top := (jd.filter (fun p => p.rotation = .fin 90)).map (pinOf (.fin 90))
        bottom := (jd.filter (fun p => p.rotation ≠ .fin 0 ∧ p.rotation ≠ .fin 90 ∧
            p.rotation ≠ .fin 180)).map (pinOf (.fin 90))
        right := (jd.filter (fun p => p.rotation = .fin 180)).map (pinOf (.fin 0)) } ∧
    (buildBlackBox env num copyText).labels.map (fun t => t.rotation)
      = List.replicate (classify (scanCommands (env.getCommands copyText) (.fin 0, .fin 0) "" [])
            ⟨[], [], [], []⟩).right.length (.fin 0) ++
        (List.replicate (classify (scanCommands (env.getCommands copyText) (.fin 0, .fin 0) "" [])
            ⟨[], [], [], []⟩).bottom.length (.fin 90) ++
        (List.replicate (classify (scanCommands (env.getCommands copyText) (.fin 0, .fin 0) "" [])
            ⟨[], [], [], []⟩).top.length (.fin 90) ++
         List.replicate (classify (scanCommands (env.getCommands copyText) (.fin 0, .fin 0) "" [])
            ⟨[], [], [], []⟩).left.length (.fin 0))) := by
  have hc := classify_eq jd ⟨[], [], [], []⟩
  simp only [List.nil_append] at hc
  refine ⟨hc, ?_⟩
  have hs := classify_eq (scanCommands (env.getCommands copyText) (.fin 0, .fin 0) "" [])
    ⟨[], [], [], []⟩
  simp only [List.nil_append] at hs
  simp only [buildBlackBox, List.map_map, List.map_append]
  have hcomp : ((fun t : gl_text => t.rotation) ∘ fun d : InputData =>
      ({ text := d.name, rotation := d.rotation,
         color := (toFloat 0, toFloat 0, toFloat 0, toFloat 1), size := toFloat (85 / 100),
         position := (binary32.cast d.textPosition.1, binary32.cast d.textPosition.2) } : gl_text))
      = fun d : InputData => d.rotation := rfl
  rw [hcomp]
  rw [layout_rotations _ 3 _ _ (.fin 0), layout_rotations _ 2 _ _ (.fin 90),
    layout_rotations _ 1 _ _ (.fin 90), layout_rotations _ 0 _ _ (.fin 0)]
  · intro d hd; rw [hs] at hd; obtain ⟨p, _, rfl⟩ := List.mem_map.mp hd; rfl
  · intro d hd; rw [hs] at hd; obtain ⟨p, _, rfl⟩ := List.mem_map.mp hd; rfl
  · intro d hd; rw [hs] at hd; obtain ⟨p, _, rfl⟩ := List.mem_map.mp hd; rfl
  · intro d hd; rw [hs] at hd; obtain ⟨p, _, rfl⟩ := List.mem_map.mp hd; rfl

theorem digitVal_ofNat (d : Nat) (h : d < 10) : digitVal (Char.ofNat (48 + d)) = d := by
  interval_cases d <;> rfl

theorem isDigit_ofNat (d : Nat) (h : d < 10) : (Char.ofNat (48 + d)).isDigit = true := by
  interval_cases d <;> rfl

theorem digitsVal_append (xs : List Char) (c : Char) :
    digitsVal (xs ++ [c]) = 10 * digitsVal xs + digitVal c := by
  simp [digitsVal, List.foldl_append]

theorem natDigits_spec : ∀ (fuel n : Nat), n < fuel →
    digitsVal (natDigits fuel n) = n ∧ (∀ c ∈ natDigits fuel n, c.isDigit = true) ∧
      natDigits fuel n ≠ [] := by
  intro fuel
  induction fuel with
  | zero => intro n h; omega
  | succ k ih =>
    intro n h
    by_cases h10 : n < 10
    · simp only [natDigits, h10, if_true]
      refine ⟨?_, ?_, by simp⟩
      · simp [digitsVal, digitVal_ofNat n h10]
      · intro c hc
        simp only [List.mem_singleton] at hc
        subst hc
        exact isDigit_ofNat n h10
    · simp only [natDigits, h10, if_false]
      have hk : n / 10 < k := by omega
      obtain ⟨h1, h2, _⟩ := ih (n / 10) hk
      refine ⟨?_, ?_, by simp⟩
      · rw [digitsVal_append, h1, digitVal_ofNat _ (Nat.mod_lt _ (by decide))]
        omega
      · intro c hc
        simp only [List.mem_append, List.mem_singleton] at hc
        rcases hc with hc | hc
        · exact h2 c hc
        · subst hc
          exact isDigit_ofNat _ (Nat.mod_lt _ (by decide))

theorem natDigits_inj (a b : Nat) (h : natDigits (a + 1) a = natDigits (b + 1) b) : a = b := by
  have ha := (natDigits_spec (a + 1) a (by omega)).1
  have hb := (natDigits_spec (b + 1) b (by omega)).1
  rw [h] at ha
  omega

theorem natDigits_ne_minus (a : Nat) (t : List Char) : natDigits (a + 1) a ≠ '-' :: t := by
  intro h
  have := (natDigits_spec (a + 1) a (by omega)).2.1 '-' (by rw [h]; simp)
  revert this
  decide

/-- `std::to_string` gives different texts for different integers. -/
theorem to_string_injective (i j : Int) (h : to_string i = to_string j) : i = j := by
  unfold to_string at h
  by_cases hi : i < 0 <;> by_cases hj : j < 0
  · simp only [hi, hj, if_true] at h
    have h2 := congrArg String.data h
    simp only [List.cons.injEq, true_and] at h2
    have := natDigits_inj _ _ h2
    omega
  · simp only [hi, hj, if_true, if_false] at h
    exact absurd (congrArg String.data h).symm (natDigits_ne_minus _ _)
  · simp only [hi, hj, if_true, if_false] at h
    exact absurd (congrArg String.data h) (natDigits_ne_minus _ _)
  · simp only [hi, hj, if_false] at h
    have := natDigits_inj _ _ (congrArg String.data h)
    omega

theorem blackBoxName_injective (i j : Int)
    (h : "BlackBox#" ++ to_string i = "BlackBox#" ++ to_string j) : i = j := by
  apply to_string_injective
  have h2 := congrArg String.data h
  simp only [String.data_append] at h2
  have h3 := List.append_cancel_left h2
  exact String.ext h3

theorem buildBlackBox_name (env : BlackBoxEnv) (num : Int) (copyText : String) :
    (buildBlackBox env num copyText).gateName = "BlackBox#" ++ to_string num := rfl

theorem defineBlackBox_counter (env : BlackBoxEnv) (t : String) (st : GateLibrary × MainApp) :
    (defineBlackBox env t st).1.numDefinedBlackBoxes = st.1.numDefinedBlackBoxes + 1 := rfl

theorem defineAll_counter (env : BlackBoxEnv) : ∀ (ts : List String) (st : GateLibrary × MainApp),
    (defineAll env ts st).1.numDefinedBlackBoxes = st.1.numDefinedBlackBoxes + ts.length := by
  intro ts
  induction ts with
  | nil => intro st; simp [defineAll]
  | cons t ts ih =>
    intro st
    simp only [defineAll, ih, defineBlackBox_counter, List.length_cons]
    push_cast
    omega

/-- Later calls of `defineBlackBox` keep a record stored under a name with a smaller number. -/
theorem defineAll_keeps (env : BlackBoxEnv) (bb : LibraryGate) (k : Int) :
    ∀ (ts : List String) (st : GateLibrary × MainApp),
      k < st.1.numDefinedBlackBoxes →
      lookup st.1.gates "11 - Black Boxes" ("BlackBox#" ++ to_string k) = some bb →
      lookup st.2.libraries "11 - Black Boxes" ("BlackBox#" ++ to_string k) = some bb →
      st.2.gateNameToLibrary.find ("BlackBox#" ++ to_string k) = some "11 - Black Boxes" →
      lookup (defineAll env ts st).1.gates "11 - Black Boxes" ("BlackBox#" ++ to_string k)
          = some bb ∧
      lookup (defineAll env ts st).2.libraries "11 - Black Boxes" ("BlackBox#" ++ to_string k)
          = some bb ∧
      (defineAll env ts st).2.gateNameToLibrary.find ("BlackBox#" ++ to_string k)
          = some "11 - Black Boxes" := by
  intro ts
  induction ts with
  | nil => intro st _ h1 h2 h3; exact ⟨h1, h2, h3⟩
  | cons t ts ih =>
    intro st hk h1 h2 h3
    simp only [defineAll]
    have hne : "BlackBox#" ++ to_string st.1.numDefinedBlackBoxes ≠ "BlackBox#" ++ to_string k := by
      intro h
      have := blackBoxName_injective _ _ h
      omega
    apply ih
    · rw [defineBlackBox_counter]; omega
    · simp only [defineBlackBox, insertGate, lookup_setGate, buildBlackBox_name, hne, and_false,
        if_false]
      exact h1
    · simp only [defineBlackBox, insertGate, lookup_setGate, buildBlackBox_name, hne, and_false,
        if_false]
      exact h2
    · simp only [defineBlackBox, insertGate, StrMap.find_set, buildBlackBox_name, hne, if_false]
      exact h3

/-- A library object constructed from a file that parses starts its counter at 0. -/
theorem construct_counter (m : Libm) (fuel : Nat) (tokens : XMLParser) (self lib : GateLibrary)
    (app app2 : MainApp)
    (h : GateLibrary.construct m fuel (some tokens) self app = some (lib, app2)) :
    lib.numDefinedBlackBoxes = 0 := by
  simp only [GateLibrary.construct] at h
  split at h
  · cases h
  · simp only [Option.some.injEq, Prod.mk.injEq] at h
    obtain ⟨rfl, _⟩ := h
    rfl

/-- Claim C7. In a sequence of calls of `defineBlackBox` on a library whose counter holds `c`, the
counter goes up by one with each call, the call that follows `k` earlier calls names its record
`BlackBox#` followed by the decimal form of `c + k`, different numbers give different names, and
the record of every call is still stored under its name after all later calls. -/
theorem defineBlackBox_unique_names (env : BlackBoxEnv) (st : GateLibrary × MainApp)
    (pre post : List String) (t : String) :
    (defineAll env (pre ++ t :: post) st).1.numDefinedBlackBoxes
        = st.1.numDefinedBlackBoxes + (pre.length + 1 + post.length : Nat) ∧
    (buildBlackBox env (defineAll env pre st).1.numDefinedBlackBoxes t).gateName
        = "BlackBox#" ++ to_string (st.1.numDefinedBlackBoxes + pre.length) ∧
    (∀ i j : Int, i ≠ j → "BlackBox#" ++ to_string i ≠ "BlackBox#" ++ to_string j) ∧
    lookup (defineAll env (pre ++ t :: post) st).1.gates "11 - Black Boxes"
        ("BlackBox#" ++ to_string (st.1.numDefinedBlackBoxes + pre.length))
      = some (buildBlackBox env (st.1.numDefinedBlackBoxes + pre.length) t) ∧
    lookup (defineAll env (pre ++ t :: post) st).2.libraries "11 - Black Boxes"
        ("BlackBox#" ++ to_string (st.1.numDefinedBlackBoxes + pre.length))
      = some (buildBlackBox env (st.1.numDefinedBlackBoxes + pre.length) t) := by
  have happ : ∀ (a b : List String) (s : GateLibrary × MainApp),
      defineAll env (a ++ b) s = defineAll env b (defineAll env a s) := by
    intro a
    induction a with
    | nil => intro b s; rfl
    | cons x a ih => intro b s; exact ih b _
  have hpre := defineAll_counter env pre st
  refine ⟨?_, ?_, ?_, ?_⟩
  · rw [defineAll_counter]; simp only [List.length_append, List.length_cons]; push_cast; omega
  · rw [buildBlackBox_name, hpre]
  · intro i j hij h; exact hij (blackBoxName_injective i j h)
  · rw [happ]
    simp only [defineAll]
    have hk := defineAll_keeps env (buildBlackBox env (st.1.numDefinedBlackBoxes + pre.length) t)
      (st.1.numDefinedBlackBoxes + pre.length) post
      (defineBlackBox env t (defineAll env pre st))
      (by rw [defineBlackBox_counter, hpre]; omega)
      (by simp only [defineBlackBox, insertGate, lookup_setGate, buildBlackBox_name, hpre,
            and_self, if_true])
      (by simp only [defineBlackBox, insertGate, lookup_setGate, buildBlackBox_name, hpre,
            and_self, if_true])
      (by simp only [defineBlackBox, insertGate, StrMap.find_set, buildBlackBox_name, hpre,
            if_true])
    exact ⟨hk.1, hk.2.1⟩

theorem defineBlackBox_unique_names_witness :
    (buildBlackBox (sampleEnv []) 0 "a").gateName = "BlackBox#0" ∧
    (buildBlackBox (sampleEnv []) (defineAll (sampleEnv []) ["a"] (⟨[], "", [], 0⟩, MainApp.empty)).1.numDefinedBlackBoxes
        "b").gateName = "BlackBox#1" ∧
    lookup (defineAll (sampleEnv []) ["a", "b"] (⟨[], "", [], 0⟩, MainApp.empty)).1.gates
        "11 - Black Boxes" "BlackBox#0" = some (buildBlackBox (sampleEnv []) 0 "a") :=
  ⟨by decide,
   ((defineBlackBox_unique_names (sampleEnv []) (⟨[], "", [], 0⟩, MainApp.empty)
      ["a"] [] "b").2.1).trans (by decide),
   ((defineBlackBox_unique_names (sampleEnv []) (⟨[], "", [], 0⟩, MainApp.empty)
      [] ["b"] "a").2.2.2.1)⟩

theorem touchLibrary_find (gates : StrMap (StrMap LibraryGate)) (libName gateName : String) :
    (((touchLibrary gates libName).find libName).getD []).find gateName
      = lookup gates libName gateName := by
  unfold touchLibrary lookup
  cases h : gates.find libName with
  | some l => simp [h]
  | none => simp [h, StrMap.find_set_self, StrMap.find]

theorem getGate_eq (gateName : String) (lgGate : LibraryGate) (st : GateLibrary × MainApp) :
    (getGate gateName lgGate st).1 = (indexed st gateName).isSome ∧
    (getGate gateName lgGate st).2.1 = (indexed st gateName).getD lgGate ∧
    (getGateLogicType gateName st).1 = ((indexed st gateName).map (fun r => r.logicType)).getD "" ∧
    (getGateGUIType gateName st).1 = ((indexed st gateName).map (fun r => r.guiType)).getD "" := by
  unfold getGate getGateLogicType getGateGUIType indexed
  cases h : st.2.gateNameToLibrary.find gateName with
  | none => simp
  | some libName =>
    simp only [Option.bind_some]
    rw [touchLibrary_find]
    cases h2 : lookup st.1.gates libName gateName <;> simp [h2]

theorem indexed_insertGate (libName : String) (g : LibraryGate) (st : GateLibrary × MainApp) :
    indexed (insertGate libName g st) g.gateName = some g := by
  simp [indexed, insertGate, StrMap.find_set_self, lookup_setGate]

theorem lastValue_eq_none (name : String) (log : List (String × String))
    (h : name ∉ log.map (fun c => c.1)) : lastValue name log = none := by
  unfold lastValue
  simp only [Option.map_eq_none', List.getLast?_eq_none_iff, List.filter_eq_nil_iff,
    decide_eq_true_eq]
  intro c hc hn
  exact h (List.mem_map.mpr ⟨c, hc, hn⟩)

/-- Claim C11. `getGate(g)` reports found and gives the record `r` exactly when the index maps
`g` to a library `L` and `gates[L]` of this object holds `r` under `g`; otherwise it reports not
found and leaves the output argument as it was.  `getGateLogicType` and `getGateGUIType` give
`r.logicType` and `r.guiType` in the first case and the empty string in the second.  Right after
the insertion of a gate by `parseFile` (lines 245-247) or by `defineBlackBox` the lookup of its
name gives the inserted record, and a name that no call has inserted is not found. -/
theorem getGate_contract (gateName : String) (lgGate : LibraryGate)
    (st : GateLibrary × MainApp) :
    ((getGate gateName lgGate st).1 = true ↔
      ∃ L r, st.2.gateNameToLibrary.find gateName = some L ∧
        lookup st.1.gates L gateName = some r) ∧
    (∀ L r, st.2.gateNameToLibrary.find gateName = some L →
      lookup st.1.gates L gateName = some r →
      (getGate gateName lgGate st).1 = true ∧ (getGate gateName lgGate st).2.1 = r ∧
      (getGateLogicType gateName st).1 = r.logicType ∧
      (getGateGUIType gateName st).1 = r.guiType) ∧
    ((getGate gateName lgGate st).1 = false →
      (getGate gateName lgGate st).2.1 = lgGate ∧ (getGateLogicType gateName st).1 = "" ∧
      (getGateGUIType gateName st).1 = "") ∧
    (∀ (libName : String) (g : LibraryGate),
      (getGate g.gateName lgGate (insertGate libName g st)).1 = true ∧
      (getGate g.gateName lgGate (insertGate libName g st)).2.1 = g) ∧
    (∀ (env : BlackBoxEnv) (copyText : String),
      (getGate (buildBlackBox env st.1.numDefinedBlackBoxes copyText).gateName lgGate
        (defineBlackBox env copyText st)).1 = true ∧
      (getGate (buildBlackBox env st.1.numDefinedBlackBoxes copyText).gateName lgGate
        (defineBlackBox env copyText st)).2.1
        = buildBlackBox env st.1.numDefinedBlackBoxes copyText) ∧
    (∀ (ops : List Op) (app : MainApp) (self : GateLibrary),
      runOps ops MainApp.empty = some app →
      gateName ∉ (opsLog ops MainApp.empty).map (fun c => c.1) →
      (getGate gateName lgGate (self, app)).1 = false) := by
  obtain ⟨h1, h2, h3, h4⟩ := getGate_eq gateName lgGate st
  refine ⟨?_, ?_, ?_, ?_, ?_, ?_⟩
  · rw [h1, Option.isSome_iff_exists]
    unfold indexed
    constructor
    · rintro ⟨r, hr⟩
      cases hL : st.2.gateNameToLibrary.find gateName with
      | none => rw [hL] at hr; cases hr
      | some L => rw [hL] at hr; exact ⟨L, r, rfl, hr⟩
    · rintro ⟨L, r, hL, hr⟩
      exact ⟨r, by rw [hL]; exact hr⟩
  · intro L r hL hr
    have hi : indexed st gateName = some r := by unfold indexed; rw [hL]; exact hr
    rw [h1, h2, h3, h4, hi]
    exact ⟨rfl, rfl, rfl, rfl⟩
  · intro hf
    rw [h1] at hf
    have hi : indexed st gateName = none := by
      cases h : indexed st gateName with
      | none => rfl
      | some r => rw [h] at hf; cases hf
    rw [h2, h3, h4, hi]
    exact ⟨rfl, rfl, rfl⟩
  · intro libName g
    obtain ⟨k1, k2, _, _⟩ := getGate_eq g.gateName lgGate (insertGate libName g st)
    rw [k1, k2, indexed_insertGate]
    exact ⟨rfl, rfl⟩
  · intro env copyText
    have hi := indexed_insertGate "11 - Black Boxes"
      (buildBlackBox env st.1.numDefinedBlackBoxes copyText)
      ({ st.1 with numDefinedBlackBoxes := st.1.numDefinedBlackBoxes + 1 }, st.2)
    obtain ⟨k1, k2, _, _⟩ := getGate_eq
      (buildBlackBox env st.1.numDefinedBlackBoxes copyText).gateName lgGate
      (defineBlackBox env copyText st)
    rw [k1, k2]
    unfold defineBlackBox
    rw [hi]
    exact ⟨rfl, rfl⟩
  · intro ops app self hrun hnot
    have ht := runOps_tied ops MainApp.empty app [] Tied.empty hrun
    simp only [List.nil_append] at ht
    have hidx := ht.1 gateName
    rw [lastValue_eq_none gateName _ hnot] at hidx
    obtain ⟨k1, _⟩ := getGate_eq gateName lgGate (self, app)
    rw [k1]
    unfold indexed
    rw [hidx]
    rfl

theorem getGate_contract_witness :
    (getGate "AND" LibraryGate.empty
      (insertGate "L1" { LibraryGate.empty with gateName := "AND", logicType := "AND" }
        (⟨[], "", [], 0⟩, MainApp.empty))).1 = true ∧
    (getGateLogicType "AND"
      (insertGate "L1" { LibraryGate.empty with gateName := "AND", logicType := "AND" }
        (⟨[], "", [], 0⟩, MainApp.empty))).1 = "AND" ∧
    (getGate "OR" LibraryGate.empty
      (insertGate "L1" { LibraryGate.empty with gateName := "AND", logicType := "AND" }
        (⟨[], "", [], 0⟩, MainApp.empty))).1 = false :=
  ⟨((getGate_contract "AND" LibraryGate.empty (⟨[], "", [], 0⟩, MainApp.empty)).2.2.2.1 "L1"
      { LibraryGate.empty with gateName := "AND", logicType := "AND" }).1,
   by decide, by decide⟩

theorem buildBlackBox_hotspots (env : BlackBoxEnv) (num : Int) (copyText : String) :
    (buildBlackBox env num copyText).hotspots = (blackBoxPins env copyText).map pinHotspot :=
  rfl

theorem buildBlackBox_labels (env : BlackBoxEnv) (num : Int) (copyText : String) :
    (buildBlackBox env num copyText).labels = (blackBoxPins env copyText).map pinLabel :=
  rfl

theorem buildBlackBox_shape (env : BlackBoxEnv) (num : Int) (copyText : String) :
    (buildBlackBox env num copyText).shape =
      [⟨half (Fp.neg (blackBoxSize env copyText).1), half (Fp.neg (blackBoxSize env copyText).2),
        half (blackBoxSize env copyText).1, half (Fp.neg (blackBoxSize env copyText).2)⟩,
       ⟨half (Fp.neg (blackBoxSize env copyText).1), half (Fp.neg (blackBoxSize env copyText).2),
        half (Fp.neg (blackBoxSize env copyText).1), half (blackBoxSize env copyText).2⟩,
       ⟨half (blackBoxSize env copyText).1, half (blackBoxSize env copyText).2,
        half (blackBoxSize env copyText).1, half (Fp.neg (blackBoxSize env copyText).2)⟩,
       ⟨half (blackBoxSize env copyText).1, half (blackBoxSize env copyText).2,
        half (Fp.neg (blackBoxSize env copyText).1), half (blackBoxSize env copyText).2⟩] ++
      (blackBoxPins env copyText).map pinStub :=
  rfl

theorem blackBoxPins_length (env : BlackBoxEnv) (copyText : String) :
    (blackBoxPins env copyText).length = pinCount (env.getCommands copyText) := by
  have h2 := scanCommands_length (env.getCommands copyText) (.fin 0, .fin 0) "" []
  have h3 := classify_length (scanCommands (env.getCommands copyText) (.fin 0, .fin 0) "" [])
  simp only [blackBoxPins, List.length_append, layout_length]
  simp only [List.length_nil, Nat.zero_add] at h2
  omega

theorem buildBlackBox_stub (env : BlackBoxEnv) (num : Int) (copyText : String) (i : Nat)
    (d : InputData) (hd : (blackBoxPins env copyText)[i]? = some d) :
    (buildBlackBox env num copyText).shape[4 + i]? = some (pinStub d) := by
  rw [buildBlackBox_shape, List.getElem?_append_right (by simp)]
  simp only [List.length_cons, List.length_nil, Nat.add_sub_cancel_left,
    List.getElem?_map, hd]
  rfl

/-- Claim C13. Every hotspot of the record built by `defineBlackBox` is an input of bus width 1,
not inverted, with an empty `logicEInput`; the hotspots are those of the pins in order, the
`i`-th having the name of the `i`-th pin and, as position, that pin's hotspot point, which is the
start point of the pin's stub segment (segment `4 + i` of the shape); the tail point is the end
point of that segment. -/
theorem defineBlackBox_hotspots (env : BlackBoxEnv) (num : Int) (copyText : String) :
    (∀ h ∈ (buildBlackBox env num copyText).hotspots,
      h.isInput = true ∧ h.busLines = 1 ∧ h.isInverted = false ∧ h.logicEInput = "") ∧
    (buildBlackBox env num copyText).hotspots.length = pinCount (env.getCommands copyText) ∧
    (∀ (i : Nat) (d : InputData), (blackBoxPins env copyText)[i]? = some d →
      ∃ h s, (buildBlackBox env num copyText).hotspots[i]? = some h ∧
        (buildBlackBox env num copyText).shape[4 + i]? = some s ∧
        h.name = d.name ∧
        (h.x, h.y) = (binary32.cast d.hotspot.1, binary32.cast d.hotspot.2) ∧
        (h.x, h.y) = (s.x1, s.y1) ∧
        (s.x2, s.y2) = (binary32.cast d.hotspotTail.1, binary32.cast d.hotspotTail.2)) := by
  refine ⟨?_, ?_, ?_⟩
  · intro h hh
    rw [buildBlackBox_hotspots] at hh
    obtain ⟨d, _, rfl⟩ := List.mem_map.mp hh
    exact ⟨rfl, rfl, rfl, rfl⟩
  · rw [buildBlackBox_hotspots, List.length_map, blackBoxPins_length]
  · intro i d hd
    refine ⟨pinHotspot d, pinStub d, ?_, buildBlackBox_stub env num copyText i d hd,
      rfl, rfl, rfl, rfl⟩
    rw [buildBlackBox_hotspots, List.getElem?_map, hd]; rfl

/-- Claim C19. For every `i` below the number of pins, the `i`-th hotspot, the `i`-th label and
segment `4 + i` of the shape of the record built by `defineBlackBox` belong to the `i`-th pin:
the text of the label is the name of the hotspot, and the segment runs from the position of the
hotspot to the tail point of that pin. -/
theorem defineBlackBox_alignment (env : BlackBoxEnv) (num : Int) (copyText : String) (i : Nat)
    (hi : i < pinCount (env.getCommands copyText)) :
    ∃ d h t s, (blackBoxPins env copyText)[i]? = some d ∧
      (buildBlackBox env num copyText).hotspots[i]? = some h ∧
      (buildBlackBox env num copyText).labels[i]? = some t ∧
      (buildBlackBox env num copyText).shape[4 + i]? = some s ∧
      t.text = h.name ∧ h.name = d.name ∧
      (s.x1, s.y1) = (h.x, h.y) ∧
      (s.x2, s.y2) = (binary32.cast d.hotspotTail.1, binary32.cast d.hotspotTail.2) := by
  have hlen := blackBoxPins_length env copyText
  have hd : (blackBoxPins env copyText)[i]? = some ((blackBoxPins env copyText)[i]) :=
    List.getElem?_eq_getElem (by omega)
  refine ⟨(blackBoxPins env copyText)[i], pinHotspot _, pinLabel _, pinStub _, hd, ?_, ?_,
    buildBlackBox_stub env num copyText i _ hd, rfl, rfl, rfl, rfl⟩
  · rw [buildBlackBox_hotspots, List.getElem?_map, hd]; rfl
  · rw [buildBlackBox_labels, List.getElem?_map, hd]; rfl

theorem defineBlackBox_hotspots_witness :
    (∀ h ∈ (buildBlackBox (sampleEnv sampleTwoPins) 0 "").hotspots,
      h.isInput = true ∧ h.busLines = 1 ∧ h.isInverted = false ∧ h.logicEInput = "") ∧
    (buildBlackBox (sampleEnv sampleTwoPins) 0 "").hotspots.length = 2 :=
  ⟨(defineBlackBox_hotspots (sampleEnv sampleTwoPins) 0 "").1,
   ((defineBlackBox_hotspots (sampleEnv sampleTwoPins) 0 "").2.1).trans (by decide)⟩

theorem defineBlackBox_alignment_witness :
    ∃ d h t s, (blackBoxPins (sampleEnv sampleTwoPins) "")[1]? = some d ∧
      (buildBlackBox (sampleEnv sampleTwoPins) 0 "").hotspots[1]? = some h ∧
      (buildBlackBox (sampleEnv sampleTwoPins) 0 "").labels[1]? = some t ∧
      (buildBlackBox (sampleEnv sampleTwoPins) 0 "").shape[4 + 1]? = some s ∧
      t.text = h.name ∧ h.name = d.name ∧
      (s.x1, s.y1) = (h.x, h.y) ∧
      (s.x2, s.y2) = (binary32.cast d.hotspotTail.1, binary32.cast d.hotspotTail.2) :=
  defineBlackBox_alignment (sampleEnv sampleTwoPins) 0 "" 1 (by decide)

theorem circleLoop_chain (m : Libm) (x1 y1 radius degStep : Fp) :
    ∀ (fuel : Nat) (i : Fp) (last : Fp × Fp) (shape s : List LibraryGateLine),
      circleLoop m x1 y1 radius degStep fuel i last shape = some s →
      ∃ segs, s = shape ++ segs ∧ connected last segs ∧
        circleCount degStep fuel i = some segs.length := by
  intro fuel
  induction fuel with
  | zero => intro i last shape s h; simp [circleLoop] at h
  | succ n ih =>
    intro i last shape s h
    by_cases hle : Fp.le i (toFloat 360) = true
    · simp only [circleLoop, hle, if_true] at h
      obtain ⟨segs, h1, h2, h3⟩ := ih _ _ _ _ h
      rw [List.append_assoc] at h1
      refine ⟨_, h1, ?_, ?_⟩
      · exact ⟨rfl, h2⟩
      · simp [circleCount, hle, h3]
    · simp only [circleLoop, hle] at h
      simp only [Bool.false_eq_true, if_false, Option.some.injEq] at h
      subst h
      exact ⟨[], by simp, trivial, by simp [circleCount, hle]⟩

theorem circleCount_mono (degStep : Fp) :
    ∀ (fuel k : Nat) (i : Fp) (n : Nat), circleCount degStep fuel i = some n →
      circleCount degStep (fuel + k) i = some n := by
  intro fuel
  induction fuel with
  | zero => intro k i n h; simp [circleCount] at h
  | succ f ih =>
    intro k i n h
    rw [Nat.add_right_comm]
    by_cases hle : Fp.le i (toFloat 360) = true
    · simp only [circleCount, hle, if_true, Option.map_eq_some'] at h ⊢
      obtain ⟨a, ha, rfl⟩ := h
      exact ⟨a, ih k _ _ ha, rfl⟩
    · simp only [circleCount, hle] at h ⊢
      exact h

/-- The chords of the first `k` iterations form a chain from the point the loop starts with. -/
theorem circleChords_connected (m : Libm) (x1 y1 radius degStep : Fp) :
    ∀ (k : Nat) (i : Fp) (last : Fp × Fp),
      connected last (circleChords m x1 y1 radius degStep k i last) := by
  intro k
  induction k with
  | zero => intro i last; exact trivial
  | succ n ih =>
    intro i last
    by_cases hle : Fp.le i (toFloat 360) = true
    · simp only [circleChords, hle, if_true]
      exact ⟨rfl, ih _ _⟩
    · simp only [circleChords, hle]
      exact trivial

/-- A chord loop that ends appends the chords of its iterations. -/
theorem circleLoop_chords (m : Libm) (x1 y1 radius degStep : Fp) :
    ∀ (fuel : Nat) (i : Fp) (last : Fp × Fp) (shape s : List LibraryGateLine),
      circleLoop m x1 y1 radius degStep fuel i last shape = some s →
      s = shape ++ circleChords m x1 y1 radius degStep fuel i last := by
  intro fuel
  induction fuel with
  | zero => intro i last shape s h; simp [circleLoop] at h
  | succ n ih =>
    intro i last shape s h
    by_cases hle : Fp.le i (toFloat 360) = true
    · simp only [circleLoop, hle, if_true] at h
      have h1 := ih _ _ _ _ h
      simp only [circleChords, hle, if_true]
      rw [h1, List.append_assoc]
      rfl
    · simp only [circleLoop, hle] at h
      simp only [Bool.false_eq_true, if_false, Option.some.injEq] at h
      subst h
      simp [circleChords, hle]

/-- Claim C20. For a `circle` value read as `x`, `y`, `radius` and `numSegs`, and every offset:
the chords that the loop has pushed after any number of iterations form a chain that starts at
`(x + offX, y + offY + radius)`, every later chord starting exactly at the end point of the one
before it; a call whose loop ends after `n` iterations returns, and the segments it has
appended are those `n` chords, a chain from that start point; a call whose loop does not end
within the fuel gives no result. -/
theorem parseShapeObject_circle_chain (m : Libm) (value : String) (rest : XMLParser)
    (newGate : LibraryGate) (offX offY x y radius : Fp) (numSegs : Int)
    (hv : readCircle value = (x, y, radius, numSegs)) :
    (∀ k : Nat, connected (circleStart x y radius offX offY)
      (circleChords m (addOffset x offX) (addOffset y offY) radius (circleStep numSegs) k
        (circleStep numSegs) (circleStart x y radius offX offY))) ∧
    (∀ fuel n : Nat, circleCount (circleStep numSegs) fuel (circleStep numSegs) = some n →
      ∃ segs : List LibraryGateLine,
        parseShapeObject m fuel "circle" (.text value :: .closeTag "circle" :: rest) newGate
          offX offY = some (true, rest, { newGate with shape := newGate.shape ++ segs }) ∧
        segs.length = n ∧ connected (circleStart x y radius offX offY) segs ∧
        segs = circleChords m (addOffset x offX) (addOffset y offY) radius (circleStep numSegs)
          fuel (circleStep numSegs) (circleStart x y radius offX offY)) ∧
    (∀ fuel : Nat, circleCount (circleStep numSegs) fuel (circleStep numSegs) = none →
      parseShapeObject m fuel "circle" (.text value :: .closeTag "circle" :: rest) newGate
        offX offY = none) := by
  refine ⟨fun k => circleChords_connected _ _ _ _ _ _ _ _, ?_, ?_⟩
  · intro fuel n hn
    rw [parseShapeObject_circle_eq, hv]
    rcases circleLoop_count m (addOffset x offX) (addOffset y offY) radius (circleStep numSegs)
      fuel (circleStep numSegs) (circleStart x y radius offX offY) newGate.shape with
      ⟨_, h2⟩ | ⟨segs, h1, h2⟩
    · rw [hn] at h2; cases h2
    · have h3 := circleLoop_chords _ _ _ _ _ _ _ _ _ _ h1
      have h4 : segs = circleChords m (addOffset x offX) (addOffset y offY) radius
          (circleStep numSegs) fuel (circleStep numSegs) (circleStart x y radius offX offY) :=
        List.append_cancel_left h3
      refine ⟨segs, ?_, ?_, ?_, h4⟩
      · exact congrArg (Option.map _) h1
      · rw [hn] at h2; exact (Option.some.inj h2).symm
      · rw [h4]; exact circleChords_connected _ _ _ _ _ _ _ _
  · intro fuel hn
    rw [parseShapeObject_circle_eq, hv]
    rcases circleLoop_count m (addOffset x offX) (addOffset y offY) radius (circleStep numSegs)
      fuel (circleStep numSegs) (circleStart x y radius offX offY) newGate.shape with
      ⟨h1, _⟩ | ⟨segs, _, h2⟩
    · exact congrArg (Option.map _) h1
    · rw [hn] at h2; cases h2

theorem parseShapeObject_circle_chain_witness :
    parseShapeObject ⟨fun _ => .fin 1, fun _ => .fin 0⟩ 5 "circle"
        [.text "1,2,3,4", .closeTag "circle"] LibraryGate.empty (.fin 10) (.fin 20)
      = some (true, [], { LibraryGate.empty with
          shape := [⟨.fin 11, .fin 25, .fin 14, .fin 22⟩, ⟨.fin 14, .fin 22, .fin 14, .fin 22⟩,
                    ⟨.fin 14, .fin 22, .fin 14, .fin 22⟩, ⟨.fin 14, .fin 22, .fin 14, .fin 22⟩] }) ∧
    circleStart (.fin 1) (.fin 2) (.fin 3) (.fin 10) (.fin 20) = (.fin 11, .fin 25) ∧
    connected (.fin 11, .fin 25)
      [⟨.fin 11, .fin 25, .fin 14, .fin 22⟩, ⟨.fin 14, .fin 22, .fin 14, .fin 22⟩,
       ⟨.fin 14, .fin 22, .fin 14, .fin 22⟩, ⟨.fin 14, .fin 22, .fin 14, .fin 22⟩] := by
  obtain ⟨segs, h1, _, h3, h4⟩ := (parseShapeObject_circle_chain
    ⟨fun _ => .fin 1, fun _ => .fin 0⟩ "1,2,3,4" [] LibraryGate.empty (.fin 10) (.fin 20)
    (.fin 1) (.fin 2) (.fin 3) 4 (by decide!)).2.1 5 4 (by decide!)
  have hs : circleStart (.fin 1) (.fin 2) (.fin 3) (.fin 10) (.fin 20)
      = ((.fin 11, .fin 25) : Fp × Fp) := by decide!
  have hcode : parseShapeObject ⟨fun _ => .fin 1, fun _ => .fin 0⟩ 5 "circle"
        [.text "1,2,3,4", .closeTag "circle"] LibraryGate.empty (.fin 10) (.fin 20)
      = some (true, [], { LibraryGate.empty with
          shape := [⟨.fin 11, .fin 25, .fin 14, .fin 22⟩, ⟨.fin 14, .fin 22, .fin 14, .fin 22⟩,
                    ⟨.fin 14, .fin 22, .fin 14, .fin 22⟩, ⟨.fin 14, .fin 22, .fin 14, .fin 22⟩] }) := by
    decide!
  have hsegs : segs = [⟨.fin 11, .fin 25, .fin 14, .fin 22⟩, ⟨.fin 14, .fin 22, .fin 14, .fin 22⟩,
      ⟨.fin 14, .fin 22, .fin 14, .fin 22⟩, ⟨.fin 14, .fin 22, .fin 14, .fin 22⟩] := by
    have h := congrArg (fun r => (r.map (fun p : Bool × XMLParser × LibraryGate => p.2.2.shape)))
      (h1.symm.trans hcode)
    simpa [LibraryGate.empty] using h
  rw [hs, hsegs] at h3
  exact ⟨hcode, hs, h3⟩

theorem getChar_nil : IStream.getChar ⟨[], false⟩ = ⟨[], true⟩ := by
  simp [IStream.getChar, skipWs]

theorem getFloat_failed (f : Fmt) (old : Fp) (buf : List Char) :
    IStream.getFloat f old ⟨buf, true⟩ = (old, ⟨buf, true⟩) := by
  simp [IStream.getFloat]

theorem getLong_failed (old : Int) (buf : List Char) :
    IStream.getLong old ⟨buf, true⟩ = (old, ⟨buf, true⟩) := by
  simp [IStream.getLong]

theorem getChar_failed (buf : List Char) : IStream.getChar ⟨buf, true⟩ = ⟨buf, true⟩ := by
  simp [IStream.getChar]

/-- A `circle` value that gives only the centre leaves `radius` at 1.0 and `numSegs` at 12. -/
theorem readCircle_centre (value : String) (qx qy : ℚ) (r : List Char)
    (h1 : scanDecimal value.data = some (qx, ',' :: r))
    (h2 : scanDecimal r = some (qy, []))
    (f1 : (toFloat qx).isFin = true) (f2 : (toFloat qy).isFin = true) :
    readCircle value = (toFloat qx, toFloat qy, .fin 1, 12) := by
  simp only [readCircle, IStream.ofString, toFloat] at *
  rw [getFloat_of_scan _ _ _ _ _ h1 f1]
  simp only [getChar_comma]
  rw [getFloat_of_scan _ _ _ _ _ h2 f2]
  simp only [getChar_nil, getFloat_failed, getChar_failed, getLong_failed]

/-- A `circle` value that gives the centre and the radius leaves `numSegs` at 12. -/
theorem readCircle_radius (value : String) (qx qy qr : ℚ) (r r2 : List Char)
    (h1 : scanDecimal value.data = some (qx, ',' :: r))
    (h2 : scanDecimal r = some (qy, ',' :: r2))
    (h3 : scanDecimal r2 = some (qr, []))
    (f1 : (toFloat qx).isFin = true) (f2 : (toFloat qy).isFin = true)
    (f3 : (toDouble qr).isFin = true) :
    readCircle value = (toFloat qx, toFloat qy, toDouble qr, 12) := by
  simp only [readCircle, IStream.ofString, toFloat, toDouble] at *
  rw [getFloat_of_scan _ _ _ _ _ h1 f1]
  simp only [getChar_comma]
  rw [getFloat_of_scan _ _ _ _ _ h2 f2]
  simp only [getChar_comma]
  rw [getFloat_of_scan _ _ _ _ _ h3 f3]
  simp only [getChar_nil, getLong_failed]

/-- With twelve segments the step is 30 degrees and the chord loop makes twelve chords. -/
theorem circle_twelve (m : Libm) (fuel : Nat) (hfuel : 13 ≤ fuel) (x y radius offX offY : Fp)
    (value : String) (rest : XMLParser) (newGate : LibraryGate)
    (hv : readCircle value = (x, y, radius, 12)) :
    ∃ s segs, parseShapeObject m fuel "circle" (.text value :: .closeTag "circle" :: rest)
        newGate offX offY
        = some (true, rest, { newGate with shape := newGate.shape ++ s :: segs }) ∧
      (s :: segs).length = 12 ∧
      (s.x1, s.y1) = (addOffset x offX,
        binary32.cast (Fp.add binary64 radius (addOffset y offY))) := by
  have hd : binary32.cast (Fp.div binary64 (toDouble 360) (toFloat ((12 : Int) : ℚ)))
      = .fin 30 := by decide!
  have hc : circleCount (.fin 30) 13 (.fin 30) = some 12 := by decide!
  obtain ⟨k, rfl⟩ : ∃ k, fuel = 13 + k := ⟨fuel - 13, by omega⟩
  have hc2 := circleCount_mono (.fin 30) 13 k (.fin 30) 12 hc
  rw [parseShapeObject_circle_eq, hv]
  dsimp only
  rw [hd]
  cases hl : circleLoop m (addOffset x offX) (addOffset y offY) radius (.fin 30) (13 + k)
      (.fin 30) (addOffset x offX, binary32.cast (Fp.add binary64 radius (addOffset y offY)))
      newGate.shape with
  | none =>
    rcases circleLoop_count m (addOffset x offX) (addOffset y offY) radius (.fin 30) (13 + k)
      (.fin 30) (addOffset x offX, binary32.cast (Fp.add binary64 radius (addOffset y offY)))
      newGate.shape with ⟨_, h2⟩ | ⟨segs, h1, _⟩
    · rw [hc2] at h2; cases h2
    · rw [hl] at h1; cases h1
  | some sh =>
    obtain ⟨segs, h1, h2, h3⟩ := circleLoop_chain _ _ _ _ _ _ _ _ _ _ hl
    rw [hc2] at h3
    have hlen : segs.length = 12 := (Option.some.inj h3).symm
    cases segs with
    | nil => simp at hlen
    | cons s segs =>
      refine ⟨s, segs, ?_, hlen, h2.1⟩
      rw [h1]; rfl

/-- Claim C14. A `circle` value that gives only the centre `x,y` is drawn with radius 1.0 and 12
segments: exactly 12 segments are appended, the first starting at `(x + offX, y + offY + 1)`;
a value `x,y,radius` is drawn with that radius and 12 segments. -/
theorem parseShapeObject_circle_defaults (m : Libm) (fuel : Nat) (hfuel : 13 ≤ fuel)
    (offX offY : Fp) (rest : XMLParser) (newGate : LibraryGate) (value : String)
    (qx qy : ℚ) (r : List Char)
    (h1 : scanDecimal value.data = some (qx, ',' :: r))
    (f1 : (toFloat qx).isFin = true) (f2 : (toFloat qy).isFin = true) :
    (scanDecimal r = some (qy, []) →
      ∃ s segs, parseShapeObject m fuel "circle" (.text value :: .closeTag "circle" :: rest)
          newGate offX offY
          = some (true, rest, { newGate with shape := newGate.shape ++ s :: segs }) ∧
        (s :: segs).length = 12 ∧
        (s.x1, s.y1) = (addOffset (toFloat qx) offX,
          binary32.cast (Fp.add binary64 (.fin 1) (addOffset (toFloat qy) offY)))) ∧
    (∀ (qr : ℚ) (r2 : List Char), scanDecimal r = some (qy, ',' :: r2) →
      scanDecimal r2 = some (qr, []) → (toDouble qr).isFin = true →
      ∃ s segs, parseShapeObject m fuel "circle" (.text value :: .closeTag "circle" :: rest)
          newGate offX offY
          = some (true, rest, { newGate with shape := newGate.shape ++ s :: segs }) ∧
        (s :: segs).length = 12 ∧
        (s.x1, s.y1) = (addOffset (toFloat qx) offX,
          binary32.cast (Fp.add binary64 (toDouble qr) (addOffset (toFloat qy) offY)))) := by
  constructor
  · intro h2
    exact circle_twelve m fuel hfuel _ _ _ offX offY value rest newGate
      (readCircle_centre value qx qy r h1 h2 f1 f2)
  · intro qr r2 h2 h3 f3
    exact circle_twelve m fuel hfuel _ _ _ offX offY value rest newGate
      (readCircle_radius value qx qy qr r r2 h1 h2 h3 f1 f2 f3)

theorem parseShapeObject_circle_defaults_witness :
    ∃ s segs, parseShapeObject ⟨fun _ => .fin 0, fun _ => .fin 0⟩ 13 "circle"
        [.text "3,4", .closeTag "circle"] LibraryGate.empty (.fin 10) (.fin 0)
        = some (true, [], { LibraryGate.empty with shape := LibraryGate.empty.shape ++ s :: segs }) ∧
      (s :: segs).length = 12 ∧ (s.x1, s.y1) = (.fin 13, .fin 5) := by
  obtain ⟨s, segs, h, hl, hs⟩ := (parseShapeObject_circle_defaults
    ⟨fun _ => .fin 0, fun _ => .fin 0⟩ 13 (by decide) (.fin 10) (.fin 0) []
    LibraryGate.empty "3,4" 3 4 "4".data (by decide!) (by decide!) (by decide!)).1 (by decide!)
  exact ⟨s, segs, h, hl, hs.trans (by decide!)⟩

theorem roundMag_nonneg (f : Fmt) (n d : Nat) : 0 ≤ f.roundMag n d := by
  unfold Fmt.roundMag
  dsimp only
  split
  · exact Nat.cast_nonneg _
  · rw [Rat.mkRat_eq_div]
    apply div_nonneg <;> positivity

theorem round_nonPos (f : Fmt) (q : ℚ) (hq : q < 0) : (f.round q).nonPos := by
  unfold Fmt.round
  have h0 : q ≠ 0 := ne_of_lt hq
  simp only [h0, if_false, hq, if_true, decide_True]
  split
  · rfl
  · show -(f.roundMag q.num.natAbs q.den) ≤ 0
    have := roundMag_nonneg f q.num.natAbs q.den
    linarith

theorem add_nonPos (i : Fp) (q : ℚ) (hq : q < 0) (hi : i.nonPos) :
    (Fp.add binary32 i (.fin q)).nonPos := by
  cases i with
  | fin a =>
    have ha : a ≤ 0 := hi
    exact round_nonPos _ _ (by linarith)
  | inf s => exact hi
  | nan => exact hi

theorem le_of_nonPos (i : Fp) (q : ℚ) (hq : 0 ≤ q) (hi : i.nonPos) : Fp.le i (.fin q) = true := by
  cases i with
  | fin a =>
    have ha : a ≤ 0 := hi
    simp only [Fp.le, decide_eq_true_eq]
    linarith
  | inf s => exact hi
  | nan => exact hi.elim

/-- With a negative step the chord loop never ends. -/
theorem circleLoop_diverges (m : Libm) (x1 y1 radius : Fp) (q : ℚ) (hq : q < 0) :
    ∀ (fuel : Nat) (i : Fp) (last : Fp × Fp) (shape : List LibraryGateLine), i.nonPos →
      circleLoop m x1 y1 radius (.fin q) fuel i last shape = none := by
  have h360 : toFloat 360 = .fin 360 := by decide!
  intro fuel
  induction fuel with
  | zero => intro i last shape _; rfl
  | succ n ih =>
    intro i last shape hi
    have hle : Fp.le i (toFloat 360) = true := by
      rw [h360]; exact le_of_nonPos i 360 (by norm_num) hi
    simp only [circleLoop, hle, if_true]
    exact ih _ _ _ (add_nonPos i q hq hi)

/-- Claim C18, evaluated at a failing input. For the `circle` value `0,0,1,-1` (a segment count
of -1) the step is -360 degrees, the loop variable stays at or below 360 for ever, and the chord
loop of `parseShapeObject` does not stop, whatever number of iterations it is given. -/
theorem parseShapeObject_circle_diverges (m : Libm) (fuel : Nat) (newGate : LibraryGate)
    (offX offY : Fp) (rest : XMLParser) :
    parseShapeObject m fuel "circle" (.text "0,0,1,-1" :: .closeTag "circle" :: rest)
      newGate offX offY = none := by
  have hr : readCircle "0,0,1,-1" = (.fin 0, .fin 0, .fin 1, -1) := by decide!
  have hd : binary32.cast (Fp.div binary64 (toDouble 360) (toFloat ((-1 : Int) : ℚ)))
      = .fin (-360) := by decide!
  rw [parseShapeObject_circle_eq, hr]
  dsimp only
  rw [hd, circleLoop_diverges m _ _ _ (-360) (by norm_num) fuel (.fin (-360)) _ _
    (show (-360 : ℚ) ≤ 0 by norm_num)]
  rfl

/-- Claim C15, evaluated at a failing input. A pin whose `angle` is `-270` gets the rotation
-270, which is not in the range from 0 to 360, and goes to the bottom group, while a pin whose
`angle` is `90`, a full turn away, gets the rotation 90 and goes to the top group; likewise
`-180` gives -180 and the bottom group, `180` gives 180 and the right group.  The operator `%`
of C++ keeps the sign of a negative left operand. -/
theorem pin_rotation_negative :
    scanCommands (samplePin "-270") (.fin 0, .fin 0) "" []
      = [{ rotation := .fin (-270), name := "P", position := (.fin 0, .fin 0) }] ∧
    scanCommands (samplePin "90") (.fin 0, .fin 0) "" []
      = [{ rotation := .fin 90, name := "P", position := (.fin 0, .fin 0) }] ∧
    ((classify (scanCommands (samplePin "-270") (.fin 0, .fin 0) "" []) ⟨[], [], [], []⟩).bottom.length
      = 1 ∧
     (classify (scanCommands (samplePin "90") (.fin 0, .fin 0) "" []) ⟨[], [], [], []⟩).top.length
      = 1) ∧
    scanCommands (samplePin "-180") (.fin 0, .fin 0) "" []
      = [{ rotation := .fin (-180), name := "P", position := (.fin 0, .fin 0) }] ∧
    ((classify (scanCommands (samplePin "-180") (.fin 0, .fin 0) "" []) ⟨[], [], [], []⟩).bottom.length
      = 1 ∧
     (classify (scanCommands (samplePin "180") (.fin 0, .fin 0) "" []) ⟨[], [], [], []⟩).right.length
      = 1) :=
  ⟨by decide!, by decide!, ⟨by decide!, by decide!⟩, by decide!, ⟨by decide!, by decide!⟩⟩

theorem paramChild_render (c : String × String) (v : ParamVars) (rest : XMLParser)
    (hc : c.1 ∈ paramTags) :
    paramChild c.1 v (.text c.2 :: .closeTag c.1 :: rest) = (stepParam v c, rest) := by
  obtain ⟨t, s⟩ := c
  simp only [paramTags, List.mem_cons, List.mem_singleton, List.not_mem_nil, or_false] at hc
  rcases hc with h | h | h | h <;> subst h <;>
    simp [paramChild, stepParam, XMLParser.readTagValue, XMLParser.readCloseTag]

theorem paramLoop_render (n : String) (rest : XMLParser) :
    ∀ (cs : List (String × String)) (v : ParamVars) (fuel : Nat),
      (∀ c ∈ cs, c.1 ∈ paramTags) → cs.length < fuel →
      paramLoop fuel v (renderChildren cs ++ .closeTag n :: rest)
        = some (cs.foldl stepParam v, .closeTag n :: rest) := by
  intro cs
  induction cs with
  | nil =>
    intro v fuel _ hf
    obtain ⟨k, rfl⟩ : ∃ k, fuel = k + 1 := ⟨fuel - 1, by simp at hf; omega⟩
    simp [paramLoop, renderChildren, XMLParser.readTag]
  | cons c cs ih =>
    intro v fuel hc hf
    obtain ⟨k, rfl⟩ : ∃ k, fuel = k + 1 := ⟨fuel - 1, by simp at hf; omega⟩
    have hc1 : c.1 ∈ paramTags := hc c (List.mem_cons_self _ _)
    have hne : c.1 ≠ "" := by
      intro h; rw [h] at hc1; revert hc1; decide
    have hk : cs.length < k := by simp at hf; omega
    have ih' := ih (stepParam v c) k (fun x hx => hc x (List.mem_cons_of_mem _ hx)) hk
    simp only [paramLoop, renderChildren, List.cons_append, XMLParser.readTag, hne, if_false,
      paramChild_render c v _ hc1, List.foldl_cons]
    cases cs with
    | nil => simp [renderChildren, XMLParser.isCloseTag]
    | cons d ds =>
      simp only [renderChildren, List.cons_append, XMLParser.isCloseTag] at ih' ⊢
      simpa using ih'

theorem getWord_of_word (old : String) (buf : List Char) (h : skipWs buf ≠ []) :
    IStream.getWord old ⟨buf, false⟩
      = (String.mk ((skipWs buf).takeWhile (fun x => !isSpace x)),
         ⟨(skipWs buf).dropWhile (fun x => !isSpace x), false⟩) := by
  unfold IStream.getWord
  cases hs : skipWs buf with
  | nil => exact absurd hs h
  | cons c cs => simp

/-- On a text of two words the two extractions overwrite both variables. -/
theorem readWords_of_isVarnameValue (v : String) (h : isVarnameValue v) (a b : String) :
    readWords v a b = readWords v "" "" := by
  obtain ⟨h1, h2⟩ := h
  simp only [readWords, IStream.ofString]
  rw [getWord_of_word a _ h1, getWord_of_word "" _ h1]
  dsimp only
  rw [getWord_of_word b _ h2, getWord_of_word "" _ h2]

theorem stepParam_fold (cs : List (String × String))
    (hc : ∀ c ∈ cs, c.1 ∈ paramTags)
    (hv : ∀ c ∈ cs, c.1 = "varname" → isVarnameValue c.2)
    (hr : ∀ c ∈ cs, c.1 = "range" → isPointValue c.2) :
    cs.foldl stepParam ParamVars.init =
      { type := (lastValue "type" cs).getD "STRING"
        textLabel := (lastValue "label" cs).getD ""
        name := ((lastValue "varname" cs).map (fun v => (readWords v "" "").2)).getD ""
        logicOrGui := ((lastValue "varname" cs).map (fun v => (readWords v "" "").1)).getD "GUI"
        Rmin := ((lastValue "range" cs).map (fun v => (readPair v (.fin 0) (.fin 0)).1)).getD
          (.fin (-binary32.maxFinite))
        Rmax := ((lastValue "range" cs).map (fun v => (readPair v (.fin 0) (.fin 0)).2)).getD
          (.fin binary32.maxFinite) } := by
  induction cs using List.reverseRecOn with
  | nil => simp [lastValue_nil, ParamVars.init]
  | append_singleton cs c ih =>
    have ih' := ih (fun x hx => hc x (List.mem_append_left _ hx))
      (fun x hx => hv x (List.mem_append_left _ hx))
      (fun x hx => hr x (List.mem_append_left _ hx))
    have hc1 : c.1 ∈ paramTags := hc c (by simp)
    have hv1 : c.1 = "varname" → isVarnameValue c.2 := hv c (by simp)
    have hr1 : c.1 = "range" → isPointValue c.2 := hr c (by simp)
    rw [List.foldl_append, ih']
    obtain ⟨t, s⟩ := c
    simp only [paramTags, List.mem_cons, List.mem_singleton, List.not_mem_nil, or_false] at hc1
    simp only [lastValue_snoc, List.foldl_cons, List.foldl_nil]
    rcases hc1 with h | h | h | h <;> subst h
    · simp [stepParam, paramChild, XMLParser.readTagValue]
    · simp [stepParam, paramChild, XMLParser.readTagValue]
    · have hw := readWords_of_isVarnameValue s (hv1 rfl)
      simp [stepParam, paramChild, XMLParser.readTagValue, hw]
    · have hw := readPair_of_isPointValue s (hr1 rfl)
      simp [stepParam, paramChild, XMLParser.readTagValue, hw]

theorem mkDialogParam_expected (cs : List (String × String))
    (hc : ∀ c ∈ cs, c.1 ∈ paramTags)
    (hv : ∀ c ∈ cs, c.1 = "varname" → isVarnameValue c.2)
    (hr : ∀ c ∈ cs, c.1 = "range" → isPointValue c.2) :
    mkDialogParam (cs.foldl stepParam ParamVars.init) = expectedParam cs := by
  rw [stepParam_fold cs hc hv hr]
  simp only [mkDialogParam, expectedParam]
  congr 1
  cases lastValue "varname" cs <;> simp

theorem paramDlgLoop_render (closing : String) (rest : XMLParser) :
    ∀ (bs : List (List (String × String))) (g : LibraryGate) (fuel : Nat),
      (∀ cs ∈ bs, ∀ c ∈ cs, c.1 ∈ paramTags) →
      (∀ cs ∈ bs, ∀ c ∈ cs, c.1 = "varname" → isVarnameValue c.2) →
      (∀ cs ∈ bs, ∀ c ∈ cs, c.1 = "range" → isPointValue c.2) →
      bs.length < fuel → (∀ cs ∈ bs, bs.length + cs.length < fuel) →
      paramDlgLoop fuel g (renderParams bs ++ .closeTag closing :: rest)
        = some ({ g with dlgParams := g.dlgParams ++ bs.map expectedParam },
            .closeTag closing :: rest) := by
  intro bs
  induction bs with
  | nil =>
    intro g fuel _ _ _ hf _
    obtain ⟨k, rfl⟩ : ∃ k, fuel = k + 1 := ⟨fuel - 1, by simp at hf; omega⟩
    simp [paramDlgLoop, renderParams, XMLParser.readTag]
  | cons cs bs ih =>
    intro g fuel hc hv hr hf hf2
    obtain ⟨k, rfl⟩ : ∃ k, fuel = k + 1 := ⟨fuel - 1, by simp at hf; omega⟩
    have hcs : cs.length < k := by
      have := hf2 cs (List.mem_cons_self _ _)
      simp only [List.length_cons] at this
      omega
    have hloop := paramLoop_render "param" (renderParams bs ++ .closeTag closing :: rest) cs
      ParamVars.init k (hc cs (List.mem_cons_self _ _)) hcs
    have hmk := mkDialogParam_expected cs (hc cs (List.mem_cons_self _ _))
      (hv cs (List.mem_cons_self _ _)) (hr cs (List.mem_cons_self _ _))
    have ih' := ih { g with dlgParams := g.dlgParams ++ [expectedParam cs] } k
      (fun x hx => hc x (List.mem_cons_of_mem _ hx))
      (fun x hx => hv x (List.mem_cons_of_mem _ hx))
      (fun x hx => hr x (List.mem_cons_of_mem _ hx))
      (by simp only [List.length_cons] at hf; omega)
      (fun x hx => by
        have := hf2 x (List.mem_cons_of_mem _ hx)
        simp only [List.length_cons] at this
        omega)
    have hne : ("param" = "") = False := by decide
    simp only [paramDlgLoop, renderParams, List.cons_append, List.append_assoc,
      XMLParser.readTag, hne, if_false, if_true, hloop, hmk, XMLParser.readCloseTag]
    cases bs with
    | nil =>
      simp [renderParams, XMLParser.isCloseTag]
    | cons d ds =>
      simp only [renderParams, List.cons_append, XMLParser.isCloseTag] at ih' ⊢
      simpa [List.append_assoc] using ih'

/-- Claim C12. For a `param_dlg_data` block made of `param` blocks whose children are recognised
tags (`type`, `label`, `varname`, `range`) in any order and number, every `varname` value being
of two words and every `range` value of the form `min,max`, `parseFile` appends one dialog
parameter for each `param` block, in stream order: its type is the last `type` value or
`STRING`, its label the last `label` value or empty, its name the second word of the last
`varname` value or empty, `isGui` holds when there is no `varname` and otherwise exactly when the
first word of the last `varname` value is `GUI`, and its range is that of the last `range` value
or from `-FLT_MAX` to `FLT_MAX`. -/
theorem parseFile_dialog_params (m : Libm) (fuel : Nat) (closing : String)
    (newGate : LibraryGate) (rest : XMLParser) (bs : List (List (String × String)))
    (hTags : ∀ cs ∈ bs, ∀ c ∈ cs, c.1 ∈ paramTags)
    (hVar : ∀ cs ∈ bs, ∀ c ∈ cs, c.1 = "varname" → isVarnameValue c.2)
    (hRange : ∀ cs ∈ bs, ∀ c ∈ cs, c.1 = "range" → isPointValue c.2)
    (hFuel : bs.length < fuel) (hFuel2 : ∀ cs ∈ bs, bs.length + cs.length < fuel) :
    gateChild m fuel "param_dlg_data" newGate (renderParams bs ++ .closeTag closing :: rest)
      = some ({ newGate with dlgParams := newGate.dlgParams ++ bs.map expectedParam }, rest) := by
  have h := paramDlgLoop_render closing rest bs newGate fuel hTags hVar hRange hFuel hFuel2
  have h1 : ¬ ("param_dlg_data" = "input" ∨ "param_dlg_data" = "output") := by decide
  have h2 : ¬ ("param_dlg_data" = "shape") := by decide
  simp only [gateChild, h1, h2, if_false, if_true, parseParamDlg, h, XMLParser.readCloseTag]

theorem parseFile_dialog_params_witness :
    gateChild ⟨fun _ => .fin 0, fun _ => .fin 0⟩ 7 "param_dlg_data" LibraryGate.empty
        (renderParams sampleParams ++ [.closeTag "param_dlg_data"])
      = some ({ LibraryGate.empty with
                  dlgParams :=
                    [{ textLabel := "Delay", name := "DELAY", type := "FLOAT", isGui := false,
                       Rmin := .fin 0, Rmax := .fin 10 },
                     { textLabel := "", name := "", type := "STRING", isGui := true,
                       Rmin := .fin (-binary32.maxFinite), Rmax := .fin binary32.maxFinite }] },
              []) :=
  (parseFile_dialog_params ⟨fun _ => .fin 0, fun _ => .fin 0⟩ 7 "param_dlg_data"
    LibraryGate.empty [] sampleParams (by decide)
    (by
      intro cs hcs c hc hv
      simp only [sampleParams, List.mem_cons, List.mem_singleton, List.not_mem_nil,
        or_false] at hcs
      rcases hcs with rfl | rfl
      · simp only [List.mem_cons, List.mem_singleton, List.not_mem_nil, or_false] at hc
        rcases hc with rfl | rfl | rfl | rfl
        · exact absurd hv (by decide)
        · exact ⟨by decide, by decide⟩
        · exact absurd hv (by decide)
        · exact absurd hv (by decide)
      · cases hc)
    (by
      intro cs hcs c hc hv
      simp only [sampleParams, List.mem_cons, List.mem_singleton, List.not_mem_nil,
        or_false] at hcs
      rcases hcs with rfl | rfl
      · simp only [List.mem_cons, List.mem_singleton, List.not_mem_nil, or_false] at hc
        rcases hc with rfl | rfl | rfl | rfl
        · exact ⟨0, 10, "10".data, [], by decide!, by decide!, by decide!, by decide!⟩
        · exact absurd hv (by decide)
        · exact absurd hv (by decide)
        · exact absurd hv (by decide)
      · cases hc)
    (by decide) (by decide)).trans (by decide!)

theorem circleLoop_mono (m : Libm) (x1 y1 radius degStep : Fp) :
    ∀ (fuel k : Nat) (i : Fp) (last : Fp × Fp) (shape s : List LibraryGateLine),
      circleLoop m x1 y1 radius degStep fuel i last shape = some s →
      circleLoop m x1 y1 radius degStep (fuel + k) i last shape = some s := by
  intro fuel
  induction fuel with
  | zero => intro k i last shape s h; simp [circleLoop] at h
  | succ f ih =>
    intro k i last shape s h
    rw [Nat.add_right_comm]
    by_cases hle : Fp.le i (toFloat 360) = true
    · simp only [circleLoop, hle, if_true] at h ⊢
      exact ih k _ _ _ _ h
    · simp only [circleLoop, hle] at h ⊢
      exact h

/-- A shape object followed by more tokens is decoded as it is on its own, and the reader moves
past it; more fuel does not change the result. -/
theorem parseShapeObject_render (m : Libm) (fuel k : Nat) (kind value : String)
    (hk : kind ∈ shapeKinds) (rest : XMLParser) (g g2 : LibraryGate) (off : Fp × Fp)
    (h : decodeObject m fuel g (off, (kind, value)) = some g2) :
    ∃ b, parseShapeObject m (fuel + k) kind (.text value :: .closeTag kind :: rest) g off.1 off.2
      = some (b, rest, g2) := by
  simp only [shapeKinds, List.mem_cons, List.mem_singleton, List.not_mem_nil, or_false] at hk
  unfold decodeObject at h
  rcases hk with rfl | rfl
  · refine ⟨true, ?_⟩
    simp only [parseShapeObject, if_true, XMLParser.readTagValue, XMLParser.readCloseTag,
      Option.map_some', Option.some.injEq] at h ⊢
    rw [← h]
  · refine ⟨true, ?_⟩
    dsimp only at h
    rw [parseShapeObject_circle_eq] at h ⊢
    simp only [Option.map_map, Option.map_eq_some', Function.comp] at h
    obtain ⟨s, hs, rfl⟩ := h
    rw [circleLoop_mono _ _ _ _ _ _ k _ _ _ _ hs]
    rfl

theorem offsetLoop_render (m : Libm) (f0 : Nat) (off : Fp × Fp) (closing : String)
    (rest : XMLParser) :
    ∀ (objs : List (String × String)) (g g2 : LibraryGate) (fuel : Nat),
      (∀ o ∈ objs, o.1 ∈ shapeKinds) →
      decodeAll m f0 (objs.map (fun o => (off, o))) g = some g2 →
      f0 + objs.length + 1 ≤ fuel →
      offsetLoop m off.1 off.2 fuel g (renderChildren objs ++ .closeTag closing :: rest)
        = some (g2, .closeTag closing :: rest) := by
  intro objs
  induction objs with
  | nil =>
    intro g g2 fuel _ hd hf
    obtain ⟨k, rfl⟩ : ∃ k, fuel = k + 1 := ⟨fuel - 1, by omega⟩
    simp only [List.map_nil, decodeAll, Option.some.injEq] at hd
    subst hd
    simp [offsetLoop, renderChildren, XMLParser.readTag]
  | cons o objs ih =>
    intro g g2 fuel hk hd hf
    obtain ⟨k, rfl⟩ : ∃ k, fuel = k + 1 := ⟨fuel - 1, by omega⟩
    obtain ⟨kind, value⟩ := o
    have hk1 : kind ∈ shapeKinds := hk (kind, value) (List.mem_cons_self _ _)
    have hne : kind ≠ "" := by
      intro h; rw [h] at hk1; revert hk1; decide
    simp only [List.map_cons, decodeAll] at hd
    cases h1 : decodeObject m f0 g (off, (kind, value)) with
    | none => rw [h1] at hd; cases hd
    | some g1 =>
      rw [h1] at hd
      simp only [Option.some_bind] at hd
      obtain ⟨d, rfl⟩ : ∃ d, k = f0 + d := ⟨k - f0, by simp only [List.length_cons] at hf; omega⟩
      obtain ⟨b, hp⟩ := parseShapeObject_render m f0 d kind value hk1
        (renderChildren objs ++ .closeTag closing :: rest) g g1 off h1
      simp only [offsetLoop, renderChildren, List.cons_append, XMLParser.readTag, hne, if_false,
        hp]
      cases objs with
      | nil =>
        simp only [List.map_nil, decodeAll, Option.some.injEq] at hd
        subst hd
        simp [renderChildren, XMLParser.isCloseTag]
      | cons o2 objs2 =>
        have ih' := ih g1 g2 (f0 + d) (fun x hx => hk x (List.mem_cons_of_mem _ hx)) hd
          (by simp only [List.length_cons] at hf ⊢; omega)
        simp only [renderChildren, List.cons_append, XMLParser.isCloseTag] at ih' ⊢
        simpa using ih'

theorem decodeAll_append (m : Libm) (fuel : Nat) :
    ∀ (a b : List ((Fp × Fp) × (String × String))) (g : LibraryGate),
      decodeAll m fuel (a ++ b) g = (decodeAll m fuel a g).bind (decodeAll m fuel b) := by
  intro a
  induction a with
  | nil => intro b g; rfl
  | cons o a ih =>
    intro b g
    simp only [List.cons_append, decodeAll]
    cases decodeObject m fuel g o with
    | none => rfl
    | some g1 => exact ih b g1

theorem isCloseTag_renderShape (items : List ShapeItem) (closing : String) (rest : XMLParser) :
    XMLParser.isCloseTag (renderShape items ++ .closeTag closing :: rest)
      = items.isEmpty := by
  cases items with
  | nil => simp [renderShape, XMLParser.isCloseTag]
  | cons it items =>
    cases it <;> simp [renderShape, XMLParser.isCloseTag]

theorem renderShape_scope (point : String) (objs : List (String × String))
    (items : List ShapeItem) (t : List Tok) :
    renderShape (.scope point objs :: items) ++ t
      = .openTag "offset" :: .openTag "point" :: .text point :: .closeTag "point" ::
          (renderChildren objs ++ .closeTag "offset" :: (renderShape items ++ t)) := by
  show (Tok.openTag "offset" :: Tok.openTag "point" :: Tok.text point :: Tok.closeTag "point" ::
      (renderChildren objs ++ Tok.closeTag "offset" :: renderShape items)) ++ t = _
  simp only [List.cons_append, List.append_assoc]

theorem shapeLoop_render (m : Libm) (f0 : Nat) (closing : String) (rest : XMLParser) :
    ∀ (items : List ShapeItem) (g g2 : LibraryGate) (fuel : Nat),
      (∀ kind value, ShapeItem.object kind value ∈ items → kind ∈ shapeKinds) →
      (∀ point objs, ShapeItem.scope point objs ∈ items → ∀ o ∈ objs, o.1 ∈ shapeKinds) →
      decodeAll m f0 (offsetsOf items) g = some g2 →
      f0 + shapeSize items + 1 ≤ fuel →
      shapeLoop m fuel g (renderShape items ++ .closeTag closing :: rest)
        = some (g2, .closeTag closing :: rest) := by
  intro items
  induction items with
  | nil =>
    intro g g2 fuel _ _ hd hf
    obtain ⟨k, rfl⟩ : ∃ k, fuel = k + 1 := ⟨fuel - 1, by omega⟩
    simp only [offsetsOf, decodeAll, Option.some.injEq] at hd
    subst hd
    simp [shapeLoop, renderShape, XMLParser.readTag]
  | cons it items ih =>
    intro g g2 fuel hko hks hd hf
    obtain ⟨k, rfl⟩ : ∃ k, fuel = k + 1 := ⟨fuel - 1, by omega⟩
    have hko' : ∀ kind value, ShapeItem.object kind value ∈ items → kind ∈ shapeKinds :=
      fun kind value hx => hko kind value (List.mem_cons_of_mem _ hx)
    have hks' : ∀ point objs, ShapeItem.scope point objs ∈ items →
        ∀ o ∈ objs, o.1 ∈ shapeKinds :=
      fun point objs hx => hks point objs (List.mem_cons_of_mem _ hx)
    cases it with
    | object kind value =>
      have hk1 : kind ∈ shapeKinds := hko kind value (List.mem_cons_self _ _)
      have hne : kind ≠ "" := by
        intro h; rw [h] at hk1; revert hk1; decide
      have hno : kind ≠ "offset" := by
        intro h; rw [h] at hk1; revert hk1; decide
      simp only [offsetsOf, decodeAll] at hd
      cases h1 : decodeObject m f0 g ((.fin 0, .fin 0), (kind, value)) with
      | none => rw [h1] at hd; cases hd
      | some g1 =>
        rw [h1] at hd
        simp only [Option.some_bind] at hd
        simp only [shapeSize] at hf
        obtain ⟨d, rfl⟩ : ∃ d, k = f0 + d := ⟨k - f0, by omega⟩
        obtain ⟨b, hp⟩ := parseShapeObject_render m f0 d kind value hk1
          (renderShape items ++ .closeTag closing :: rest) g g1 (.fin 0, .fin 0) h1
        have ih' := ih g1 g2 (f0 + d) hko' hks' hd (by omega)
        simp only [shapeLoop, renderShape, List.cons_append, XMLParser.readTag, hne, hno,
          if_false, hp, isCloseTag_renderShape]
        cases items with
        | nil =>
          simp only [offsetsOf, decodeAll, Option.some.injEq] at hd
          subst hd
          simp [renderShape]
        | cons it2 items2 =>
          simp only [List.isEmpty_cons, Bool.false_eq_true, if_false]
          exact ih'
    | scope point objs =>
      have hk1 : ∀ o ∈ objs, o.1 ∈ shapeKinds := hks point objs (List.mem_cons_self _ _)
      simp only [offsetsOf, decodeAll_append] at hd
      cases h1 : decodeAll m f0 (objs.map (fun o => (readPair point (.fin 0) (.fin 0), o))) g with
      | none => rw [h1] at hd; cases hd
      | some g1 =>
        rw [h1] at hd
        simp only [Option.some_bind] at hd
        simp only [shapeSize] at hf
        have ho := offsetLoop_render m f0 (readPair point (.fin 0) (.fin 0)) "offset"
          (renderShape items ++ .closeTag closing :: rest) objs g g1 k hk1 h1 (by omega)
        have ih' := ih g1 g2 k hko' hks' hd (by omega)
        have e1 : ("offset" = "") = False := by decide
        rw [renderShape_scope]
        simp only [shapeLoop, XMLParser.readTag, e1, if_false, if_true, XMLParser.readTagValue,
          XMLParser.readCloseTag, ho, isCloseTag_renderShape]
        cases items with
        | nil =>
          simp only [offsetsOf, decodeAll, Option.some.injEq] at hd
          subst hd
          simp [renderShape]
        | cons it2 items2 =>
          simp only [List.isEmpty_cons, Bool.false_eq_true, if_false]
          exact ih'

/-- Claim C16. In a `shape` block of `line` and `circle` objects and of `offset` scopes, every
object inside a scope is decoded with the offset given by the `point` of that scope, and every
object directly under `shape`, also one that follows the close of a scope, with the offset
`(0,0)`: the gate after the block is the gate obtained by decoding the objects one after the
other, each with that offset alone. -/
theorem parseFile_offset_scoping (m : Libm) (f0 fuel : Nat) (closing : String)
    (rest : XMLParser) (items : List ShapeItem) (newGate g2 : LibraryGate)
    (hObjects : ∀ kind value, ShapeItem.object kind value ∈ items → kind ∈ shapeKinds)
    (hScopes : ∀ point objs, ShapeItem.scope point objs ∈ items → ∀ o ∈ objs, o.1 ∈ shapeKinds)
    (hDecode : decodeAll m f0 (offsetsOf items) newGate = some g2)
    (hFuel : f0 + shapeSize items + 1 ≤ fuel) :
    gateChild m fuel "shape" newGate (renderShape items ++ .closeTag closing :: rest)
      = some (g2, rest) := by
  have h := shapeLoop_render m f0 closing rest items newGate g2 fuel hObjects hScopes hDecode
    hFuel
  have h1 : ¬ ("shape" = "input" ∨ "shape" = "output") := by decide
  simp only [gateChild, h1, if_false, if_true, parseShape, h, XMLParser.readCloseTag]

theorem parseFile_offset_scoping_witness :
    gateChild ⟨fun _ => .fin 0, fun _ => .fin 0⟩ 6 "shape" LibraryGate.empty
        (renderShape sampleShape ++ [.closeTag "shape"])
      = some ({ LibraryGate.empty with
                  shape := [⟨.fin 0, .fin 0, .fin 1, .fin 1⟩, ⟨.fin 10, .fin 20, .fin 11, .fin 21⟩,
                            ⟨.fin 0, .fin 0, .fin 1, .fin 1⟩] }, []) :=
  parseFile_offset_scoping ⟨fun _ => .fin 0, fun _ => .fin 0⟩ 0 6 "shape" [] sampleShape
    LibraryGate.empty _
    (by
      intro kind value h
      simp only [sampleShape, List.mem_cons, List.mem_singleton, List.not_mem_nil, or_false,
        ShapeItem.object.injEq, false_or, reduceCtorEq] at h
      rcases h with ⟨rfl, _⟩ | ⟨rfl, _⟩ <;> decide)
    (by
      intro point objs h
      simp only [sampleShape, List.mem_cons, List.mem_singleton, List.not_mem_nil, or_false,
        ShapeItem.scope.injEq, false_or, reduceCtorEq] at h
      obtain ⟨_, rfl⟩ := h
      decide)
    (by decide!) (by decide)

end CedarLogic
